import Mathlib

/-!
# group-hat: the `Scheme` class of `v2/scheme.js`

A shallow embedding of the assignment engine, the scoring functions, the
data-quality validator, the group-preference input and the snapshot codec of
`class Scheme`.

JavaScript objects are shared by reference: the same `Person` object sits in
`scheme.people` and in the `members` array of a group, and the validator
mutates it in place.  People are therefore kept in a store indexed by object
reference (`Ref`); `people` and `members` hold references.  `Group` objects
are only reachable through `scheme.groups`, so a group is identified by its
index in that array and kept there by value (the groups array is assumed not
to hold one `Group` object twice).

Numbers: slot counts and scores are integers.  `maxSize` is an arbitrary
number in the source (the validator tests `Number.isInteger`), so it is a
rational here.  The coordinates and the cached happiness of an object are
never computed with, only compared, printed and written to the snapshot: they
are finite numbers (rationals, `-0` taken as `0`), `NaN`, `Infinity`, `-Infinity`
or `null` (`JSNum`).  Identifiers, names and titles are strings; the validator's
`typeof person.id !== 'string'` test can therefore never fire and is left out.
A snapshot is the value that `JSON.parse` reads back from the text written by
`JSON.stringify`: strings, arrays, booleans, `null` and finite numbers come
back as they were, and `NaN`, `Infinity` and `-Infinity` come back as `null`.
-/

namespace GroupHat

/-! ## Data model -/

/-- Object reference of a `Person`. -/
abbrev Ref := Nat

/-- The value of a numeric field that is only stored, compared and printed: a finite number,
one of the numbers `NaN`, `Infinity`, `-Infinity`, or `null`. -/
inductive JSNum where
  | num (q : ℚ)
  | nan
  | posInf
  | negInf
  | null
deriving DecidableEq, Repr, Inhabited

instance (n : Nat) : OfNat JSNum n := ⟨JSNum.num n⟩

/-- The value `JSON.parse(JSON.stringify(v))`: `JSON.stringify` writes `NaN`, `Infinity` and
`-Infinity` as `null`. -/
def JSNum.viaJSON : JSNum → JSNum
  | .num q => .num q
  | .nan => .null
  | .posInf => .null
  | .negInf => .null
  | .null => .null

/-- Fields of a `Person` object read or written by `Scheme`. -/
structure Person where
  id : String
  firstName : String
  lastName : String
  connections : List String
  groupPreferences : List String
  happiness : JSNum
  x : JSNum
  y : JSNum
deriving DecidableEq, Repr, Inhabited

/-- Fields of a `Group` object; an entry of `members` is a person reference or `null`. -/
structure Group where
  title : String
  maxSize : ℚ
  x : JSNum
  y : JSNum
  members : List (Option Ref)
deriving DecidableEq, Inhabited

/-- The store of `Person` objects. -/
abbrev Store := Ref → Person

/-- State of a `Scheme` object: the fields the engine and the validator use, and the store. -/
structure Scheme where
  title : String
  store : Store
  people : List Ref
  groups : List Group
  useGroupPreferences : Bool
  rankThreshold : Int

/-! ## Scoring (`calculateGroupPreferenceScore`, `calculateGroupScore`) -/

/-- The scan of `Array.prototype.indexOf` from position `i`: index of the first match,
`-1` if none. -/
def indexOfFrom (t : String) : List String → Nat → Int
  | [], _ => -1
  | x :: xs, i => if x = t then (i : Int) else indexOfFrom t xs (i + 1)

/-- The call `array.indexOf(t)`. -/
def indexOf (l : List String) (t : String) : Int := indexOfFrom t l 0

/-- The method `calculateGroupPreferenceScore(person, group)`. -/
def calculateGroupPreferenceScore (person : Person) (group : Group) : Int :=
  let preferenceIndex := indexOf person.groupPreferences group.title
  if preferenceIndex = -1 then 0
  else (person.groupPreferences.length : Int) - preferenceIndex

/-- The method `calculateGroupScore(person, group)`:
`group.members.filter((member) => member && person.connections.includes(member.id)).length`. -/
def calculateGroupScore (store : Store) (person : Person) (group : Group) : Int :=
  ((group.members.filter (fun member =>
      match member with
      | some r => person.connections.contains (store r).id
      | none => false)).length : Int)

/-! ## Eligibility (`canAddToGroup`) -/

/-- The occupied count `group.members.filter((m) => m !== null).length`. -/
def occupied (group : Group) : Nat :=
  (group.members.filter (fun m => m.isSome)).length

/-- The call `Math.min(...xs)`; `none` stands for `Infinity`, the value for no argument. -/
def mathMin : List Nat → Option Nat
  | [] => none
  | x :: xs =>
    match mathMin xs with
    | none => some x
    | some m => some (min x m)

/-- The method `canAddToGroup(group)`. -/
def canAddToGroup (s : Scheme) (group : Group) : Bool :=
  let currentSize := occupied group
  let minGroupSize := mathMin (s.groups.map occupied)
  decide ((currentSize : ℚ) < group.maxSize) &&
    (if !s.useGroupPreferences then
      (match minGroupSize with
       | none => true
       | some m => decide (currentSize < m + 5))
     else true)

/-! ## Random draws and `shuffleArray` -/

/-- One call of `Math.random()`: the next element of the list of draws (`0` once it is used up).
A draw `r` stands for the outcome `Math.floor(Math.random() * k) = r % k`. -/
def nextDraw : List Nat → Nat × List Nat
  | [] => (0, [])
  | r :: rest => (r, rest)

/-- Swap `[array[i], array[j]] = [array[j], array[i]]` for indices inside the array. -/
def swap {α : Type} (array : List α) (i j : Nat) : List α :=
  match array[i]?, array[j]? with
  | some a, some b => (array.set i b).set j a
  | _, _ => array

/-- The loop of `shuffleArray`, `for (let i = end - 1; i > start; i--)`, entered at index `i`. -/
def shuffleFrom {α : Type} (start : Nat) : Nat → List α → List Nat → List α × List Nat
  | 0, array, draws => (array, draws)
  | i + 1, array, draws =>
    if i + 1 > start then
      let (r, draws1) := nextDraw draws
      let j := r % (i + 1 - start + 1) + start
      shuffleFrom start i (swap array (i + 1) j) draws1
    else (array, draws)

/-- The method `shuffleArray(array, start, end)`: the array after the shuffle and the draws left. -/
def shuffleArray {α : Type} (array : List α) (start stop : Nat) (draws : List Nat) :
    List α × List Nat :=
  shuffleFrom start (stop - 1) array draws

/-- The value `person.connections.length` of the person at an index of the array, if any. -/
def connectionCountAt (store : Store) (people : List Ref) (i : Nat) : Option Nat :=
  (people[i]?).map (fun r => (store r).connections.length)

/-- The loop of `randomizeEqualConnections`, `for (let i = 1; i <= people.length; i++)`,
with `fuel` iterations left, at index `i`, the current run starting at `start`. -/
def randomizeLoop (store : Store) : Nat → Nat → Nat → List Ref → List Nat → List Ref × List Nat
  | 0, _, _, people, draws => (people, draws)
  | fuel + 1, i, start, people, draws =>
    if i = people.length ∨ connectionCountAt store people i ≠ connectionCountAt store people start then
      let (people1, draws1) := shuffleArray people start i draws
      randomizeLoop store fuel (i + 1) i people1 draws1
    else randomizeLoop store fuel (i + 1) start people draws

/-- The method `randomizeEqualConnections(people)`; the loop runs `people.length` times. -/
def randomizeEqualConnections (store : Store) (people : List Ref) (draws : List Nat) :
    List Ref × List Nat :=
  randomizeLoop store people.length 1 0 people draws

/-! ## Balanced assignment -/

/-- The array after putting `person` into its first `null` slot (unchanged if there is none). -/
def fillFirstFree (person : Ref) : List (Option Ref) → List (Option Ref)
  | [] => []
  | none :: rest => some person :: rest
  | some r :: rest => some r :: fillFirstFree person rest

/-- Modelled from the spec: `Group.addMember(person, x, y)`, a method of the `Group` class,
which is not part of `scheme.js`.  The spec places the person "in that group's next free slot
(first free index found by linear scan)"; the two coordinates only serve presentation. -/
def Group.addMember (group : Group) (person : Ref) : Group :=
  { group with members := fillFirstFree person group.members }

/-- The score under the active scoring function (`useGroupPreferences` selects it). -/
def activeScore (s : Scheme) (person : Person) (group : Group) : Int :=
  if s.useGroupPreferences then calculateGroupPreferenceScore person group
  else calculateGroupScore s.store person group

/-- The inner loop of `balancedAssignment`, `for (let group of randomizedGroups)`, over the
groups paired with their index in `this.groups`; `bestGroup` and `bestScore` are the loop
variables, and the result is the final `bestGroup`. -/
def selectLoop (s : Scheme) (person : Person) :
    List (Nat × Group) → Option (Nat × Group) → Int → Option (Nat × Group)
  | [], bestGroup, _ => bestGroup
  | (gi, group) :: rest, bestGroup, bestScore =>
    if canAddToGroup s group then
      let score := activeScore s person group
      if score > bestScore then selectLoop s person rest (some (gi, group)) score
      else selectLoop s person rest bestGroup bestScore
    else selectLoop s person rest bestGroup bestScore

/-- One turn of the outer loop of `balancedAssignment`: the groups are shuffled, and the
chosen `bestGroup` (if any) is returned with the draws left. -/
def chooseGroup (s : Scheme) (person : Ref) (draws : List Nat) :
    Option (Nat × Group) × List Nat :=
  let (randomizedGroups, draws1) := shuffleArray s.groups.enum 0 s.groups.length draws
  (selectLoop s (s.store person) randomizedGroups none (-1), draws1)

/-- The outer loop of `balancedAssignment`, `for (let person of unassignedPeople)`. -/
def assignLoop : Scheme → List Ref → List Nat → Scheme × List Nat
  | s, [], draws => (s, draws)
  | s, person :: rest, draws =>
    match chooseGroup s person draws with
    | (some (gi, bestGroup), draws1) =>
      assignLoop { s with groups := s.groups.set gi (bestGroup.addMember person) } rest draws1
    | (none, draws1) => assignLoop s rest draws1

/-- The order of `(a, b) => b.connections.length - a.connections.length`: `a` may stay before `b`. -/
def moreConnected (store : Store) (a b : Ref) : Prop :=
  (store b).connections.length ≤ (store a).connections.length

instance (store : Store) : DecidableRel (moreConnected store) :=
  fun a b => inferInstanceAs (Decidable ((store b).connections.length ≤ (store a).connections.length))

instance (store : Store) : IsTotal Ref (moreConnected store) :=
  ⟨fun a b => Nat.le_total (store b).connections.length (store a).connections.length⟩

instance (store : Store) : IsTrans Ref (moreConnected store) :=
  ⟨fun _ _ _ hab hbc => Nat.le_trans hbc hab⟩

/-- The first two statements of `balancedAssignment`: the stable descending sort by
connection count and `randomizeEqualConnections`; the order of placement and the draws left. -/
def placementOrder (s : Scheme) (unassignedPeople : List Ref) (draws : List Nat) :
    List Ref × List Nat :=
  randomizeEqualConnections s.store
    (unassignedPeople.insertionSort (moreConnected s.store)) draws

/-- The method `balancedAssignment(unassignedPeople)`: the ordering, then the placement loop. -/
def balancedAssignment (s : Scheme) (unassignedPeople : List Ref) (draws : List Nat) :
    Scheme × List Nat :=
  assignLoop s (placementOrder s unassignedPeople draws).1
    (placementOrder s unassignedPeople draws).2

/-! ## Data-quality validator -/

/-- The error messages of `validateDataQuality`, by kind, with the values they interpolate. -/
inductive DQError where
  | duplicatePersonId (id : String)
  | duplicateGroupTitle (title : String)
  | missingPersonField (id : String)
  | missingGroupField (title : String)
  | invalidMaxSize (title : String) (maxSize : ℚ)
  | exceedsMaxSize (title : String)
  | invalidMember (title : String) (memberId : String)
  | samePosition (title : String) (x y : JSNum)
deriving DecidableEq

/-- The warning messages of `validateDataQuality`, by kind. -/
inductive DQWarning where
  | invalidConnection (connId : String) (personId : String)
  | selfConnection (personId : String)
  | happinessConflict (personId : String) (found : JSNum) (expected : Int)
deriving DecidableEq

/-- What a call can throw: the `TypeError` of calling a method that does not exist, and
`new Error('Data quality check failed')`. -/
inductive Exn where
  | typeError
  | dataQualityCheckFailed
deriving DecidableEq

deriving instance DecidableEq for Except

/-- The object `{ errors, warnings }` returned by `validateDataQuality`. -/
structure Report where
  errors : List DQError
  warnings : List DQWarning
deriving DecidableEq

/-- The uniqueness loops: with `seen` the set built so far, the values that were already in
the set when their turn came (one per `errors.push`). -/
def duplicateScan (seen : List String) : List String → List String
  | [] => []
  | x :: xs =>
    if x ∈ seen then x :: duplicateScan (x :: seen) xs
    else duplicateScan (x :: seen) xs

/-- Required fields of people: `!person.id || !person.firstName || !person.lastName`. -/
def personFieldErrors (store : Store) : List Ref → List DQError
  | [] => []
  | r :: rest =>
    let person := store r
    (if person.id = "" ∨ person.firstName = "" ∨ person.lastName = "" then
      [DQError.missingPersonField person.id] else []) ++ personFieldErrors store rest

/-- Required fields and `maxSize` of groups. -/
def groupFieldErrors : List Group → List DQError
  | [] => []
  | group :: rest =>
    (if group.title = "" ∨ group.maxSize = 0 then
      [DQError.missingGroupField group.title] else []) ++
    (if ¬ group.maxSize.isInt = true ∨ group.maxSize ≤ 0 then
      [DQError.invalidMaxSize group.title group.maxSize] else []) ++
    groupFieldErrors rest

/-- The loop over `person.connections`: the ids kept in `validConnections` and the warnings. -/
def scanConnections (personIds : List String) (personId : String) :
    List String → List String × List DQWarning
  | [] => ([], [])
  | connId :: rest =>
    let (valid, warnings) := scanConnections personIds personId rest
    if ¬ connId ∈ personIds then (valid, DQWarning.invalidConnection connId personId :: warnings)
    else if connId = personId then (valid, DQWarning.selfConnection personId :: warnings)
    else (connId :: valid, warnings)

/-- The connection check, `for (let person of this.people)`.  When a person loses a
connection, `person.connections` is overwritten and `this.updatePersonHappiness(person)` is
called; `Scheme` has no method of that name, so the call throws a `TypeError`, which ends
`validateDataQuality`.  The store is returned as the loop left it. -/
def pruneConnections (personIds : List String) :
    Store → List Ref → Store × Except Exn (List DQWarning)
  | store, [] => (store, .ok [])
  | store, r :: rest =>
    let person := store r
    let (validConnections, warnings) := scanConnections personIds person.id person.connections
    if validConnections.length ≠ person.connections.length then
      (Function.update store r { person with connections := validConnections }, .error .typeError)
    else
      match pruneConnections personIds store rest with
      | (store1, .ok warnings1) => (store1, .ok (warnings ++ warnings1))
      | (store1, .error e) => (store1, .error e)

/-- The group-assignment check: capacity, then members that are not in `this.people`. -/
def groupAssignmentErrors (store : Store) (people : List Ref) : List Group → List DQError
  | [] => []
  | group :: rest =>
    (if (occupied group : ℚ) > group.maxSize then [DQError.exceedsMaxSize group.title] else []) ++
    (group.members.filterMap (fun member =>
      match member with
      | some r => if r ∉ people then some (DQError.invalidMember group.title (store r).id) else none
      | none => none)) ++
    groupAssignmentErrors store people rest

/-- Modelled from the spec: `Person.calculateHappiness(group)`, a method of the `Person`
class, which is not part of `scheme.js`.  It is `0` without a group; otherwise the number of
occupied slots whose occupant's id is in the person's connections, except that the result is
`-1` when that number is `0` and the group has an occupant other than the person. -/
def calculateHappiness (store : Store) (person : Ref) (group : Option Group) : Int :=
  match group with
  | none => 0
  | some g =>
    let count := calculateGroupScore store (store person) g
    if count = 0 ∧ g.members.any (fun m => m.isSome && m != some person) = true then -1
    else count

/-- The happiness check: `this.groups.find((group) => group.members.includes(person))`
and the comparison with the cached value. -/
def happinessWarnings (store : Store) (groups : List Group) : List Ref → List DQWarning
  | [] => []
  | r :: rest =>
    let assignedGroup := groups.find? (fun group => group.members.contains (some r))
    let expectedHappiness := calculateHappiness store r assignedGroup
    (if (store r).happiness ≠ JSNum.num expectedHappiness then
      [DQWarning.happinessConflict (store r).id (store r).happiness expectedHappiness] else []) ++
    happinessWarnings store groups rest

/-- The position loop of one group: `occupiedPositions` is the set built so far.  Two keys
`${member.x},${member.y}` are the same string exactly when the two pairs of values are the
same, so the set holds the pairs. -/
def positionScan (store : Store) (title : String) :
    List (JSNum × JSNum) → List (Option Ref) → List DQError
  | _, [] => []
  | occupiedPositions, none :: rest => positionScan store title occupiedPositions rest
  | occupiedPositions, some r :: rest =>
    let position := ((store r).x, (store r).y)
    (if position ∈ occupiedPositions then [DQError.samePosition title position.1 position.2]
     else []) ++ positionScan store title (position :: occupiedPositions) rest

/-- The position check over all groups. -/
def positionErrors (store : Store) : List Group → List DQError
  | [] => []
  | group :: rest => positionScan store group.title [] group.members ++ positionErrors store rest

/-- The method `validateDataQuality()`: the scheme it leaves (connections may have been rewritten) and
either the report it returns or what it throws. -/
def validateDataQuality (s : Scheme) : Scheme × Except Exn Report :=
  let personIds := s.people.map (fun r => (s.store r).id)
  let errors1 := (duplicateScan [] personIds).map DQError.duplicatePersonId
  let errors2 := (duplicateScan [] (s.groups.map (fun g => g.title))).map DQError.duplicateGroupTitle
  let errors3 := personFieldErrors s.store s.people
  let errors4 := groupFieldErrors s.groups
  match pruneConnections personIds s.store s.people with
  | (store1, .error e) => ({ s with store := store1 }, .error e)
  | (store1, .ok warnings1) =>
    let errors5 := groupAssignmentErrors store1 s.people s.groups
    let warnings2 := happinessWarnings store1 s.groups s.people
    let errors6 := positionErrors store1 s.groups
    ({ s with store := store1 },
     .ok { errors := errors1 ++ errors2 ++ errors3 ++ errors4 ++ errors5 ++ errors6,
           warnings := warnings1 ++ warnings2 })

/-- The method `ensureDataQuality()`: warnings are only logged; any error throws. -/
def ensureDataQuality (s : Scheme) : Scheme × Except Exn Unit :=
  match validateDataQuality s with
  | (s1, .error e) => (s1, .error e)
  | (s1, .ok report) =>
    if report.errors.length > 0 then (s1, .error .dataQualityCheckFailed)
    else (s1, .ok ())

/-- The method `setPeople(people)`: assign, then check. -/
def setPeople (s : Scheme) (people : List Ref) : Scheme × Except Exn Unit :=
  ensureDataQuality { s with people := people }

/-- The method `setGroups(groups)`: assign, then check. -/
def setGroups (s : Scheme) (groups : List Group) : Scheme × Except Exn Unit :=
  ensureDataQuality { s with groups := groups }

/-! ## Group-preference input (`setGroupPreferences`) -/

/-- The code points removed by `String.prototype.trim`: white space and line terminators. -/
def isTrimChar (c : Char) : Bool :=
  let n := c.toNat
  n = 9 || n = 10 || n = 11 || n = 12 || n = 13 || n = 32 || n = 160 || n = 5760 ||
    (8192 ≤ n && n ≤ 8202) || n = 8232 || n = 8233 || n = 8239 || n = 8287 || n = 12288 ||
    n = 65279

/-- The method `item.trim()` on the characters of a string. -/
def trimChars (cs : List Char) : List Char :=
  ((cs.dropWhile isTrimChar).reverse.dropWhile isTrimChar).reverse

/-- The method `pref.split(',')` on the characters of a string (code point 44 is the comma):
always at least one piece. -/
def splitComma : List Char → List (List Char)
  | [] => [[]]
  | c :: cs =>
    if c = Char.ofNat 44 then [] :: splitComma cs
    else
      match splitComma cs with
      | [] => [[c]]
      | piece :: pieces => (c :: piece) :: pieces

/-- The expression `pref.split(',').map((item) => item.trim())`. -/
def tokens (pref : String) : List String :=
  (splitComma pref.data).map (fun piece => String.mk (trimChars piece))

/-- Modelled from the spec: `Person.setGroupPreferences(groupPrefs)`, a method of the `Person`
class, which is not part of `scheme.js`.  The remaining tokens of a line are the person's
"ordered group titles": the method stores them as `groupPreferences`. -/
def Person.setGroupPreferences (person : Person) (groupPrefs : List String) : Person :=
  { person with groupPreferences := groupPrefs }

/-- The body of the `forEach` of `setGroupPreferences` for one line.  The first token is the
person id and `this.people.find` gives the first person with that id; without people, or
without such a person, only a warning is logged. -/
def setPreferenceLine (s : Scheme) (pref : String) : Scheme :=
  match tokens pref with
  | [] => s
  | personId :: groupPrefs =>
    if s.people.length > 0 then
      match s.people.find? (fun r => decide ((s.store r).id = personId)) with
      | some r =>
        { s with store := Function.update s.store r ((s.store r).setGroupPreferences groupPrefs) }
      | none => s
    else s

/-- The method `setGroupPreferences(preferences)`. -/
def setGroupPreferences (s : Scheme) (preferences : List String) : Scheme :=
  preferences.foldl setPreferenceLine s

/-- The person a line is for: the first person in `people` whose id is the first token. -/
def lineTarget (s : Scheme) (pref : String) : Option Ref :=
  match tokens pref with
  | [] => none
  | personId :: _ => s.people.find? (fun r => decide ((s.store r).id = personId))

/-! ## Snapshot codec (`serialize`, `deserialize`) -/

/-- A person entry of the snapshot object. -/
structure PersonData where
  id : String
  firstName : String
  lastName : String
  connections : List String
  groupPreferences : List String
  happiness : JSNum
  x : JSNum
  y : JSNum
deriving DecidableEq

/-- A group entry of the snapshot object; an entry of `members` is a person id or `null`. -/
structure GroupData where
  title : String
  maxSize : ℚ
  x : JSNum
  y : JSNum
  members : List (Option String)
deriving DecidableEq

/-- The value that `deserialize` gets from `JSON.parse` for the text that `serialize` makes
with `JSON.stringify`. -/
structure Snapshot where
  version : String
  title : String
  people : List PersonData
  groups : List GroupData
  useGroupPreferences : Bool
deriving DecidableEq

/-- The object literal built for a person in `serialize`, as read back from the JSON text. -/
def encodePerson (person : Person) : PersonData :=
  { id := person.id, firstName := person.firstName, lastName := person.lastName,
    connections := person.connections, groupPreferences := person.groupPreferences,
    happiness := person.happiness.viaJSON, x := person.x.viaJSON, y := person.y.viaJSON }

/-- The object literal built for a group in `serialize`, as read back from the JSON text; a
member is written as `member ? member.id : null`. -/
def encodeGroup (store : Store) (group : Group) : GroupData :=
  { title := group.title, maxSize := group.maxSize, x := group.x.viaJSON,
    y := group.y.viaJSON,
    members := group.members.map (fun member => member.map (fun r => (store r).id)) }

/-- The method `serialize()`, with its JSON text read back by `JSON.parse`. -/
def serialize (s : Scheme) : Snapshot :=
  { version := "2.5.1", title := s.title,
    people := s.people.map (fun r => encodePerson (s.store r)),
    groups := s.groups.map (encodeGroup s.store),
    useGroupPreferences := s.useGroupPreferences }

/-- Modelled from the spec: `new Person(id, lastName, firstName)`, the constructor of the
`Person` class, which is not part of `scheme.js`; each argument is taken to be stored in the
field of its name, as the snapshot round trip of the spec needs.  The other fields are the ones
`deserialize` assigns (`connections || []` and `groupPreferences || []` of a list are the
list). -/
def decodePerson (personData : PersonData) : Person :=
  { id := personData.id, firstName := personData.firstName, lastName := personData.lastName,
    connections := personData.connections, groupPreferences := personData.groupPreferences,
    happiness := personData.happiness, x := personData.x, y := personData.y }

/-- The method `getPersonById(id)`: `this.people.filter((p) => p.id == id)`; on strings `==`
is equality. -/
def getPersonById (s : Scheme) (id : String) : List Ref :=
  s.people.filter (fun r => decide ((s.store r).id = id))

/-- The callback of `groupData.members.map` in `deserialize`: `null` stays `null`, an id
becomes `scheme.getPersonById(memberId)[0] || null`. -/
def decodeMember (scheme : Scheme) (memberId : Option String) : Option Ref :=
  match memberId with
  | some id => (getPersonById scheme id).head?
  | none => none

/-- The callback of `obj.groups.map` in `deserialize`: `new Group(title, maxSize, x, y)` (a
constructor of the `Group` class, taken to store its arguments) and the decoded members. -/
def decodeGroup (scheme : Scheme) (groupData : GroupData) : Group :=
  { title := groupData.title, maxSize := groupData.maxSize, x := groupData.x, y := groupData.y,
    members := groupData.members.map (decodeMember scheme) }

/-- The scheme of `deserialize` just before `scheme.setPeople(deserializedPeople)`: a new
`Scheme` (`rankThreshold` 2, no people, no groups) with the flag of the snapshot.  The person
objects created from `obj.people` get the references `0, 1, ...` in order. -/
def freshScheme (obj : Snapshot) : Scheme :=
  { title := obj.title,
    store := fun r => ((obj.people[r]?).map decodePerson).getD default,
    people := [], groups := [],
    useGroupPreferences := obj.useGroupPreferences || false,
    rankThreshold := 2 }

/-- The static method `deserialize(data)` after its `JSON.parse(data)`: the scheme it
returns, or what `setPeople` or `setGroups` throws. -/
def deserialize (obj : Snapshot) : Except Exn Scheme :=
  match setPeople (freshScheme obj) (List.range obj.people.length) with
  | (_, .error e) => .error e
  | (scheme1, .ok ()) =>
    match setGroups scheme1 (obj.groups.map (decodeGroup scheme1)) with
    | (_, .error e) => .error e
    | (scheme2, .ok ()) => .ok scheme2

/-- The snapshot with every member id that no person entry of the snapshot has replaced by
`null`. -/
def nullUnresolved (obj : Snapshot) : Snapshot :=
  { obj with
    groups := obj.groups.map (fun groupData =>
      { groupData with
        members := groupData.members.map (fun memberId =>
          match memberId with
          | some id => if id ∈ obj.people.map (fun personData => personData.id) then some id
                       else none
          | none => none) }) }

/-- The number is written to the JSON text as it is: it is not `NaN`, `Infinity` or
`-Infinity`. -/
def JSNum.jsonSafe : JSNum → Bool
  | .num _ => true
  | .nan => false
  | .posInf => false
  | .negInf => false
  | .null => true

/-- The `happiness`, `x` and `y` of the person are none of `NaN`, `Infinity`, `-Infinity`. -/
def Person.jsonSafe (person : Person) : Bool :=
  person.happiness.jsonSafe && person.x.jsonSafe && person.y.jsonSafe

/-- The `x` and `y` of the group are none of `NaN`, `Infinity`, `-Infinity`. -/
def Group.jsonSafe (group : Group) : Bool :=
  group.x.jsonSafe && group.y.jsonSafe

/-- What the round trip is to keep of a group: `title`, `maxSize`, `x`, `y` and, for every
slot index, the id of the member in the slot (`none` for an empty slot). -/
structure GroupView where
  title : String
  maxSize : ℚ
  x : JSNum
  y : JSNum
  memberIds : List (Option String)
deriving DecidableEq

/-- The view of a group of a scheme whose people are in `store`; it is written without the
codec. -/
def groupView (store : Store) (group : Group) : GroupView :=
  { title := group.title, maxSize := group.maxSize, x := group.x, y := group.y,
    memberIds := group.members.map (fun member =>
      match member with
      | some r => some (store r).id
      | none => none) }

/-! ## Reading a report -/

/-- The check of `validateDataQuality` that pushes a message, numbered in source order
(the connection check and the happiness check only push warnings). -/
def DQError.check : DQError → Nat
  | .duplicatePersonId _ => 1
  | .duplicateGroupTitle _ => 2
  | .missingPersonField _ => 3
  | .missingGroupField _ => 4
  | .invalidMaxSize _ _ => 4
  | .exceedsMaxSize _ => 5
  | .invalidMember _ _ => 5
  | .samePosition _ _ _ => 6

/-- The message is "Duplicate person ID: ...". -/
def DQError.isDuplicatePersonId : DQError → Bool
  | .duplicatePersonId _ => true
  | _ => false

/-- The message is "Duplicate group title: ...". -/
def DQError.isDuplicateGroupTitle : DQError → Bool
  | .duplicateGroupTitle _ => true
  | _ => false

/-- The message is "Missing required field for group: title" or "Invalid maxSize for
group: title, ..." for the given title. -/
def DQError.isGroupField (title : String) : DQError → Bool
  | .missingGroupField t => t = title
  | .invalidMaxSize t _ => t = title
  | _ => false

/-- The message is "Group title exceeds maxSize" for the given title. -/
def DQError.isExceeds (title : String) : DQError → Bool
  | .exceedsMaxSize t => t = title
  | _ => false

/-- The message is "Invalid member in group ...". -/
def DQError.isInvalidMember : DQError → Bool
  | .invalidMember _ _ => true
  | _ => false

/-- The message is "Multiple people occupy the same position in group title ..." for the
given title. -/
def DQError.isSamePosition (title : String) : DQError → Bool
  | .samePosition t _ _ => t = title
  | _ => false

/-- The number of occupied slots of a group whose occupant is not in `people`. -/
def strangerCount (people : List Ref) (group : Group) : Nat :=
  (group.members.filter (fun member =>
    match member with
    | some r => decide (r ∉ people)
    | none => false)).length

/-- The `(x, y)` positions of the occupants of a group, in slot order. -/
def occupantPositions (store : Store) (group : Group) : List (JSNum × JSNum) :=
  group.members.reduceOption.map (fun r => ((store r).x, (store r).y))

/-- The title is non-empty and `maxSize` is a positive integer. -/
def validGroupFields (group : Group) : Prop :=
  group.title ≠ "" ∧ ∃ n : Nat, 0 < n ∧ group.maxSize = (n : ℚ)

/-! ## Example schemes -/

/-- A person with the given id, connections and preferences, unplaced at the origin. -/
def mkPerson (id : String) (connections groupPreferences : List String) : Person :=
  { id := id, firstName := id, lastName := id, connections := connections,
    groupPreferences := groupPreferences, happiness := 0, x := 0, y := 0 }

/-- People `A`, `B`, `C` at references `0`, `1`, `2`, with `A` and `B` connected. -/
def abcStore : Store := fun r =>
  match r with
  | 0 => mkPerson "A" ["B"] []
  | 1 => mkPerson "B" ["A"] []
  | _ => mkPerson "C" [] []

/-- An empty group of two slots. -/
def emptyGroup (title : String) : Group :=
  { title := title, maxSize := 2, x := 0, y := 0, members := [none, none] }

/-- People `A`, `B`, `C` and the empty groups `G1`, `G2` of `maxSize` 2. -/
def abcScheme (useGroupPreferences : Bool) : Scheme :=
  { title := "abc", store := abcStore, people := [0, 1, 2],
    groups := [emptyGroup "G1", emptyGroup "G2"],
    useGroupPreferences := useGroupPreferences, rankThreshold := 2 }

/-- One unassigned person whose cached happiness is stale: a warning, no error. -/
def staleScheme : Scheme :=
  { title := "stale",
    store := fun _ => { mkPerson "A" [] [] with happiness := 5 },
    people := [0], groups := [emptyGroup "G1"], useGroupPreferences := true, rankThreshold := 2 }

/-- Person `A` lists an id that nobody has, person `B` lists themself. -/
def danglingScheme : Scheme :=
  { title := "dangling",
    store := fun r =>
      match r with
      | 0 => mkPerson "A" ["ghost"] []
      | _ => mkPerson "B" ["B"] [],
    people := [0, 1], groups := [], useGroupPreferences := true, rankThreshold := 2 }

/-- A single person `A` who lists themself as a connection. -/
def selfScheme : Scheme :=
  { title := "self", store := fun _ => mkPerson "A" ["A"] [],
    people := [0], groups := [], useGroupPreferences := true, rankThreshold := 2 }

/-- Person `A` sits in the only slot of `G1` and in the only slot of `G2`. -/
def doubleScheme : Scheme :=
  { title := "double", store := fun _ => mkPerson "A" [] [],
    people := [0],
    groups := [{ title := "G1", maxSize := 1, x := 0, y := 0, members := [some 0] },
               { title := "G2", maxSize := 1, x := 200, y := 0, members := [some 0] }],
    useGroupPreferences := true, rankThreshold := 2 }

/-- People `A` and `B`, connected, seated in the two slots of `G1` at different positions. -/
def seatedScheme : Scheme :=
  { title := "seated",
    store := fun r =>
      match r with
      | 0 => { mkPerson "A" ["B"] [] with happiness := 1, x := 10, y := 40 }
      | _ => { mkPerson "B" ["A"] [] with happiness := 1, x := 10, y := 80 },
    people := [0, 1],
    groups := [{ title := "G1", maxSize := 2, x := 0, y := 0, members := [some 0, some 1] }],
    useGroupPreferences := true, rankThreshold := 2 }

/-- Person `A` and a person `B` who is not in `people` share the group `G1` of `maxSize` 1. -/
def crowdedScheme : Scheme :=
  { title := "crowded",
    store := fun r =>
      match r with
      | 0 => mkPerson "A" [] []
      | _ => { mkPerson "B" [] [] with y := 40 },
    people := [0],
    groups := [{ title := "G1", maxSize := 1, x := 0, y := 0, members := [some 0, some 1] }],
    useGroupPreferences := true, rankThreshold := 2 }

/-- Two people with the id `A`, one with the id `B`, and two groups titled `G1`. -/
def twinScheme : Scheme :=
  { title := "twin",
    store := fun r =>
      match r with
      | 2 => mkPerson "B" [] []
      | _ => mkPerson "A" [] [],
    people := [0, 1, 2],
    groups := [emptyGroup "G1", emptyGroup "G1"],
    useGroupPreferences := true, rankThreshold := 2 }

/-- The number `5 / 2`, numerator and denominator given in lowest terms. -/
def fiveHalves : ℚ := { num := 5, den := 2, den_nz := by decide, reduced := by decide }

/-- A group without title and with `maxSize` 0, a group `G2` with `maxSize` 5/2, and a
group `G3` with `maxSize` 3; nobody is seated. -/
def badFieldsScheme : Scheme :=
  { title := "fields", store := fun _ => mkPerson "A" [] [],
    people := [0],
    groups := [{ title := "", maxSize := 0, x := 0, y := 0, members := [] },
               { title := "G2", maxSize := fiveHalves, x := 0, y := 0, members := [] },
               { title := "G3", maxSize := 3, x := 0, y := 0, members := [] }],
    useGroupPreferences := true, rankThreshold := 2 }

/-- Person `A` sits in both slots of `G1`. -/
def repeatScheme : Scheme :=
  { title := "repeat", store := fun _ => mkPerson "A" [] [],
    people := [0],
    groups := [{ title := "G1", maxSize := 2, x := 0, y := 0, members := [some 0, some 0] }],
    useGroupPreferences := true, rankThreshold := 2 }

/-- A snapshot with one person `A` and a group whose entries are `A`, an id that no person
has, and `null`. -/
def ghostSnapshot : Snapshot :=
  { version := "2.5.1", title := "ghost",
    people := [{ id := "A", firstName := "A", lastName := "A", connections := [],
                 groupPreferences := [], happiness := 0, x := 0, y := 0 }],
    groups := [{ title := "G1", maxSize := 3, x := 0, y := 0,
                 members := [some "A", some "ghost", none] }],
    useGroupPreferences := true }

/-- One person `A` whose `x` is `NaN`, and no group. -/
def nanScheme : Scheme :=
  { title := "nan", store := fun _ => { mkPerson "A" [] [] with x := JSNum.nan },
    people := [0], groups := [], useGroupPreferences := true, rankThreshold := 2 }

/-- People `A` at `(NaN, 0)` and `B` at `(Infinity, 0)` in the two slots of `G1`. -/
def farScheme : Scheme :=
  { title := "far",
    store := fun r =>
      match r with
      | 0 => { mkPerson "A" [] [] with x := JSNum.nan }
      | _ => { mkPerson "B" [] [] with x := JSNum.posInf },
    people := [0, 1],
    groups := [{ title := "G1", maxSize := 2, x := 0, y := 0, members := [some 0, some 1] }],
    useGroupPreferences := true, rankThreshold := 2 }

/-- Ada Lovelace (`P1`) and Alan Turing (`P2`), connected, in the first and the third slot of
`G1`, whose second slot is empty; `G2` has one empty slot.  The `y` of `P2` is `null`. -/
def namedScheme : Scheme :=
  { title := "named",
    store := fun r =>
      match r with
      | 0 => { id := "P1", firstName := "Ada", lastName := "Lovelace", connections := ["P2"],
               groupPreferences := ["G2", "G1"], happiness := 1, x := 10, y := 40 }
      | _ => { id := "P2", firstName := "Alan", lastName := "Turing", connections := ["P1"],
               groupPreferences := [], happiness := 1, x := 10, y := JSNum.null },
    people := [0, 1],
    groups := [{ title := "G1", maxSize := 3, x := 0, y := 0, members := [some 0, none, some 1] },
               { title := "G2", maxSize := 1, x := 200, y := 0, members := [none] }],
    useGroupPreferences := false, rankThreshold := 2 }

/-- A snapshot with the people `A` and `B` and the group `G1` of `maxSize` 3 whose `members`
array is `["B"]`. -/
def shortSlotSnapshot : Snapshot :=
  { version := "2.5.1", title := "short",
    people := [{ id := "A", firstName := "A", lastName := "A", connections := [],
                 groupPreferences := [], happiness := 0, x := 0, y := 0 },
               { id := "B", firstName := "B", lastName := "B", connections := [],
                 groupPreferences := [], happiness := 0, x := 0, y := 0 }],
    groups := [{ title := "G1", maxSize := 3, x := 0, y := 0, members := [some "B"] }],
    useGroupPreferences := false }

/-- People `A` (unassigned) and `B`; the group `G1` of `maxSize` 3 has the one-slot array
`[B]`: the scheme that `deserialize` makes of `shortSlotSnapshot`. -/
def shortSlotScheme : Scheme :=
  { title := "short",
    store := fun r =>
      match r with
      | 0 => mkPerson "A" [] []
      | _ => mkPerson "B" [] [],
    people := [0, 1],
    groups := [{ title := "G1", maxSize := 3, x := 0, y := 0, members := [some 1] }],
    useGroupPreferences := false, rankThreshold := 2 }

/-- Some person occupies a slot in two different groups of the scheme's `groups` array. -/
def inTwoGroups (s : Scheme) : Prop :=
  ∃ (r : Ref) (i j : Nat) (g1 g2 : Group), i ≠ j ∧ s.groups[i]? = some g1 ∧
    s.groups[j]? = some g2 ∧ some r ∈ g1.members ∧ some r ∈ g2.members

/-! ## Scoring: proofs -/

theorem indexOfFrom_eq (t : String) (l : List String) (i : Nat) :
    indexOfFrom t l i = if t ∈ l then ((i + List.indexOf t l : Nat) : Int) else -1 := by
  induction l generalizing i with
  | nil => simp [indexOfFrom]
  | cons x xs ih =>
    by_cases hx : x = t
    · subst hx
      simp [indexOfFrom]
    · have hx2 : ¬ t = x := fun h => hx h.symm
      simp only [indexOfFrom, if_neg hx, ih, List.mem_cons, hx2, false_or,
        List.indexOf_cons_ne _ hx]
      split
      · congr 1
        omega
      · rfl

theorem indexOf_of_mem (t : String) (l : List String) (h : t ∈ l) :
    indexOf l t = ((List.indexOf t l : Nat) : Int) := by
  simp [indexOf, indexOfFrom_eq, h]

theorem indexOf_of_not_mem (t : String) (l : List String) (h : t ∉ l) :
    indexOf l t = -1 := by
  simp [indexOf, indexOfFrom_eq, h]

theorem score_of_mem (person : Person) (group : Group)
    (h : group.title ∈ person.groupPreferences) :
    calculateGroupPreferenceScore person group =
      (person.groupPreferences.length : Int) -
        ((List.indexOf group.title person.groupPreferences : Nat) : Int) := by
  have hne : ¬ ((List.indexOf group.title person.groupPreferences : Nat) : Int) = -1 := by omega
  simp only [calculateGroupPreferenceScore, indexOf_of_mem _ _ h, if_neg hne]

theorem score_of_not_mem (person : Person) (group : Group)
    (h : group.title ∉ person.groupPreferences) :
    calculateGroupPreferenceScore person group = 0 := by
  simp [calculateGroupPreferenceScore, indexOf_of_not_mem _ _ h]

/-- C1: the preference score is `length - (index of the first occurrence of the title)` when
the group's title occurs in the person's `groupPreferences` and `0` otherwise; among `N`
preferences the group ranked first scores `N`, the group ranked last scores `1`, and a group
that is not listed scores `0`. -/
theorem calculateGroupPreferenceScore_spec (person : Person) (group : Group) :
    (group.title ∈ person.groupPreferences →
      calculateGroupPreferenceScore person group =
        (person.groupPreferences.length : Int) -
          ((List.indexOf group.title person.groupPreferences : Nat) : Int)) ∧
    (group.title ∉ person.groupPreferences →
      calculateGroupPreferenceScore person group = 0) ∧
    (∀ rest, person.groupPreferences = group.title :: rest →
      calculateGroupPreferenceScore person group = (person.groupPreferences.length : Int)) ∧
    (∀ front, person.groupPreferences = front ++ [group.title] → group.title ∉ front →
      calculateGroupPreferenceScore person group = 1) := by
  refine ⟨score_of_mem person group, score_of_not_mem person group, ?_, ?_⟩
  · intro rest hrest
    have hmem : group.title ∈ person.groupPreferences := by simp [hrest]
    rw [score_of_mem person group hmem, hrest]
    simp
  · intro front hfront hnot
    have hmem : group.title ∈ person.groupPreferences := by simp [hfront]
    rw [score_of_mem person group hmem, hfront, List.indexOf_append_of_not_mem hnot]
    simp

/-- C1 at a concrete person: three preferences, the title ranked second scores `2`. -/
theorem calculateGroupPreferenceScore_spec_witness :
    "Blue" ∈ ["Red", "Blue", "Green"] ∧
    calculateGroupPreferenceScore
      { id := "p1", firstName := "Ann", lastName := "Lee", connections := [],
        groupPreferences := ["Red", "Blue", "Green"], happiness := 0, x := 0, y := 0 }
      { title := "Blue", maxSize := 2, x := 0, y := 0, members := [none, none] } =
      ((["Red", "Blue", "Green"].length : Nat) : Int) -
        ((List.indexOf "Blue" ["Red", "Blue", "Green"] : Nat) : Int) :=
  ⟨by decide,
   (calculateGroupPreferenceScore_spec
      { id := "p1", firstName := "Ann", lastName := "Lee", connections := [],
        groupPreferences := ["Red", "Blue", "Green"], happiness := 0, x := 0, y := 0 }
      { title := "Blue", maxSize := 2, x := 0, y := 0, members := [none, none] }).1 (by decide)⟩

theorem filter_occupant_length (q : Ref → Bool) (members : List (Option Ref)) :
    (members.filter (fun member =>
      match member with
      | some r => q r
      | none => false)).length = members.reduceOption.countP q := by
  induction members with
  | nil => rfl
  | cons m ms ih =>
    cases m with
    | none => simpa [List.filter_cons, List.reduceOption_cons_of_none] using ih
    | some r =>
      by_cases hq : q r = true
      · simp [List.filter_cons, List.reduceOption_cons_of_some, hq, ih]
      · simp [List.filter_cons, List.reduceOption_cons_of_some, hq, ih]

theorem occupied_eq_reduceOption (group : Group) :
    occupied group = group.members.reduceOption.length := by
  unfold occupied
  induction group.members with
  | nil => rfl
  | cons m ms ih =>
    cases m with
    | none => simpa [List.filter_cons, List.reduceOption_cons_of_none] using ih
    | some r => simp [List.filter_cons, List.reduceOption_cons_of_some, ih]

theorem calculateGroupScore_eq (store : Store) (person : Person) (group : Group) :
    calculateGroupScore store person group =
      ((group.members.reduceOption.countP
        (fun r => person.connections.contains (store r).id) : Nat) : Int) := by
  unfold calculateGroupScore
  rw [filter_occupant_length (fun r => person.connections.contains (store r).id)]

/-- C2: the connection score is the number of occupied slots whose occupant's id is in the
person's connections; it lies between `0` and the occupied count and is never `-1`.  For a
group whose only occupant is `a`, a person connected to `a` scores `1` and a person not
connected to `a` scores `0`. -/
theorem calculateGroupScore_spec (store : Store) (person : Person) (group : Group) :
    calculateGroupScore store person group =
      ((group.members.reduceOption.countP
        (fun r => decide ((store r).id ∈ person.connections)) : Nat) : Int) ∧
    0 ≤ calculateGroupScore store person group ∧
    calculateGroupScore store person group ≤ (occupied group : Int) ∧
    calculateGroupScore store person group ≠ -1 ∧
    (∀ (a : Ref) (other : Person), group.members.reduceOption = [a] →
      (store a).id ∈ person.connections → (store a).id ∉ other.connections →
      calculateGroupScore store person group = 1 ∧
      calculateGroupScore store other group = 0 ∧
      calculateGroupScore store other group < calculateGroupScore store person group) := by
  have hle : group.members.reduceOption.countP
      (fun r => person.connections.contains (store r).id) ≤ occupied group := by
    rw [occupied_eq_reduceOption]
    exact List.countP_le_length _
  refine ⟨?_, ?_, ?_, ?_, ?_⟩
  · rw [calculateGroupScore_eq]
    simp
  · rw [calculateGroupScore_eq]
    exact Int.natCast_nonneg _
  · rw [calculateGroupScore_eq]
    exact_mod_cast hle
  · rw [calculateGroupScore_eq]
    omega
  · intro a other ha hin hout
    rw [calculateGroupScore_eq, calculateGroupScore_eq, ha]
    simp [List.countP_cons, hin, hout]

/-- C2 at a concrete group: `A` alone in the group, `B` connected to `A`, `C` not. -/
theorem calculateGroupScore_spec_witness :
    calculateGroupScore
        (fun r => { id := if r = 0 then "A" else "Z", firstName := "a", lastName := "a",
                    connections := [], groupPreferences := [], happiness := 0, x := 0, y := 0 })
        { id := "B", firstName := "b", lastName := "b", connections := ["A"],
          groupPreferences := [], happiness := 0, x := 0, y := 0 }
        { title := "G1", maxSize := 2, x := 0, y := 0, members := [some 0, none] } = 1 ∧
    calculateGroupScore
        (fun r => { id := if r = 0 then "A" else "Z", firstName := "a", lastName := "a",
                    connections := [], groupPreferences := [], happiness := 0, x := 0, y := 0 })
        { id := "C", firstName := "c", lastName := "c", connections := [],
          groupPreferences := [], happiness := 0, x := 0, y := 0 }
        { title := "G1", maxSize := 2, x := 0, y := 0, members := [some 0, none] } = 0 :=
  let h := (calculateGroupScore_spec
    (fun r => { id := if r = 0 then "A" else "Z", firstName := "a", lastName := "a",
                connections := [], groupPreferences := [], happiness := 0, x := 0, y := 0 })
    { id := "B", firstName := "b", lastName := "b", connections := ["A"],
      groupPreferences := [], happiness := 0, x := 0, y := 0 }
    { title := "G1", maxSize := 2, x := 0, y := 0, members := [some 0, none] }).2.2.2.2 0
    { id := "C", firstName := "c", lastName := "c", connections := [],
      groupPreferences := [], happiness := 0, x := 0, y := 0 }
    (by decide) (by decide) (by decide)
  ⟨h.1, h.2.1⟩

/-! ## Eligibility: proofs -/

theorem mathMin_spec (l : List Nat) (h : l ≠ []) :
    ∃ m, mathMin l = some m ∧ m ∈ l ∧ ∀ x ∈ l, m ≤ x := by
  induction l with
  | nil => exact absurd rfl h
  | cons x xs ih =>
    by_cases hxs : xs = []
    · subst hxs
      exact ⟨x, by simp [mathMin], by simp, by simp⟩
    · obtain ⟨m, hm, hmem, hle⟩ := ih hxs
      refine ⟨min x m, by simp [mathMin, hm], ?_, ?_⟩
      · rcases Nat.le_total x m with hxm | hmx
        · simp [Nat.min_eq_left hxm]
        · simp [Nat.min_eq_right hmx, hmem]
      · intro y hy
        rcases List.mem_cons.mp hy with rfl | hy
        · exact Nat.min_le_left _ _
        · exact le_trans (Nat.min_le_right _ _) (hle y hy)

theorem mathMin_groups (s : Scheme) (h : s.groups ≠ []) :
    ∃ m, mathMin (s.groups.map occupied) = some m ∧
      (∃ g ∈ s.groups, occupied g = m) ∧ ∀ k ∈ s.groups, m ≤ occupied k := by
  have hne : s.groups.map occupied ≠ [] := by simpa using h
  obtain ⟨m, hm, hmem, hle⟩ := mathMin_spec _ hne
  refine ⟨m, hm, ?_, ?_⟩
  · obtain ⟨g, hg, hgm⟩ := List.mem_map.mp hmem
    exact ⟨g, hg, hgm⟩
  · intro k hk
    exact hle _ (List.mem_map.mpr ⟨k, hk, rfl⟩)

theorem canAddToGroup_char (s : Scheme) (g : Group) (h : s.groups ≠ []) :
    canAddToGroup s g = true ↔
      ((occupied g : ℚ) < g.maxSize ∧
        (s.useGroupPreferences = false →
          ∃ low ∈ s.groups, (∀ k ∈ s.groups, occupied low ≤ occupied k) ∧
            occupied g < occupied low + 5)) := by
  obtain ⟨m, hm, ⟨low, hlow, hlowm⟩, hle⟩ := mathMin_groups s h
  cases hp : s.useGroupPreferences with
  | true => simp [canAddToGroup, hp]
  | false =>
    simp only [canAddToGroup, hp, hm, Bool.not_false, if_true, Bool.and_eq_true,
      decide_eq_true_eq, true_implies]
    constructor
    · rintro ⟨h1, h2⟩
      exact ⟨h1, low, hlow, fun k hk => hlowm ▸ hle k hk, hlowm ▸ h2⟩
    · rintro ⟨h1, low2, hlow2, hmin, h2⟩
      refine ⟨h1, ?_⟩
      have : occupied low2 ≤ m := hlowm ▸ hmin low hlow
      omega

/-- C3: in a scheme with at least one group, `canAddToGroup(g)` holds exactly when
`occupied(g) < g.maxSize` and, if `useGroupPreferences` is false, also
`occupied(g) < m + 5` for `m` the least occupied count over the groups of the scheme;
with `useGroupPreferences` true only the first condition counts. -/
theorem canAddToGroup_iff (s : Scheme) (g : Group) (h : s.groups ≠ []) :
    (canAddToGroup s g = true ↔
      ((occupied g : ℚ) < g.maxSize ∧
        (s.useGroupPreferences = false →
          ∃ low ∈ s.groups, (∀ k ∈ s.groups, occupied low ≤ occupied k) ∧
            occupied g < occupied low + 5))) ∧
    (s.useGroupPreferences = true →
      (canAddToGroup s g = true ↔ (occupied g : ℚ) < g.maxSize)) := by
  refine ⟨canAddToGroup_char s g h, ?_⟩
  intro hp
  simp [canAddToGroup, hp]

/-! ## Balanced assignment: proofs -/

theorem mem_of_mem_swap {α : Type} (array : List α) (i j : Nat) (x : α)
    (hx : x ∈ swap array i j) : x ∈ array := by
  unfold swap at hx
  split at hx
  · rename_i a b ha hb
    rcases List.mem_or_eq_of_mem_set hx with h1 | h1
    · rcases List.mem_or_eq_of_mem_set h1 with h2 | h2
      · exact h2
      · exact h2 ▸ List.getElem?_mem hb
    · exact h1 ▸ List.getElem?_mem ha
  · exact hx

theorem mem_of_mem_shuffleFrom {α : Type} (start i : Nat) (array : List α) (draws : List Nat)
    (x : α) (hx : x ∈ (shuffleFrom start i array draws).1) : x ∈ array := by
  induction i generalizing array draws with
  | zero => simpa [shuffleFrom] using hx
  | succ i ih =>
    unfold shuffleFrom at hx
    split at hx
    · exact mem_of_mem_swap _ _ _ _ (ih _ _ hx)
    · exact hx

theorem mem_of_mem_shuffleArray {α : Type} (array : List α) (start stop : Nat)
    (draws : List Nat) (x : α) (hx : x ∈ (shuffleArray array start stop draws).1) :
    x ∈ array :=
  mem_of_mem_shuffleFrom start (stop - 1) array draws x hx

theorem selectLoop_cases (s : Scheme) (person : Person) (l : List (Nat × Group))
    (bestGroup : Option (Nat × Group)) (bestScore : Int) (x : Nat × Group)
    (hx : selectLoop s person l bestGroup bestScore = some x) :
    bestGroup = some x ∨ (x ∈ l ∧ canAddToGroup s x.2 = true) := by
  induction l generalizing bestGroup bestScore with
  | nil => exact Or.inl (by simpa [selectLoop] using hx)
  | cons hd tl ih =>
    obtain ⟨gi, group⟩ := hd
    unfold selectLoop at hx
    by_cases hc : canAddToGroup s group = true
    · by_cases hs : activeScore s person group > bestScore
      · simp only [hc, if_true, hs] at hx
        rcases ih _ _ hx with h | ⟨h1, h2⟩
        · right
          have hxe : (gi, group) = x := by simpa using h
          subst hxe
          exact ⟨List.mem_cons_self _ _, hc⟩
        · exact Or.inr ⟨List.mem_cons_of_mem _ h1, h2⟩
      · simp only [hc, if_true, hs, if_false] at hx
        rcases ih _ _ hx with h | ⟨h1, h2⟩
        · exact Or.inl h
        · exact Or.inr ⟨List.mem_cons_of_mem _ h1, h2⟩
    · simp only [hc] at hx
      rcases ih _ _ hx with h | ⟨h1, h2⟩
      · exact Or.inl h
      · exact Or.inr ⟨List.mem_cons_of_mem _ h1, h2⟩

theorem chooseGroup_sound (s : Scheme) (person : Ref) (draws : List Nat) (gi : Nat)
    (g : Group) (hc : (chooseGroup s person draws).1 = some (gi, g)) :
    s.groups[gi]? = some g ∧ canAddToGroup s g = true := by
  unfold chooseGroup at hc
  rcases selectLoop_cases s _ _ _ _ _ hc with h | ⟨h1, h2⟩
  · exact absurd h (by simp)
  · have hmem := mem_of_mem_shuffleArray _ _ _ _ _ h1
    obtain ⟨hlt, hg⟩ := List.mem_enum hmem
    exact ⟨by simp [List.getElem?_eq_getElem hlt, hg], h2⟩

theorem assignLoop_append (s : Scheme) (pre post : List Ref) (draws : List Nat) :
    assignLoop s (pre ++ post) draws =
      assignLoop (assignLoop s pre draws).1 post (assignLoop s pre draws).2 := by
  induction pre generalizing s draws with
  | nil => simp [assignLoop]
  | cons p ps ih =>
    simp only [List.cons_append, assignLoop]
    split
    · exact ih _ _
    · exact ih _ _

theorem assignLoop_cons_some (s : Scheme) (person : Ref) (rest : List Ref) (draws : List Nat)
    (gi : Nat) (g : Group) (hc : (chooseGroup s person draws).1 = some (gi, g)) :
    assignLoop s (person :: rest) draws =
      assignLoop { s with groups := s.groups.set gi (g.addMember person) } rest
        (chooseGroup s person draws).2 := by
  rw [assignLoop]
  split
  · rename_i gi2 g2 d2 heq
    rw [heq] at hc
    simp only [Option.some.injEq, Prod.mk.injEq] at hc
    obtain ⟨h1, h2⟩ := hc
    subst h1 h2
    simp [heq]
  · rename_i d2 heq
    rw [heq] at hc
    exact absurd hc (by simp)

theorem assignLoop_useGroupPreferences (s : Scheme) (people : List Ref) (draws : List Nat) :
    (assignLoop s people draws).1.useGroupPreferences = s.useGroupPreferences := by
  induction people generalizing s draws with
  | nil => simp [assignLoop]
  | cons p ps ih =>
    rw [assignLoop]
    split
    · rw [ih]
    · rw [ih]

theorem assignLoop_groups_inv (P : Group → Prop)
    (hadd : ∀ (g : Group) (p : Ref), P g → P (g.addMember p))
    (s : Scheme) (people : List Ref) (draws : List Nat) (hs : ∀ g ∈ s.groups, P g) :
    ∀ g ∈ (assignLoop s people draws).1.groups, P g := by
  induction people generalizing s draws with
  | nil => simpa [assignLoop] using hs
  | cons p ps ih =>
    rw [assignLoop]
    split
    · rename_i gi bestGroup d1 heq
      have hc : (chooseGroup s p draws).1 = some (gi, bestGroup) := by rw [heq]
      have hbest : bestGroup ∈ s.groups := List.getElem?_mem (chooseGroup_sound s p draws gi bestGroup hc).1
      apply ih
      intro g hg
      rcases List.mem_or_eq_of_mem_set hg with h | h
      · exact hs g h
      · exact h ▸ hadd bestGroup p (hs bestGroup hbest)
    · exact ih _ _ hs

/-- C4: balanced assignment with `useGroupPreferences = false`.  Let the placement order be
`pre ++ person :: post`; the scheme at the person's turn is the one left by the loop over
`pre`.  If a group `g` (index `gi`) is chosen for the person then, the call continues by adding
the person to that group, `g` is the group at `gi` at that time, and its occupied count is at
most the least occupied count over all groups plus `4`. -/
theorem balancedAssignment_decision_bound (s : Scheme) (unassignedPeople : List Ref)
    (draws : List Nat) (pre : List Ref) (person : Ref) (post : List Ref) (gi : Nat) (g : Group)
    (hp : s.useGroupPreferences = false)
    (horder : (placementOrder s unassignedPeople draws).1 = pre ++ person :: post)
    (hchoice : (chooseGroup
        (assignLoop s pre (placementOrder s unassignedPeople draws).2).1 person
        (assignLoop s pre (placementOrder s unassignedPeople draws).2).2).1 = some (gi, g)) :
    balancedAssignment s unassignedPeople draws =
      assignLoop
        { (assignLoop s pre (placementOrder s unassignedPeople draws).2).1 with
          groups := (assignLoop s pre (placementOrder s unassignedPeople draws).2).1.groups.set gi
            (g.addMember person) }
        post
        (chooseGroup
          (assignLoop s pre (placementOrder s unassignedPeople draws).2).1 person
          (assignLoop s pre (placementOrder s unassignedPeople draws).2).2).2 ∧
    (assignLoop s pre (placementOrder s unassignedPeople draws).2).1.groups[gi]? = some g ∧
    ∃ low ∈ (assignLoop s pre (placementOrder s unassignedPeople draws).2).1.groups,
      (∀ k ∈ (assignLoop s pre (placementOrder s unassignedPeople draws).2).1.groups,
        occupied low ≤ occupied k) ∧
      occupied g ≤ occupied low + 4 := by
  obtain ⟨hidx, hcan⟩ := chooseGroup_sound _ _ _ _ _ hchoice
  refine ⟨?_, hidx, ?_⟩
  · unfold balancedAssignment
    rw [horder, assignLoop_append, assignLoop_cons_some _ _ _ _ _ _ hchoice]
  · have hne : (assignLoop s pre (placementOrder s unassignedPeople draws).2).1.groups ≠ [] :=
      List.ne_nil_of_mem (List.getElem?_mem hidx)
    have hp1 : (assignLoop s pre (placementOrder s unassignedPeople draws).2).1.useGroupPreferences
        = false := by rw [assignLoop_useGroupPreferences, hp]
    obtain ⟨low, hlow, hmin, hlt⟩ := ((canAddToGroup_char _ g hne).mp hcan).2 hp1
    exact ⟨low, hlow, hmin, by omega⟩

/-- C4 at `A`, `B`, `C` with all draws `0`: the order is `B, A, C`, and `G2`, chosen for `A`
after `B` went there, holds one person while the emptiest group holds none. -/
theorem balancedAssignment_decision_bound_witness :
    (abcScheme false).useGroupPreferences = false ∧
    (placementOrder (abcScheme false) [0, 1, 2] []).1 = [1] ++ 0 :: [2] ∧
    (∃ low ∈ (assignLoop (abcScheme false) [1]
          (placementOrder (abcScheme false) [0, 1, 2] []).2).1.groups,
      (∀ k ∈ (assignLoop (abcScheme false) [1]
          (placementOrder (abcScheme false) [0, 1, 2] []).2).1.groups,
        occupied low ≤ occupied k) ∧
      occupied { title := "G2", maxSize := 2, x := 0, y := 0, members := [some 1, none] } ≤
        occupied low + 4) :=
  ⟨by decide, by decide,
   (balancedAssignment_decision_bound (abcScheme false) [0, 1, 2] [] [1] 0 [2] 1
      { title := "G2", maxSize := 2, x := 0, y := 0, members := [some 1, none] }
      (by decide) (by decide) (by decide)).2.2⟩

theorem fillFirstFree_length (person : Ref) (members : List (Option Ref)) :
    (fillFirstFree person members).length = members.length := by
  induction members with
  | nil => rfl
  | cons m ms ih =>
    cases m with
    | none => simp [fillFirstFree]
    | some r => simp [fillFirstFree, ih]

theorem occupied_le_length (g : Group) : occupied g ≤ g.members.length := by
  unfold occupied
  exact List.length_filter_le _ _

theorem occupied_le_maxSize_of_length (g : Group) (h : (g.members.length : ℚ) = g.maxSize) :
    (occupied g : ℚ) ≤ g.maxSize := by
  rw [← h]
  exact_mod_cast occupied_le_length g

theorem balancedAssignment_slots (s : Scheme) (unassignedPeople : List Ref) (draws : List Nat)
    (hs : ∀ g ∈ s.groups, (g.members.length : ℚ) = g.maxSize) :
    ∀ g ∈ (balancedAssignment s unassignedPeople draws).1.groups,
      (g.members.length : ℚ) = g.maxSize := by
  unfold balancedAssignment
  apply assignLoop_groups_inv (fun g => (g.members.length : ℚ) = g.maxSize) _ _ _ _ hs
  intro g p hg
  simpa [Group.addMember, fillFirstFree_length] using hg

/-- C5: capacity is preserved by balanced assignment.  If every group's `members` array has
length `maxSize` and at most `maxSize` occupied slots, then after `balancedAssignment`, for
either value of `useGroupPreferences` and all random draws, every group still has at most
`maxSize` occupied slots (and `maxSize` slots).  For `A`, `B`, `C` and `G1`, `G2` of
`maxSize` 2, no group ends with more than 2 occupants. -/
theorem balancedAssignment_capacity (s : Scheme) (unassignedPeople : List Ref)
    (draws : List Nat) :
    ((∀ g ∈ s.groups, (g.members.length : ℚ) = g.maxSize ∧ (occupied g : ℚ) ≤ g.maxSize) →
      ∀ g ∈ (balancedAssignment s unassignedPeople draws).1.groups,
        (occupied g : ℚ) ≤ g.maxSize ∧ (g.members.length : ℚ) = g.maxSize) ∧
    (∀ (useGroupPreferences : Bool),
      ∀ g ∈ (balancedAssignment (abcScheme useGroupPreferences) [0, 1, 2] draws).1.groups,
        occupied g ≤ 2) := by
  constructor
  · intro hs g hg
    have hlen := balancedAssignment_slots s unassignedPeople draws (fun g hg => (hs g hg).1) g hg
    exact ⟨occupied_le_maxSize_of_length g hlen, hlen⟩
  · intro b g hg
    have hinit : ∀ g ∈ (abcScheme b).groups, (g.members.length : ℚ) = g.maxSize := by
      intro g hg
      simp only [abcScheme, List.mem_cons, List.mem_singleton, List.not_mem_nil, or_false] at hg
      rcases hg with rfl | rfl <;> simp [emptyGroup]
    have hlen := balancedAssignment_slots (abcScheme b) [0, 1, 2] draws hinit g hg
    have hmax : g.maxSize = 2 := by
      have := assignLoop_groups_inv (fun g => g.maxSize = 2)
        (fun g p hg => by simpa [Group.addMember] using hg) (abcScheme b)
        (placementOrder (abcScheme b) [0, 1, 2] draws).1
        (placementOrder (abcScheme b) [0, 1, 2] draws).2
        (by
          intro g hg
          simp only [abcScheme, List.mem_cons, List.mem_singleton, List.not_mem_nil,
            or_false] at hg
          rcases hg with rfl | rfl <;> simp [emptyGroup])
      exact this g hg
    have h2 : (occupied g : ℚ) ≤ 2 := hmax ▸ occupied_le_maxSize_of_length g hlen
    exact_mod_cast h2

/-- C5 at `A`, `B`, `C` with draws `1, 0, 3, 2, 5` and connection scoring. -/
theorem balancedAssignment_capacity_witness :
    (∀ g ∈ (abcScheme false).groups,
      (g.members.length : ℚ) = g.maxSize ∧ (occupied g : ℚ) ≤ g.maxSize) ∧
    (∀ g ∈ (balancedAssignment (abcScheme false) [0, 1, 2] [1, 0, 3, 2, 5]).1.groups,
      (occupied g : ℚ) ≤ g.maxSize ∧ (g.members.length : ℚ) = g.maxSize) :=
  ⟨by decide,
   (balancedAssignment_capacity (abcScheme false) [0, 1, 2] [1, 0, 3, 2, 5]).1 (by decide)⟩

/-- C3 at the scheme `A`, `B`, `C` without preferences: the empty group `G1` is eligible. -/
theorem canAddToGroup_iff_witness :
    (abcScheme false).groups ≠ [] ∧ canAddToGroup (abcScheme false) (emptyGroup "G1") = true :=
  ⟨by decide,
   (canAddToGroup_iff (abcScheme false) (emptyGroup "G1") (by decide)).1.mpr
     ⟨by decide, fun _ => ⟨emptyGroup "G1", by decide, by decide, by decide⟩⟩⟩

/-! ## Validator: proofs -/

theorem validateDataQuality_of_error (s : Scheme) (store1 : Store) (e : Exn)
    (h : pruneConnections (s.people.map (fun r => (s.store r).id)) s.store s.people =
      (store1, .error e)) :
    validateDataQuality s = ({ s with store := store1 }, .error e) := by
  simp only [validateDataQuality, h]

theorem validateDataQuality_of_ok (s : Scheme) (store1 : Store) (warnings1 : List DQWarning)
    (h : pruneConnections (s.people.map (fun r => (s.store r).id)) s.store s.people =
      (store1, .ok warnings1)) :
    validateDataQuality s =
      ({ s with store := store1 },
       .ok { errors :=
              (duplicateScan [] (s.people.map (fun r => (s.store r).id))).map
                DQError.duplicatePersonId ++
              (duplicateScan [] (s.groups.map (fun g => g.title))).map
                DQError.duplicateGroupTitle ++
              personFieldErrors s.store s.people ++ groupFieldErrors s.groups ++
              groupAssignmentErrors store1 s.people s.groups ++ positionErrors store1 s.groups,
             warnings := warnings1 ++ happinessWarnings store1 s.groups s.people }) := by
  simp only [validateDataQuality, h]

theorem validateDataQuality_fields (s : Scheme) :
    (validateDataQuality s).1.people = s.people ∧
    (validateDataQuality s).1.groups = s.groups := by
  rcases h : pruneConnections (s.people.map (fun r => (s.store r).id)) s.store s.people with
    ⟨store1, e | warnings1⟩
  · simp [validateDataQuality_of_error s store1 e h]
  · simp [validateDataQuality_of_ok s store1 warnings1 h]

theorem pruneConnections_throws (personIds : List String) (store : Store) (people : List Ref)
    (e : Exn) (h : (pruneConnections personIds store people).2 = .error e) :
    e = .typeError := by
  induction people with
  | nil => simp [pruneConnections] at h
  | cons r rest ih =>
    unfold pruneConnections at h
    simp only at h
    split at h
    · simpa using h.symm
    · split at h
      · simp at h
      · rename_i store1 e1 heq
        apply ih
        rw [heq]
        simpa using h

theorem validateDataQuality_throws (s : Scheme) (e : Exn)
    (h : (validateDataQuality s).2 = .error e) : e = .typeError := by
  rcases hp : pruneConnections (s.people.map (fun r => (s.store r).id)) s.store s.people with
    ⟨store1, e1 | warnings1⟩
  · rw [validateDataQuality_of_error s store1 e1 hp] at h
    have h1 : e1 = e := by simpa using h
    subst h1
    exact pruneConnections_throws _ _ _ _ (by rw [hp])
  · rw [validateDataQuality_of_ok s store1 warnings1 hp] at h
    simp at h

theorem ensureDataQuality_scheme (s : Scheme) :
    (ensureDataQuality s).1 = (validateDataQuality s).1 := by
  unfold ensureDataQuality
  split
  · rename_i s1 e heq
    rw [heq]
  · rename_i s1 report heq
    rw [heq]
    split <;> rfl

theorem ensureDataQuality_outcome (s : Scheme) :
    (ensureDataQuality s).2 =
      match (validateDataQuality s).2 with
      | .error e => .error e
      | .ok report =>
        if report.errors.length > 0 then .error .dataQualityCheckFailed else .ok () := by
  unfold ensureDataQuality
  split
  · rename_i s1 e heq
    rw [heq]
  · rename_i s1 report heq
    rw [heq]
    split <;> simp_all

/-- C6: `ensureDataQuality` throws `'Data quality check failed'` exactly when
`validateDataQuality` returns a report with at least one error; a report without errors,
whatever its warnings, makes it return normally. -/
theorem ensureDataQuality_raises_iff (s : Scheme) :
    ((ensureDataQuality s).2 = .error .dataQualityCheckFailed ↔
      ∃ report, (validateDataQuality s).2 = .ok report ∧ report.errors ≠ []) ∧
    (∀ report, (validateDataQuality s).2 = .ok report → report.errors = [] →
      (ensureDataQuality s).2 = .ok ()) := by
  rw [ensureDataQuality_outcome]
  rcases hv : (validateDataQuality s).2 with e | report
  · have he := validateDataQuality_throws s e hv
    subst he
    simp
  · simp

/-- C6 at a scheme with one warning (stale happiness) and no error: no throw. -/
theorem ensureDataQuality_raises_iff_witness :
    (validateDataQuality staleScheme).2 =
      .ok { errors := [], warnings := [DQWarning.happinessConflict "A" 5 0] } ∧
    (ensureDataQuality staleScheme).2 = .ok () :=
  ⟨by decide,
   (ensureDataQuality_raises_iff staleScheme).2
     { errors := [], warnings := [DQWarning.happinessConflict "A" 5 0] } (by decide) rfl⟩

/-- C7 fails as stated: `setPeople` with the person `C` listed twice throws the data-quality
error (duplicate id) and leaves the new list in place of `A, B, C`; `setGroups` with two
groups titled `G1` throws and leaves the new groups in place. -/
theorem setters_not_rolled_back :
    ¬ ((setPeople (abcScheme true) [2, 2]).2 = .error .dataQualityCheckFailed →
        (setPeople (abcScheme true) [2, 2]).1.people = (abcScheme true).people) ∧
    ¬ ((setGroups (abcScheme true) [emptyGroup "G1", emptyGroup "G1"]).2 =
          .error .dataQualityCheckFailed →
        (setGroups (abcScheme true) [emptyGroup "G1", emptyGroup "G1"]).1.groups =
          (abcScheme true).groups) := by
  decide

/-- C7, amended: when `setPeople` (respectively `setGroups`) throws the data-quality error,
the scheme's people (respectively groups) collection after the call is the collection passed
to the call: the assignment made before the check stays, nothing is rolled back. -/
theorem setters_keep_input (s : Scheme) (people : List Ref) (groups : List Group) :
    ((setPeople s people).2 = .error .dataQualityCheckFailed →
      (setPeople s people).1.people = people) ∧
    ((setGroups s groups).2 = .error .dataQualityCheckFailed →
      (setGroups s groups).1.groups = groups) := by
  constructor
  · intro _
    unfold setPeople
    rw [ensureDataQuality_scheme, (validateDataQuality_fields _).1]
  · intro _
    unfold setGroups
    rw [ensureDataQuality_scheme, (validateDataQuality_fields _).2]

/-- C7, amended, at the duplicate inputs above. -/
theorem setters_keep_input_witness :
    (setPeople (abcScheme true) [2, 2]).2 = .error .dataQualityCheckFailed ∧
    (setPeople (abcScheme true) [2, 2]).1.people = [2, 2] ∧
    (setGroups (abcScheme true) [emptyGroup "G1", emptyGroup "G1"]).2 =
      .error .dataQualityCheckFailed ∧
    (setGroups (abcScheme true) [emptyGroup "G1", emptyGroup "G1"]).1.groups =
      [emptyGroup "G1", emptyGroup "G1"] :=
  ⟨by decide,
   (setters_keep_input (abcScheme true) [2, 2] [emptyGroup "G1", emptyGroup "G1"]).1 (by decide),
   by decide,
   (setters_keep_input (abcScheme true) [2, 2] [emptyGroup "G1", emptyGroup "G1"]).2 (by decide)⟩

/-- C8 at people `A` (connection to an unknown id) and `B` (connection to themself):
`validateDataQuality` rewrites the connections of `A`, throws a `TypeError` at
`this.updatePersonHappiness`, and `B` keeps the self-connection. -/
theorem validateDataQuality_leaves_self_connection :
    (validateDataQuality danglingScheme).2 = .error .typeError ∧
    ((validateDataQuality danglingScheme).1.store 0).connections = [] ∧
    ((validateDataQuality danglingScheme).1.store 1).connections = ["B"] ∧
    ((validateDataQuality danglingScheme).1.store 1).id = "B" := by
  decide

/-- C9 at a single person `A` connected to themself: `validateDataQuality` does not return a
report but throws a `TypeError`, and so does `ensureDataQuality`. -/
theorem validateDataQuality_throws_on_pruning :
    (validateDataQuality selfScheme).2 = .error .typeError ∧
    (ensureDataQuality selfScheme).2 = .error .typeError := by
  decide

theorem positionScan_nil (store : Store) (title : String) (seen : List (JSNum × JSNum))
    (members : List (Option Ref)) (h : positionScan store title seen members = []) :
    (members.reduceOption.map (fun r => ((store r).x, (store r).y))).Nodup ∧
    ∀ r ∈ members.reduceOption, ((store r).x, (store r).y) ∉ seen := by
  induction members generalizing seen with
  | nil => simp
  | cons m ms ih =>
    cases m with
    | none =>
      rw [positionScan] at h
      simpa [List.reduceOption_cons_of_none] using ih seen h
    | some r =>
      rw [positionScan] at h
      simp only [List.append_eq_nil] at h
      obtain ⟨h1, h2⟩ := h
      have hnot : ((store r).x, (store r).y) ∉ seen := by
        intro hmem
        simp [hmem] at h1
      obtain ⟨hnodup, hfresh⟩ := ih _ h2
      rw [List.reduceOption_cons_of_some]
      refine ⟨?_, ?_⟩
      · rw [List.map_cons, List.nodup_cons]
        refine ⟨?_, hnodup⟩
        intro hmem
        obtain ⟨r2, hr2, heq⟩ := List.mem_map.mp hmem
        exact hfresh r2 hr2 (by rw [heq]; exact List.mem_cons_self _ _)
      · intro r2 hr2
        rcases List.mem_cons.mp hr2 with rfl | hr2
        · exact hnot
        · exact fun hmem => hfresh r2 hr2 (List.mem_cons_of_mem _ hmem)

theorem positionErrors_nil (store : Store) (groups : List Group)
    (h : positionErrors store groups = []) :
    ∀ g ∈ groups, positionScan store g.title [] g.members = [] := by
  induction groups with
  | nil => simp
  | cons g gs ih =>
    rw [positionErrors] at h
    simp only [List.append_eq_nil] at h
    intro k hk
    rcases List.mem_cons.mp hk with rfl | hk
    · exact h.1
    · exact ih h.2 k hk

theorem ensureDataQuality_ok (s : Scheme) (h : (ensureDataQuality s).2 = .ok ()) :
    ∃ report, validateDataQuality s = ((ensureDataQuality s).1, .ok report) ∧
      report.errors = [] := by
  rw [ensureDataQuality_outcome] at h
  rw [ensureDataQuality_scheme]
  rcases hv : (validateDataQuality s).2 with e | report
  · rw [hv] at h
    simp at h
  · rw [hv] at h
    refine ⟨report, by rw [← hv], ?_⟩
    by_contra hne
    have : report.errors.length > 0 := List.length_pos.mpr hne
    simp [this] at h

theorem ensureDataQuality_positions (s : Scheme) (h : (ensureDataQuality s).2 = .ok ()) :
    positionErrors (ensureDataQuality s).1.store (ensureDataQuality s).1.groups = [] := by
  obtain ⟨report, hv, herr⟩ := ensureDataQuality_ok s h
  rcases hp : pruneConnections (s.people.map (fun r => (s.store r).id)) s.store s.people with
    ⟨store1, e | warnings1⟩
  · rw [validateDataQuality_of_error s store1 e hp] at hv
    simp at hv
  · rw [validateDataQuality_of_ok s store1 warnings1 hp] at hv
    simp only [Prod.mk.injEq, Except.ok.injEq] at hv
    obtain ⟨hs, hr⟩ := hv
    rw [← hs]
    rw [← hr] at herr
    simp only [List.append_eq_nil] at herr
    exact herr.2

/-- C10 fails as stated: with `A` in the only slot of `G1` and in the only slot of `G2`,
`ensureDataQuality` returns without throwing, and `A` occupies slots in two groups. -/
theorem ensureDataQuality_allows_two_groups :
    ¬ ((ensureDataQuality doubleScheme).2 = .ok () →
        ¬ inTwoGroups (ensureDataQuality doubleScheme).1) := by
  intro h
  refine h (by decide) ⟨0, 0, 1, { title := "G1", maxSize := 1, x := 0, y := 0, members := [some 0] },
    { title := "G2", maxSize := 1, x := 200, y := 0, members := [some 0] }, by decide, ?_, ?_,
    by decide, by decide⟩
  · decide
  · decide

/-- C10, amended: if `ensureDataQuality` returns without throwing, then inside each group the
occupants have pairwise distinct `(x, y)` positions, so no person occupies two slots of one
group.  (The members of different groups are not compared.) -/
theorem ensureDataQuality_one_slot_per_group (s : Scheme)
    (h : (ensureDataQuality s).2 = .ok ()) :
    ∀ g ∈ (ensureDataQuality s).1.groups,
      (g.members.reduceOption.map (fun r =>
        (((ensureDataQuality s).1.store r).x, ((ensureDataQuality s).1.store r).y))).Nodup ∧
      g.members.reduceOption.Nodup := by
  intro g hg
  have hscan := positionErrors_nil _ _ (ensureDataQuality_positions s h) g hg
  have hnodup := (positionScan_nil _ _ _ _ hscan).1
  exact ⟨hnodup, List.Nodup.of_map _ hnodup⟩

/-- C10, amended, at `A` and `B` seated in the two slots of `G1`. -/
theorem ensureDataQuality_one_slot_per_group_witness :
    (ensureDataQuality seatedScheme).2 = .ok () ∧
    ∀ g ∈ (ensureDataQuality seatedScheme).1.groups,
      (g.members.reduceOption.map (fun r =>
        (((ensureDataQuality seatedScheme).1.store r).x,
         ((ensureDataQuality seatedScheme).1.store r).y))).Nodup ∧
      g.members.reduceOption.Nodup :=
  ⟨by decide, ensureDataQuality_one_slot_per_group seatedScheme (by decide)⟩

/-! ## Validator: the report -/

theorem pruneConnections_ok_store (personIds : List String) (store store1 : Store)
    (people : List Ref) (warnings : List DQWarning)
    (h : pruneConnections personIds store people = (store1, .ok warnings)) :
    store1 = store := by
  induction people generalizing warnings store1 with
  | nil =>
    simp only [pruneConnections, Prod.mk.injEq] at h
    exact h.1.symm
  | cons r rest ih =>
    unfold pruneConnections at h
    simp only at h
    split at h
    · simp at h
    · split at h
      · rename_i store2 warnings2 heq
        simp only [Prod.mk.injEq] at h
        rw [← h.1]
        exact ih store2 warnings2 heq
      · simp at h

theorem validateDataQuality_report (s : Scheme) (report : Report)
    (h : (validateDataQuality s).2 = .ok report) :
    report.errors =
      (duplicateScan [] (s.people.map (fun r => (s.store r).id))).map
        DQError.duplicatePersonId ++
      (duplicateScan [] (s.groups.map (fun g => g.title))).map DQError.duplicateGroupTitle ++
      personFieldErrors s.store s.people ++ groupFieldErrors s.groups ++
      groupAssignmentErrors s.store s.people s.groups ++ positionErrors s.store s.groups := by
  rcases hp : pruneConnections (s.people.map (fun r => (s.store r).id)) s.store s.people with
    ⟨store1, e | warnings1⟩
  · rw [validateDataQuality_of_error s store1 e hp] at h
    simp at h
  · rw [validateDataQuality_of_ok s store1 warnings1 hp] at h
    have hs := pruneConnections_ok_store _ _ _ _ _ hp
    subst hs
    simp only [Except.ok.injEq] at h
    rw [← h]

theorem ensureDataQuality_report (s : Scheme) (h : (ensureDataQuality s).2 = .ok ()) :
    ∃ report, (validateDataQuality s).2 = .ok report ∧ report.errors = [] := by
  obtain ⟨report, hv, herr⟩ := ensureDataQuality_ok s h
  exact ⟨report, by rw [hv], herr⟩

theorem ensureDataQuality_raises_of_error (s : Scheme) (report : Report) (e : DQError)
    (h : (validateDataQuality s).2 = .ok report) (he : e ∈ report.errors) :
    (ensureDataQuality s).2 = .error .dataQualityCheckFailed := by
  rw [ensureDataQuality_outcome, h]
  have : report.errors.length > 0 := List.length_pos_of_mem he
  simp [this]

theorem check_personFieldErrors (store : Store) (people : List Ref) :
    ∀ e ∈ personFieldErrors store people, e.check = 3 := by
  induction people with
  | nil => simp [personFieldErrors]
  | cons r rest ih =>
    intro e he
    rw [personFieldErrors] at he
    rcases List.mem_append.mp he with h | h
    · split at h
      · rw [List.mem_singleton.mp h]; rfl
      · simp at h
    · exact ih e h

theorem check_groupFieldErrors (groups : List Group) :
    ∀ e ∈ groupFieldErrors groups, e.check = 4 := by
  induction groups with
  | nil => simp [groupFieldErrors]
  | cons g rest ih =>
    intro e he
    rw [groupFieldErrors] at he
    rcases List.mem_append.mp he with h | h
    · rcases List.mem_append.mp h with h | h
      · split at h
        · rw [List.mem_singleton.mp h]; rfl
        · simp at h
      · split at h
        · rw [List.mem_singleton.mp h]; rfl
        · simp at h
    · exact ih e h

theorem check_groupAssignmentErrors (store : Store) (people : List Ref) (groups : List Group) :
    ∀ e ∈ groupAssignmentErrors store people groups, e.check = 5 := by
  induction groups with
  | nil => simp [groupAssignmentErrors]
  | cons g rest ih =>
    intro e he
    rw [groupAssignmentErrors] at he
    rcases List.mem_append.mp he with h | h
    · rcases List.mem_append.mp h with h | h
      · split at h
        · rw [List.mem_singleton.mp h]; rfl
        · simp at h
      · obtain ⟨m, _, hm⟩ := List.mem_filterMap.mp h
        cases m with
        | none => simp at hm
        | some r =>
          simp only at hm
          split at hm
          · simp only [Option.some.injEq] at hm
            rw [← hm]; rfl
          · simp at hm
    · exact ih e h

theorem check_positionScan (store : Store) (title : String) (seen : List (JSNum × JSNum))
    (members : List (Option Ref)) :
    ∀ e ∈ positionScan store title seen members, e.check = 6 := by
  induction members generalizing seen with
  | nil => simp [positionScan]
  | cons m ms ih =>
    intro e he
    cases m with
    | none =>
      rw [positionScan] at he
      exact ih _ e he
    | some r =>
      rw [positionScan] at he
      rcases List.mem_append.mp he with h | h
      · split at h
        · rw [List.mem_singleton.mp h]; rfl
        · simp at h
      · exact ih _ e h

theorem check_positionErrors (store : Store) (groups : List Group) :
    ∀ e ∈ positionErrors store groups, e.check = 6 := by
  induction groups with
  | nil => simp [positionErrors]
  | cons g rest ih =>
    intro e he
    rw [positionErrors] at he
    rcases List.mem_append.mp he with h | h
    · exact check_positionScan _ _ _ _ e h
    · exact ih e h

theorem filter_of_check (p : DQError → Bool) (k j : Nat) (l : List DQError)
    (hp : ∀ e, p e = true → e.check = k) (hl : ∀ e ∈ l, e.check = j) (hjk : j ≠ k) :
    l.filter p = [] := by
  rw [List.filter_eq_nil_iff]
  intro e he hpe
  exact hjk ((hl e he).symm.trans (hp e hpe))

/-- The messages of one kind in a report are those pushed by the check of that kind. -/
theorem report_filter (s : Scheme) (report : Report) (p : DQError → Bool) (k : Nat)
    (h : (validateDataQuality s).2 = .ok report) (hp : ∀ e, p e = true → e.check = k) :
    report.errors.filter p =
      (if k = 1 then ((duplicateScan [] (s.people.map (fun r => (s.store r).id))).map
          DQError.duplicatePersonId).filter p else []) ++
      (if k = 2 then ((duplicateScan [] (s.groups.map (fun g => g.title))).map
          DQError.duplicateGroupTitle).filter p else []) ++
      (if k = 3 then (personFieldErrors s.store s.people).filter p else []) ++
      (if k = 4 then (groupFieldErrors s.groups).filter p else []) ++
      (if k = 5 then (groupAssignmentErrors s.store s.people s.groups).filter p else []) ++
      (if k = 6 then (positionErrors s.store s.groups).filter p else []) := by
  rw [validateDataQuality_report s report h]
  simp only [List.filter_append]
  have h1 : ∀ e ∈ (duplicateScan [] (s.people.map (fun r => (s.store r).id))).map
      DQError.duplicatePersonId, e.check = 1 := by
    intro e he
    obtain ⟨x, _, hx⟩ := List.mem_map.mp he
    rw [← hx]; rfl
  have h2 : ∀ e ∈ (duplicateScan [] (s.groups.map (fun g => g.title))).map
      DQError.duplicateGroupTitle, e.check = 2 := by
    intro e he
    obtain ⟨x, _, hx⟩ := List.mem_map.mp he
    rw [← hx]; rfl
  congr 1
  · congr 1
    · congr 1
      · congr 1
        · congr 1
          · split
            · rfl
            · rename_i hk
              exact filter_of_check p k 1 _ hp h1 (fun h => hk h.symm)
          · split
            · rfl
            · rename_i hk
              exact filter_of_check p k 2 _ hp h2 (fun h => hk h.symm)
        · split
          · rfl
          · rename_i hk
            exact filter_of_check p k 3 _ hp (check_personFieldErrors _ _) (fun h => hk h.symm)
      · split
        · rfl
        · rename_i hk
          exact filter_of_check p k 4 _ hp (check_groupFieldErrors _) (fun h => hk h.symm)
    · split
      · rfl
      · rename_i hk
        exact filter_of_check p k 5 _ hp (check_groupAssignmentErrors _ _ _) (fun h => hk h.symm)
  · split
    · rfl
    · rename_i hk
      exact filter_of_check p k 6 _ hp (check_positionErrors _ _) (fun h => hk h.symm)

/-! ## Validator: group assignments -/

theorem invalidMember_of_mem (store : Store) (people : List Ref) (group : Group) (e : DQError)
    (he : e ∈ group.members.filterMap (fun member =>
      match member with
      | some r =>
        if r ∉ people then some (DQError.invalidMember group.title (store r).id) else none
      | none => none)) :
    ∃ r, some r ∈ group.members ∧ r ∉ people ∧
      e = DQError.invalidMember group.title (store r).id := by
  obtain ⟨m, hm, hme⟩ := List.mem_filterMap.mp he
  cases m with
  | none => simp at hme
  | some r =>
    simp only at hme
    split at hme
    · rename_i hr
      simp only [Option.some.injEq] at hme
      exact ⟨r, hm, hr, hme.symm⟩
    · simp at hme

theorem invalidMember_filterMap_length (store : Store) (people : List Ref) (title : String)
    (members : List (Option Ref)) :
    (members.filterMap (fun member =>
      match member with
      | some r => if r ∉ people then some (DQError.invalidMember title (store r).id) else none
      | none => none)).length =
    (members.filter (fun member =>
      match member with
      | some r => decide (r ∉ people)
      | none => false)).length := by
  induction members with
  | nil => rfl
  | cons m ms ih =>
    cases m with
    | none => simpa [List.filterMap_cons, List.filter_cons] using ih
    | some r =>
      by_cases hr : r ∈ people
      · simpa [List.filterMap_cons, List.filter_cons, hr] using ih
      · simpa [List.filterMap_cons, List.filter_cons, hr] using ih

theorem exceeds_filter_length (store : Store) (people : List Ref) (title : String)
    (groups : List Group) :
    ((groupAssignmentErrors store people groups).filter (DQError.isExceeds title)).length =
      (groups.filter (fun g =>
        decide (g.title = title) && decide ((occupied g : ℚ) > g.maxSize))).length := by
  induction groups with
  | nil => rfl
  | cons g rest ih =>
    rw [groupAssignmentErrors, List.filter_append, List.filter_append, List.length_append,
      List.length_append, ih]
    have hB : (g.members.filterMap (fun member =>
        match member with
        | some r =>
          if r ∉ people then some (DQError.invalidMember g.title (store r).id) else none
        | none => none)).filter (DQError.isExceeds title) = [] := by
      rw [List.filter_eq_nil_iff]
      intro e he
      obtain ⟨r, _, _, hr⟩ := invalidMember_of_mem store people g e he
      rw [hr]
      simp [DQError.isExceeds]
    rw [hB]
    by_cases ho : (occupied g : ℚ) > g.maxSize
    · by_cases ht : g.title = title
      · simp [List.filter_cons, ho, ht, DQError.isExceeds]
        omega
      · simp [List.filter_cons, ho, ht, DQError.isExceeds]
    · simp [List.filter_cons, ho]

theorem invalidMember_filter_length (store : Store) (people : List Ref) (groups : List Group) :
    ((groupAssignmentErrors store people groups).filter DQError.isInvalidMember).length =
      (groups.map (strangerCount people)).sum := by
  induction groups with
  | nil => rfl
  | cons g rest ih =>
    rw [groupAssignmentErrors, List.filter_append, List.filter_append, List.length_append,
      List.length_append, ih, List.map_cons, List.sum_cons]
    have hB : (g.members.filterMap (fun member =>
        match member with
        | some r =>
          if r ∉ people then some (DQError.invalidMember g.title (store r).id) else none
        | none => none)).filter DQError.isInvalidMember =
        g.members.filterMap (fun member =>
        match member with
        | some r =>
          if r ∉ people then some (DQError.invalidMember g.title (store r).id) else none
        | none => none) := by
      rw [List.filter_eq_self]
      intro e he
      obtain ⟨r, _, _, hr⟩ := invalidMember_of_mem store people g e he
      rw [hr]
      rfl
    rw [hB, invalidMember_filterMap_length]
    have hA : ((if (occupied g : ℚ) > g.maxSize then [DQError.exceedsMaxSize g.title]
        else []).filter DQError.isInvalidMember).length = 0 := by
      split <;> simp [DQError.isInvalidMember]
    rw [hA]
    simp [strangerCount]

theorem invalidMember_mem (store : Store) (people : List Ref) (groups : List Group)
    (g : Group) (hg : g ∈ groups) (r : Ref) (hr : some r ∈ g.members) (hnot : r ∉ people) :
    DQError.invalidMember g.title (store r).id ∈ groupAssignmentErrors store people groups := by
  induction groups with
  | nil => simp at hg
  | cons k rest ih =>
    rw [groupAssignmentErrors]
    rcases List.mem_cons.mp hg with rfl | hg
    · apply List.mem_append_left
      apply List.mem_append_right
      exact List.mem_filterMap.mpr ⟨some r, hr, by simp [hnot]⟩
    · exact List.mem_append_right _ (ih hg)

theorem check_of_isExceeds (title : String) (e : DQError)
    (h : DQError.isExceeds title e = true) : e.check = 5 := by
  cases e <;> simp_all [DQError.isExceeds, DQError.check]

theorem eq_of_isExceeds (title : String) (e : DQError)
    (h : DQError.isExceeds title e = true) : e = DQError.exceedsMaxSize title := by
  cases e <;> simp_all [DQError.isExceeds]

theorem check_of_isInvalidMember (e : DQError)
    (h : DQError.isInvalidMember e = true) : e.check = 5 := by
  cases e <;> simp_all [DQError.isInvalidMember, DQError.check]

theorem report_exceeds_length (s : Scheme) (report : Report) (title : String)
    (h : (validateDataQuality s).2 = .ok report) :
    (report.errors.filter (DQError.isExceeds title)).length =
      (s.groups.filter (fun g =>
        decide (g.title = title) && decide ((occupied g : ℚ) > g.maxSize))).length := by
  rw [report_filter s report _ 5 h (check_of_isExceeds title)]
  simpa using exceeds_filter_length s.store s.people title s.groups

theorem report_exceeds_mem (s : Scheme) (report : Report)
    (h : (validateDataQuality s).2 = .ok report) (g : Group) (hg : g ∈ s.groups)
    (ho : (occupied g : ℚ) > g.maxSize) :
    DQError.exceedsMaxSize g.title ∈ report.errors := by
  have hpos : 0 < (report.errors.filter (DQError.isExceeds g.title)).length := by
    rw [report_exceeds_length s report g.title h]
    apply List.length_pos_of_mem
    exact List.mem_filter.mpr ⟨hg, by simp [ho]⟩
  obtain ⟨e, he⟩ := List.exists_mem_of_length_pos hpos
  obtain ⟨he1, he2⟩ := List.mem_filter.mp he
  exact eq_of_isExceeds _ _ he2 ▸ he1

theorem report_invalidMember_mem (s : Scheme) (report : Report)
    (h : (validateDataQuality s).2 = .ok report) (g : Group) (hg : g ∈ s.groups) (r : Ref)
    (hr : some r ∈ g.members) (hnot : r ∉ s.people) :
    DQError.invalidMember g.title (s.store r).id ∈ report.errors := by
  rw [validateDataQuality_report s report h]
  apply List.mem_append_left
  apply List.mem_append_right
  exact invalidMember_mem s.store s.people s.groups g hg r hr hnot

/-- C11: in the report of `validateDataQuality`, the "exceeds maxSize" messages with a given
title are as many as the groups with that title whose occupied count is greater than `maxSize`
(so such a group has its message, and every such message comes from such a group), and there is
one "Invalid member" message for each occupied slot whose occupant is not in `people`.  Hence
if `ensureDataQuality` returns without throwing, no group has more occupants than `maxSize` and
every occupant is in `people`. -/
theorem groupAssignment_check (s : Scheme) :
    (∀ report, (validateDataQuality s).2 = .ok report →
      (∀ title, (report.errors.filter (DQError.isExceeds title)).length =
        (s.groups.filter (fun g =>
          decide (g.title = title) && decide ((occupied g : ℚ) > g.maxSize))).length) ∧
      (∀ g ∈ s.groups, (occupied g : ℚ) > g.maxSize →
        DQError.exceedsMaxSize g.title ∈ report.errors) ∧
      (∀ title, DQError.exceedsMaxSize title ∈ report.errors →
        ∃ g ∈ s.groups, g.title = title ∧ (occupied g : ℚ) > g.maxSize) ∧
      (report.errors.filter DQError.isInvalidMember).length =
        (s.groups.map (strangerCount s.people)).sum ∧
      (∀ g ∈ s.groups, ∀ r, some r ∈ g.members → r ∉ s.people →
        DQError.invalidMember g.title (s.store r).id ∈ report.errors)) ∧
    ((ensureDataQuality s).2 = .ok () →
      ∀ g ∈ (ensureDataQuality s).1.groups,
        (occupied g : ℚ) ≤ g.maxSize ∧
        ∀ r, some r ∈ g.members → r ∈ (ensureDataQuality s).1.people) := by
  constructor
  · intro report h
    refine ⟨fun title => report_exceeds_length s report title h,
      fun g hg ho => report_exceeds_mem s report h g hg ho, ?_, ?_,
      fun g hg r hr hnot => report_invalidMember_mem s report h g hg r hr hnot⟩
    · intro title hmem
      have hpos : 0 < (report.errors.filter (DQError.isExceeds title)).length :=
        List.length_pos_of_mem (List.mem_filter.mpr ⟨hmem, by simp [DQError.isExceeds]⟩)
      rw [report_exceeds_length s report title h] at hpos
      obtain ⟨g, hg⟩ := List.exists_mem_of_length_pos hpos
      obtain ⟨hg1, hg2⟩ := List.mem_filter.mp hg
      simp only [Bool.and_eq_true, decide_eq_true_eq] at hg2
      exact ⟨g, hg1, hg2.1, hg2.2⟩
    · rw [report_filter s report _ 5 h check_of_isInvalidMember]
      simpa using invalidMember_filter_length s.store s.people s.groups
  · intro h g hg
    obtain ⟨report, hv, herr⟩ := ensureDataQuality_report s h
    rw [ensureDataQuality_scheme, (validateDataQuality_fields s).2] at hg
    rw [ensureDataQuality_scheme, (validateDataQuality_fields s).1]
    constructor
    · by_contra ho
      have := report_exceeds_mem s report hv g hg (not_le.mp ho)
      rw [herr] at this
      simp at this
    · intro r hr
      by_contra hnot
      have := report_invalidMember_mem s report hv g hg r hr hnot
      rw [herr] at this
      simp at this

/-- C11 at a group of `maxSize` 1 holding `A` and a person `B` who is not in `people`, and at
the valid scheme with `A` and `B` seated in `G1`. -/
theorem groupAssignment_check_witness :
    (validateDataQuality crowdedScheme).2 =
      .ok { errors := [DQError.exceedsMaxSize "G1", DQError.invalidMember "G1" "B"],
            warnings := [DQWarning.happinessConflict "A" 0 (-1)] } ∧
    ([DQError.exceedsMaxSize "G1", DQError.invalidMember "G1" "B"].filter
        DQError.isInvalidMember).length =
      (crowdedScheme.groups.map (strangerCount crowdedScheme.people)).sum ∧
    (ensureDataQuality seatedScheme).2 = .ok () ∧
    (∀ g ∈ (ensureDataQuality seatedScheme).1.groups,
      (occupied g : ℚ) ≤ g.maxSize ∧
      ∀ r, some r ∈ g.members → r ∈ (ensureDataQuality seatedScheme).1.people) :=
  ⟨by decide,
   ((groupAssignment_check crowdedScheme).1
      { errors := [DQError.exceedsMaxSize "G1", DQError.invalidMember "G1" "B"],
        warnings := [DQWarning.happinessConflict "A" 0 (-1)] } (by decide)).2.2.2.1,
   by decide,
   (groupAssignment_check seatedScheme).2 (by decide)⟩

/-! ## Validator: uniqueness -/

theorem card_sdiff_step {α : Type} [DecidableEq α] (x : α) (A S : Finset α) :
    ((insert x A) \ S).card =
      (if x ∈ S then 0 else 1) + (A \ insert x S).card := by
  by_cases hx : x ∈ S
  · have h1 : insert x S = S := Finset.insert_eq_of_mem hx
    have h2 : (insert x A) \ S = A \ S := by
      ext y
      simp only [Finset.mem_sdiff, Finset.mem_insert]
      constructor
      · rintro ⟨rfl | hy, hn⟩
        · exact absurd hx hn
        · exact ⟨hy, hn⟩
      · rintro ⟨hy, hn⟩
        exact ⟨Or.inr hy, hn⟩
    rw [h1, h2]
    simp [hx]
  · have h2 : (insert x A) \ S = insert x (A \ insert x S) := by
      ext y
      simp only [Finset.mem_sdiff, Finset.mem_insert]
      constructor
      · rintro ⟨rfl | hy, hn⟩
        · exact Or.inl rfl
        · by_cases hyx : y = x
          · exact Or.inl hyx
          · exact Or.inr ⟨hy, fun h => h.elim hyx hn⟩
      · rintro (rfl | ⟨hy, hn⟩)
        · exact ⟨Or.inl rfl, hx⟩
        · exact ⟨Or.inr hy, fun h => hn (Or.inr h)⟩
    have h3 : x ∉ A \ insert x S := by simp
    rw [h2, Finset.card_insert_of_not_mem h3]
    simp [hx]
    omega

theorem duplicateScan_length (seen l : List String) :
    (duplicateScan seen l).length + (l.toFinset \ seen.toFinset).card = l.length := by
  induction l generalizing seen with
  | nil => simp [duplicateScan]
  | cons x xs ih =>
    have hstep := card_sdiff_step x xs.toFinset seen.toFinset
    have hih := ih (x :: seen)
    rw [List.toFinset_cons] at hih
    rw [List.toFinset_cons, hstep, duplicateScan]
    by_cases hx : x ∈ seen
    · simp only [hx, if_true, List.length_cons, List.mem_toFinset]
      omega
    · simp only [hx, if_false, List.length_cons, List.mem_toFinset]
      omega

theorem duplicateScan_count (l : List String) :
    (duplicateScan [] l).length = l.length - l.dedup.length := by
  have h := duplicateScan_length [] l
  have hc : (l.toFinset \ ([] : List String).toFinset).card = l.dedup.length := by
    simp [List.card_toFinset]
  rw [hc] at h
  omega

theorem duplicateScan_nil_iff (l : List String) :
    duplicateScan [] l = [] ↔ l.Nodup := by
  have h := duplicateScan_length [] l
  have hc : (l.toFinset \ ([] : List String).toFinset).card = l.dedup.length := by
    simp [List.card_toFinset]
  rw [hc] at h
  constructor
  · intro hnil
    rw [hnil] at h
    simp only [List.length_nil, zero_add] at h
    rw [← List.dedup_eq_self]
    exact (List.dedup_sublist l).eq_of_length h
  · intro hnodup
    rw [List.dedup_eq_self.mpr hnodup] at h
    exact List.eq_nil_of_length_eq_zero (by omega)

theorem check_of_isDuplicatePersonId (e : DQError)
    (h : DQError.isDuplicatePersonId e = true) : e.check = 1 := by
  cases e <;> simp_all [DQError.isDuplicatePersonId, DQError.check]

theorem check_of_isDuplicateGroupTitle (e : DQError)
    (h : DQError.isDuplicateGroupTitle e = true) : e.check = 2 := by
  cases e <;> simp_all [DQError.isDuplicateGroupTitle, DQError.check]

theorem report_duplicatePersonId (s : Scheme) (report : Report)
    (h : (validateDataQuality s).2 = .ok report) :
    report.errors.filter DQError.isDuplicatePersonId =
      (duplicateScan [] (s.people.map (fun r => (s.store r).id))).map
        DQError.duplicatePersonId := by
  rw [report_filter s report _ 1 h check_of_isDuplicatePersonId]
  simp only [eq_self_iff_true, if_true, (by decide : ¬ (1 : Nat) = 2),
    (by decide : ¬ (1 : Nat) = 3), (by decide : ¬ (1 : Nat) = 4), (by decide : ¬ (1 : Nat) = 5),
    (by decide : ¬ (1 : Nat) = 6), if_false, List.append_nil, List.nil_append]
  rw [List.filter_eq_self]
  intro e he
  obtain ⟨x, _, hx⟩ := List.mem_map.mp he
  rw [← hx]
  rfl

theorem report_duplicateGroupTitle (s : Scheme) (report : Report)
    (h : (validateDataQuality s).2 = .ok report) :
    report.errors.filter DQError.isDuplicateGroupTitle =
      (duplicateScan [] (s.groups.map (fun g => g.title))).map
        DQError.duplicateGroupTitle := by
  rw [report_filter s report _ 2 h check_of_isDuplicateGroupTitle]
  simp only [eq_self_iff_true, if_true, (by decide : ¬ (2 : Nat) = 1),
    (by decide : ¬ (2 : Nat) = 3), (by decide : ¬ (2 : Nat) = 4), (by decide : ¬ (2 : Nat) = 5),
    (by decide : ¬ (2 : Nat) = 6), if_false, List.append_nil, List.nil_append]
  rw [List.filter_eq_self]
  intro e he
  obtain ⟨x, _, hx⟩ := List.mem_map.mp he
  rw [← hx]
  rfl

theorem validateDataQuality_ok_scheme (s : Scheme) (report : Report)
    (h : (validateDataQuality s).2 = .ok report) : (validateDataQuality s).1 = s := by
  rcases hp : pruneConnections (s.people.map (fun r => (s.store r).id)) s.store s.people with
    ⟨store1, e | warnings1⟩
  · rw [validateDataQuality_of_error s store1 e hp] at h
    simp at h
  · rw [validateDataQuality_of_ok s store1 warnings1 hp]
    have hs := pruneConnections_ok_store _ _ _ _ _ hp
    subst hs
    rfl

theorem ensureDataQuality_ok_scheme (s : Scheme) (h : (ensureDataQuality s).2 = .ok ()) :
    (ensureDataQuality s).1 = s := by
  obtain ⟨report, hv, _⟩ := ensureDataQuality_report s h
  rw [ensureDataQuality_scheme]
  exact validateDataQuality_ok_scheme s report hv

/-- C12: in the report of `validateDataQuality` the number of "Duplicate person ID" messages
is the number of people minus the number of distinct person ids, so there is none exactly when
the ids are pairwise distinct; the same holds for "Duplicate group title" messages and group
titles.  After an `ensureDataQuality` that returns without throwing, person ids and group
titles are pairwise distinct. -/
theorem uniqueness_check (s : Scheme) :
    (∀ report, (validateDataQuality s).2 = .ok report →
      (report.errors.filter DQError.isDuplicatePersonId).length =
        s.people.length - ((s.people.map (fun r => (s.store r).id)).dedup).length ∧
      (report.errors.filter DQError.isDuplicatePersonId = [] ↔
        (s.people.map (fun r => (s.store r).id)).Nodup) ∧
      (report.errors.filter DQError.isDuplicateGroupTitle).length =
        s.groups.length - ((s.groups.map (fun g => g.title)).dedup).length ∧
      (report.errors.filter DQError.isDuplicateGroupTitle = [] ↔
        (s.groups.map (fun g => g.title)).Nodup)) ∧
    ((ensureDataQuality s).2 = .ok () →
      ((ensureDataQuality s).1.people.map
        (fun r => ((ensureDataQuality s).1.store r).id)).Nodup ∧
      ((ensureDataQuality s).1.groups.map (fun g => g.title)).Nodup) := by
  have key : ∀ report, (validateDataQuality s).2 = .ok report →
      (report.errors.filter DQError.isDuplicatePersonId).length =
        s.people.length - ((s.people.map (fun r => (s.store r).id)).dedup).length ∧
      (report.errors.filter DQError.isDuplicatePersonId = [] ↔
        (s.people.map (fun r => (s.store r).id)).Nodup) ∧
      (report.errors.filter DQError.isDuplicateGroupTitle).length =
        s.groups.length - ((s.groups.map (fun g => g.title)).dedup).length ∧
      (report.errors.filter DQError.isDuplicateGroupTitle = [] ↔
        (s.groups.map (fun g => g.title)).Nodup) := by
    intro report h
    rw [report_duplicatePersonId s report h, report_duplicateGroupTitle s report h]
    refine ⟨?_, ?_, ?_, ?_⟩
    · rw [List.length_map, duplicateScan_count, List.length_map]
    · rw [List.map_eq_nil_iff, duplicateScan_nil_iff]
    · rw [List.length_map, duplicateScan_count, List.length_map]
    · rw [List.map_eq_nil_iff, duplicateScan_nil_iff]
  refine ⟨key, ?_⟩
  intro h
  obtain ⟨report, hv, herr⟩ := ensureDataQuality_report s h
  obtain ⟨_, h2, _, h4⟩ := key report hv
  rw [ensureDataQuality_ok_scheme s h]
  exact ⟨h2.mp (by simp [herr]), h4.mp (by simp [herr])⟩

/-- C12 at two people with the id `A`, one with the id `B`, and two groups titled `G1`; and
at the valid scheme `A`, `B`, `C`. -/
theorem uniqueness_check_witness :
    (validateDataQuality twinScheme).2 =
      .ok { errors := [DQError.duplicatePersonId "A", DQError.duplicateGroupTitle "G1"],
            warnings := [] } ∧
    ([DQError.duplicatePersonId "A", DQError.duplicateGroupTitle "G1"].filter
        DQError.isDuplicatePersonId).length =
      twinScheme.people.length -
        ((twinScheme.people.map (fun r => (twinScheme.store r).id)).dedup).length ∧
    (ensureDataQuality (abcScheme true)).2 = .ok () ∧
    ((ensureDataQuality (abcScheme true)).1.people.map
      (fun r => ((ensureDataQuality (abcScheme true)).1.store r).id)).Nodup :=
  ⟨by decide,
   ((uniqueness_check twinScheme).1
      { errors := [DQError.duplicatePersonId "A", DQError.duplicateGroupTitle "G1"],
        warnings := [] } (by decide)).1,
   by decide,
   ((uniqueness_check (abcScheme true)).2 (by decide)).1⟩

/-! ## Validator: required fields of groups -/

theorem positive_integer_iff (q : ℚ) :
    (q.isInt = true ∧ 0 < q) ↔ ∃ n : Nat, 0 < n ∧ q = (n : ℚ) := by
  constructor
  · rintro ⟨hint, hpos⟩
    have hden : q.den = 1 := by simpa [Rat.isInt] using hint
    have hq : ((q.num : ℤ) : ℚ) = q := (Rat.den_eq_one_iff q).mp hden
    have hnum : 0 < q.num := Rat.num_pos.mpr hpos
    refine ⟨q.num.toNat, by omega, ?_⟩
    have hcast : ((q.num.toNat : ℤ)) = q.num := Int.toNat_of_nonneg (le_of_lt hnum)
    calc q = ((q.num : ℤ) : ℚ) := hq.symm
      _ = (((q.num.toNat : ℤ)) : ℚ) := by rw [hcast]
      _ = (q.num.toNat : ℚ) := by norm_cast
  · rintro ⟨n, hn, rfl⟩
    refine ⟨by simp [Rat.isInt], by exact_mod_cast hn⟩

theorem groupField_none_iff (g : Group) :
    ((if g.title = "" ∨ g.maxSize = 0 then [DQError.missingGroupField g.title] else []) ++
      (if ¬ g.maxSize.isInt = true ∨ g.maxSize ≤ 0 then
        [DQError.invalidMaxSize g.title g.maxSize] else []) = []) ↔ validGroupFields g := by
  unfold validGroupFields
  rw [← positive_integer_iff]
  constructor
  · intro h
    simp only [List.append_eq_nil] at h
    obtain ⟨h1, h2⟩ := h
    have h1' : ¬ (g.title = "" ∨ g.maxSize = 0) := by
      intro hc
      rw [if_pos hc] at h1
      exact List.cons_ne_nil _ _ h1
    have h2' : ¬ (¬ g.maxSize.isInt = true ∨ g.maxSize ≤ 0) := by
      intro hc
      rw [if_pos hc] at h2
      exact List.cons_ne_nil _ _ h2
    push_neg at h1' h2'
    exact ⟨h1'.1, h2'.1, h2'.2⟩
  · rintro ⟨ht, hint, hpos⟩
    have h1 : ¬ (g.title = "" ∨ g.maxSize = 0) := by
      push_neg
      exact ⟨ht, ne_of_gt hpos⟩
    have h2 : ¬ (¬ g.maxSize.isInt = true ∨ g.maxSize ≤ 0) := by
      push_neg
      exact ⟨hint, hpos⟩
    rw [if_neg h1, if_neg h2]
    rfl

theorem groupField_filter_nil_iff (title : String) (groups : List Group) :
    (groupFieldErrors groups).filter (DQError.isGroupField title) = [] ↔
      ∀ g ∈ groups, g.title = title → validGroupFields g := by
  induction groups with
  | nil => simp [groupFieldErrors]
  | cons g rest ih =>
    rw [groupFieldErrors, List.filter_append, List.append_eq_nil, ih]
    have hhead : ((if g.title = "" ∨ g.maxSize = 0 then [DQError.missingGroupField g.title]
          else []) ++
        (if ¬ g.maxSize.isInt = true ∨ g.maxSize ≤ 0 then
          [DQError.invalidMaxSize g.title g.maxSize] else [])).filter
          (DQError.isGroupField title) = [] ↔ (g.title = title → validGroupFields g) := by
      by_cases ht : g.title = title
      · have hself : ((if g.title = "" ∨ g.maxSize = 0 then [DQError.missingGroupField g.title]
              else []) ++
            (if ¬ g.maxSize.isInt = true ∨ g.maxSize ≤ 0 then
              [DQError.invalidMaxSize g.title g.maxSize] else [])).filter
              (DQError.isGroupField title) =
            (if g.title = "" ∨ g.maxSize = 0 then [DQError.missingGroupField g.title]
              else []) ++
            (if ¬ g.maxSize.isInt = true ∨ g.maxSize ≤ 0 then
              [DQError.invalidMaxSize g.title g.maxSize] else []) := by
          rw [List.filter_eq_self]
          intro e he
          rcases List.mem_append.mp he with h | h
          · split at h
            · rw [List.mem_singleton.mp h]
              simp [DQError.isGroupField, ht]
            · simp at h
          · split at h
            · rw [List.mem_singleton.mp h]
              simp [DQError.isGroupField, ht]
            · simp at h
        rw [hself, groupField_none_iff]
        simp [ht]
      · constructor
        · intro _ h
          exact absurd h ht
        · intro _
          rw [List.filter_eq_nil_iff]
          intro e he
          rcases List.mem_append.mp he with h | h
          · split at h
            · rw [List.mem_singleton.mp h]
              simp [DQError.isGroupField, ht]
            · simp at h
          · split at h
            · rw [List.mem_singleton.mp h]
              simp [DQError.isGroupField, ht]
            · simp at h
    rw [hhead]
    simp only [List.mem_cons, forall_eq_or_imp]

theorem check_of_isGroupField (title : String) (e : DQError)
    (h : DQError.isGroupField title e = true) : e.check = 4 := by
  cases e <;> simp_all [DQError.isGroupField, DQError.check]

theorem report_groupField (s : Scheme) (report : Report) (title : String)
    (h : (validateDataQuality s).2 = .ok report) :
    report.errors.filter (DQError.isGroupField title) =
      (groupFieldErrors s.groups).filter (DQError.isGroupField title) := by
  rw [report_filter s report _ 4 h (check_of_isGroupField title)]
  simp only [eq_self_iff_true, if_true, (by decide : ¬ (4 : Nat) = 1),
    (by decide : ¬ (4 : Nat) = 2), (by decide : ¬ (4 : Nat) = 3), (by decide : ¬ (4 : Nat) = 5),
    (by decide : ¬ (4 : Nat) = 6), if_false, List.append_nil, List.nil_append]

/-- C13: in the report of `validateDataQuality` there is no "Missing required field for
group" and no "Invalid maxSize" message with a given title exactly when every group with that
title has a non-empty title and a positive integer `maxSize`; for a group whose title no other
group has, this is the condition on that group.  A group with an empty title, or with a
`maxSize` that is zero, negative or not an integer, makes `ensureDataQuality` throw. -/
theorem groupField_check (s : Scheme) :
    (∀ report, (validateDataQuality s).2 = .ok report →
      (∀ title, report.errors.filter (DQError.isGroupField title) = [] ↔
        ∀ g ∈ s.groups, g.title = title → validGroupFields g) ∧
      (∀ g ∈ s.groups, (∀ k ∈ s.groups, k.title = g.title → k = g) →
        (report.errors.filter (DQError.isGroupField g.title) = [] ↔
          (g.title ≠ "" ∧ g.maxSize.isInt = true ∧ 0 < g.maxSize)))) ∧
    (∀ g ∈ s.groups,
      (g.title = "" ∨ g.maxSize = 0 ∨ g.maxSize < 0 ∨ g.maxSize.isInt = false) →
      ∃ e, (ensureDataQuality s).2 = .error e) := by
  have key : ∀ report, (validateDataQuality s).2 = .ok report →
      ∀ title, report.errors.filter (DQError.isGroupField title) = [] ↔
        ∀ g ∈ s.groups, g.title = title → validGroupFields g := by
    intro report h title
    rw [report_groupField s report title h, groupField_filter_nil_iff]
  constructor
  · intro report h
    refine ⟨key report h, ?_⟩
    intro g hg huniq
    rw [key report h g.title]
    constructor
    · intro hall
      obtain ⟨ht, hn⟩ := hall g hg rfl
      exact ⟨ht, (positive_integer_iff _).mpr hn⟩
    · rintro ⟨ht, hint, hpos⟩ k hk hkt
      rw [huniq k hk hkt]
      exact ⟨ht, (positive_integer_iff _).mp ⟨hint, hpos⟩⟩
  · intro g hg hbad
    have hinvalid : ¬ validGroupFields g := by
      rintro ⟨ht, hn⟩
      obtain ⟨hint, hpos⟩ := (positive_integer_iff _).mpr hn
      rcases hbad with h | h | h | h
      · exact ht h
      · rw [h] at hpos
        exact lt_irrefl _ hpos
      · exact lt_asymm hpos h
      · rw [hint] at h
        exact Bool.noConfusion h
    rcases hv : (validateDataQuality s).2 with e | report
    · exact ⟨e, by rw [ensureDataQuality_outcome, hv]⟩
    · refine ⟨.dataQualityCheckFailed, ?_⟩
      have hne : report.errors.filter (DQError.isGroupField g.title) ≠ [] := by
        intro hnil
        exact hinvalid ((key report hv g.title).mp hnil g hg rfl)
      obtain ⟨e, he⟩ := List.exists_mem_of_ne_nil _ hne
      exact ensureDataQuality_raises_of_error s report e hv (List.mem_filter.mp he).1

/-- C13 at groups with an empty title and `maxSize` 0, with `maxSize` 5/2, and with
`maxSize` 3. -/
theorem groupField_check_witness :
    (validateDataQuality badFieldsScheme).2 =
      .ok { errors := [DQError.missingGroupField "", DQError.invalidMaxSize "" 0,
                       DQError.invalidMaxSize "G2" fiveHalves],
            warnings := [] } ∧
    ([DQError.missingGroupField "", DQError.invalidMaxSize "" 0,
        DQError.invalidMaxSize "G2" fiveHalves].filter (DQError.isGroupField "G3") = [] ↔
      ∀ g ∈ badFieldsScheme.groups, g.title = "G3" → validGroupFields g) ∧
    (∃ e, (ensureDataQuality badFieldsScheme).2 = .error e) :=
  ⟨by decide,
   ((groupField_check badFieldsScheme).1
      { errors := [DQError.missingGroupField "", DQError.invalidMaxSize "" 0,
                   DQError.invalidMaxSize "G2" fiveHalves],
        warnings := [] } (by decide)).1 "G3",
   (groupField_check badFieldsScheme).2
      { title := "G2", maxSize := fiveHalves, x := 0, y := 0, members := [] }
      (by decide) (Or.inr (Or.inr (Or.inr (by decide))))⟩

/-! ## Validator: positions -/

theorem positionScan_length (store : Store) (title : String) (seen : List (JSNum × JSNum))
    (members : List (Option Ref)) :
    (positionScan store title seen members).length +
      ((members.reduceOption.map (fun r => ((store r).x, (store r).y))).toFinset \
        seen.toFinset).card =
      (members.reduceOption.map (fun r => ((store r).x, (store r).y))).length := by
  induction members generalizing seen with
  | nil => simp [positionScan]
  | cons m ms ih =>
    cases m with
    | none =>
      rw [positionScan, List.reduceOption_cons_of_none]
      exact ih seen
    | some r =>
      have hstep := card_sdiff_step ((store r).x, (store r).y)
        (ms.reduceOption.map (fun r => ((store r).x, (store r).y))).toFinset seen.toFinset
      have hih := ih (((store r).x, (store r).y) :: seen)
      rw [List.toFinset_cons] at hih
      rw [positionScan, List.reduceOption_cons_of_some, List.map_cons, List.toFinset_cons, hstep]
      by_cases hx : ((store r).x, (store r).y) ∈ seen
      · simp only [hx, if_true, List.length_append, List.length_cons, List.length_nil,
          List.mem_toFinset]
        omega
      · simp only [hx, if_false, List.length_append, List.length_cons, List.length_nil,
          List.mem_toFinset]
        omega

theorem occupantPositions_length (store : Store) (g : Group) :
    (occupantPositions store g).length = occupied g := by
  rw [occupantPositions, List.length_map, occupied_eq_reduceOption]

theorem positionScan_count (store : Store) (g : Group) :
    (positionScan store g.title [] g.members).length =
      occupied g - (occupantPositions store g).dedup.length := by
  have h := positionScan_length store g.title [] g.members
  have hc : ((g.members.reduceOption.map (fun r => ((store r).x, (store r).y))).toFinset \
      ([] : List (JSNum × JSNum)).toFinset).card = (occupantPositions store g).dedup.length := by
    simp [List.card_toFinset, occupantPositions]
  have hl := occupantPositions_length store g
  rw [occupantPositions] at hl
  rw [hc, hl] at h
  omega

theorem positionScan_title (store : Store) (title : String) (seen : List (JSNum × JSNum))
    (members : List (Option Ref)) :
    ∀ e ∈ positionScan store title seen members, ∃ x y, e = DQError.samePosition title x y := by
  induction members generalizing seen with
  | nil => simp [positionScan]
  | cons m ms ih =>
    intro e he
    cases m with
    | none =>
      rw [positionScan] at he
      exact ih _ e he
    | some r =>
      rw [positionScan] at he
      rcases List.mem_append.mp he with h | h
      · split at h
        · exact ⟨_, _, List.mem_singleton.mp h⟩
        · simp at h
      · exact ih _ e h

theorem positionScan_filter (store : Store) (title : String) (g : Group) :
    (positionScan store g.title [] g.members).filter (DQError.isSamePosition title) =
      if g.title = title then positionScan store g.title [] g.members else [] := by
  split
  · rename_i ht
    rw [List.filter_eq_self]
    intro e he
    obtain ⟨x, y, hxy⟩ := positionScan_title _ _ _ _ e he
    rw [hxy]
    simp [DQError.isSamePosition, ht]
  · rename_i ht
    rw [List.filter_eq_nil_iff]
    intro e he
    obtain ⟨x, y, hxy⟩ := positionScan_title _ _ _ _ e he
    rw [hxy]
    simp [DQError.isSamePosition, ht]

theorem samePosition_filter_length (store : Store) (title : String) (groups : List Group) :
    ((positionErrors store groups).filter (DQError.isSamePosition title)).length =
      ((groups.filter (fun g => decide (g.title = title))).map
        (fun g => occupied g - (occupantPositions store g).dedup.length)).sum := by
  induction groups with
  | nil => rfl
  | cons g rest ih =>
    rw [positionErrors, List.filter_append, List.length_append, ih, positionScan_filter]
    by_cases ht : g.title = title
    · simp only [List.filter_cons, ht, decide_True, if_true, List.map_cons, List.sum_cons]
      rw [← ht, positionScan_count]
    · simp [List.filter_cons, ht]

theorem samePosition_filter_nil_iff (store : Store) (title : String) (groups : List Group) :
    (positionErrors store groups).filter (DQError.isSamePosition title) = [] ↔
      ∀ g ∈ groups, g.title = title → (occupantPositions store g).Nodup := by
  induction groups with
  | nil => simp [positionErrors]
  | cons g rest ih =>
    rw [positionErrors, List.filter_append, List.append_eq_nil, ih, positionScan_filter]
    simp only [List.mem_cons, forall_eq_or_imp]
    have hhead : (if g.title = title then positionScan store g.title [] g.members else []) = [] ↔
        (g.title = title → (occupantPositions store g).Nodup) := by
      by_cases ht : g.title = title
      · simp only [ht, if_true, true_implies]
        rw [← ht]
        have hcount := positionScan_count store g
        have hlen := occupantPositions_length store g
        have hsub := (List.dedup_sublist (occupantPositions store g)).length_le
        constructor
        · intro hnil
          rw [hnil] at hcount
          simp only [List.length_nil] at hcount
          rw [← List.dedup_eq_self]
          exact (List.dedup_sublist _).eq_of_length (by omega)
        · intro hnodup
          rw [List.dedup_eq_self.mpr hnodup] at hcount
          exact List.eq_nil_of_length_eq_zero (by omega)
      · simp [ht]
    rw [hhead]

theorem check_of_isSamePosition (title : String) (e : DQError)
    (h : DQError.isSamePosition title e = true) : e.check = 6 := by
  cases e <;> simp_all [DQError.isSamePosition, DQError.check]

theorem report_samePosition (s : Scheme) (report : Report) (title : String)
    (h : (validateDataQuality s).2 = .ok report) :
    report.errors.filter (DQError.isSamePosition title) =
      (positionErrors s.store s.groups).filter (DQError.isSamePosition title) := by
  rw [report_filter s report _ 6 h (check_of_isSamePosition title)]
  simp only [eq_self_iff_true, if_true, (by decide : ¬ (6 : Nat) = 1),
    (by decide : ¬ (6 : Nat) = 2), (by decide : ¬ (6 : Nat) = 3), (by decide : ¬ (6 : Nat) = 4),
    (by decide : ¬ (6 : Nat) = 5), if_false, List.append_nil, List.nil_append]

theorem positions_not_nodup (store : Store) (g : Group)
    (h : ¬ g.members.reduceOption.Nodup) : ¬ (occupantPositions store g).Nodup :=
  fun hn => h (List.Nodup.of_map _ hn)

theorem filter_title_eq_singleton (groups : List Group) (g : Group) (hg : g ∈ groups)
    (huniq : (groups.map (fun k => k.title)).count g.title = 1) :
    groups.filter (fun k => decide (k.title = g.title)) = [g] := by
  have hlen : (groups.filter (fun k => decide (k.title = g.title))).length = 1 := by
    rw [← huniq, List.count, List.countP_map, List.countP_eq_length_filter]
    congr 1
  have hmem : g ∈ groups.filter (fun k => decide (k.title = g.title)) :=
    List.mem_filter.mpr ⟨hg, by simp⟩
  obtain ⟨a, ha⟩ := List.length_eq_one.mp hlen
  rw [ha] at hmem ⊢
  rw [List.mem_singleton.mp hmem]

/-- C20: in the report of `validateDataQuality` the number of "Multiple people occupy the
same position" messages with a given title is the sum, over the groups with that title, of the
occupied count minus the number of distinct `(x, y)` positions of the occupants; for a group
whose title no other group has, it is that difference for the group.  There is no such message
exactly when the occupants' positions are pairwise distinct in each group with that title.  A
group that holds the same person in two slots yields a message, and makes `ensureDataQuality`
throw. -/
theorem position_check (s : Scheme) :
    (∀ report, (validateDataQuality s).2 = .ok report →
      (∀ title, (report.errors.filter (DQError.isSamePosition title)).length =
        ((s.groups.filter (fun g => decide (g.title = title))).map
          (fun g => occupied g - (occupantPositions s.store g).dedup.length)).sum) ∧
      (∀ g ∈ s.groups, (s.groups.map (fun k => k.title)).count g.title = 1 →
        (report.errors.filter (DQError.isSamePosition g.title)).length =
          occupied g - (occupantPositions s.store g).dedup.length) ∧
      (∀ title, report.errors.filter (DQError.isSamePosition title) = [] ↔
        ∀ g ∈ s.groups, g.title = title → (occupantPositions s.store g).Nodup) ∧
      (∀ g ∈ s.groups, ¬ g.members.reduceOption.Nodup →
        ∃ x y, DQError.samePosition g.title x y ∈ report.errors)) ∧
    (∀ g ∈ s.groups, ¬ g.members.reduceOption.Nodup →
      ∃ e, (ensureDataQuality s).2 = .error e) := by
  have hmsg : ∀ report, (validateDataQuality s).2 = .ok report →
      ∀ g ∈ s.groups, ¬ g.members.reduceOption.Nodup →
        ∃ x y, DQError.samePosition g.title x y ∈ report.errors := by
    intro report h g hg hdup
    have hne : report.errors.filter (DQError.isSamePosition g.title) ≠ [] := by
      intro hnil
      rw [report_samePosition s report g.title h, samePosition_filter_nil_iff] at hnil
      exact positions_not_nodup s.store g hdup (hnil g hg rfl)
    obtain ⟨e, he⟩ := List.exists_mem_of_ne_nil _ hne
    obtain ⟨he1, he2⟩ := List.mem_filter.mp he
    cases e <;> simp [DQError.isSamePosition] at he2
    rename_i t x y
    exact ⟨x, y, he2 ▸ he1⟩
  constructor
  · intro report h
    refine ⟨?_, ?_, ?_, hmsg report h⟩
    · intro title
      rw [report_samePosition s report title h, samePosition_filter_length]
    · intro g hg huniq
      rw [report_samePosition s report g.title h, samePosition_filter_length,
        filter_title_eq_singleton s.groups g hg huniq]
      simp
    · intro title
      rw [report_samePosition s report title h, samePosition_filter_nil_iff]
  · intro g hg hdup
    rcases hv : (validateDataQuality s).2 with e | report
    · exact ⟨e, by rw [ensureDataQuality_outcome, hv]⟩
    · obtain ⟨x, y, hxy⟩ := hmsg report hv g hg hdup
      exact ⟨.dataQualityCheckFailed, ensureDataQuality_raises_of_error s report _ hv hxy⟩

/-- C20 at `A` seated in both slots of `G1`: one message, two occupants, one position. -/
theorem position_check_witness :
    (validateDataQuality repeatScheme).2 =
      .ok { errors := [DQError.samePosition "G1" 0 0], warnings := [] } ∧
    ([DQError.samePosition "G1" 0 0].filter (DQError.isSamePosition "G1")).length =
      ((repeatScheme.groups.filter (fun g => decide (g.title = "G1"))).map
        (fun g => occupied g - (occupantPositions repeatScheme.store g).dedup.length)).sum ∧
    (∃ e, (ensureDataQuality repeatScheme).2 = .error e) :=
  ⟨by decide,
   ((position_check repeatScheme).1
      { errors := [DQError.samePosition "G1" 0 0], warnings := [] } (by decide)).1 "G1",
   (position_check repeatScheme).2
      { title := "G1", maxSize := 2, x := 0, y := 0, members := [some 0, some 0] }
      (by decide) (by decide)⟩

/-! ## Balanced assignment: selection and order -/

theorem swap_perm {α : Type} [DecidableEq α] (array : List α) (i j : Nat) :
    (swap array i j).Perm array := by
  unfold swap
  split
  · rename_i a b ha hb
    rw [List.perm_iff_count]
    intro x
    obtain ⟨hi, hai⟩ := List.getElem?_eq_some.mp ha
    obtain ⟨hj, hbj⟩ := List.getElem?_eq_some.mp hb
    have hj2 : j < (array.set i b).length := by simpa using hj
    rw [List.count_set _ _ _ _ hj2, List.count_set _ _ _ _ hi]
    have h1 : (array.set i b)[j] = b := by
      rw [List.getElem_set]
      split
      · rfl
      · exact hbj
    rw [h1, hai]
    have hpos : a = x → 1 ≤ array.count x := by
      intro hax
      rw [List.one_le_count_iff]
      exact hax ▸ List.getElem?_mem ha
    by_cases hax : a = x
    · have hone := hpos hax
      by_cases hbx : b = x <;> simp [hax, hbx] <;> omega
    · by_cases hbx : b = x <;> simp [hax, hbx]
  · exact List.Perm.refl _

theorem shuffleFrom_perm {α : Type} [DecidableEq α] (start i : Nat) (array : List α)
    (draws : List Nat) : (shuffleFrom start i array draws).1.Perm array := by
  induction i generalizing array draws with
  | zero => simp [shuffleFrom]
  | succ i ih =>
    unfold shuffleFrom
    split
    · exact (ih _ _).trans (swap_perm _ _ _)
    · exact List.Perm.refl _

theorem shuffleArray_perm {α : Type} [DecidableEq α] (array : List α) (start stop : Nat)
    (draws : List Nat) : (shuffleArray array start stop draws).1.Perm array :=
  shuffleFrom_perm start (stop - 1) array draws

theorem calculateGroupPreferenceScore_nonneg (person : Person) (group : Group) :
    0 ≤ calculateGroupPreferenceScore person group := by
  by_cases h : group.title ∈ person.groupPreferences
  · rw [score_of_mem person group h]
    have := List.indexOf_lt_length.mpr h
    omega
  · rw [score_of_not_mem person group h]

theorem activeScore_nonneg (s : Scheme) (person : Person) (group : Group) :
    0 ≤ activeScore s person group := by
  unfold activeScore
  split
  · exact calculateGroupPreferenceScore_nonneg person group
  · rw [calculateGroupScore_eq]
    exact Int.natCast_nonneg _

theorem selectLoop_spec (s : Scheme) (person : Person) (l : List (Nat × Group))
    (bestGroup : Option (Nat × Group)) (bestScore : Int) :
    (selectLoop s person l bestGroup bestScore = bestGroup ∧
      ∀ y ∈ l, canAddToGroup s y.2 = true → activeScore s person y.2 ≤ bestScore) ∨
    ∃ front x back, l = front ++ x :: back ∧
      selectLoop s person l bestGroup bestScore = some x ∧
      canAddToGroup s x.2 = true ∧ bestScore < activeScore s person x.2 ∧
      (∀ y ∈ front, canAddToGroup s y.2 = true →
        activeScore s person y.2 < activeScore s person x.2) ∧
      (∀ y ∈ back, canAddToGroup s y.2 = true →
        activeScore s person y.2 ≤ activeScore s person x.2) := by
  induction l generalizing bestGroup bestScore with
  | nil => exact Or.inl ⟨rfl, by simp⟩
  | cons hd tl ih =>
    obtain ⟨gi, group⟩ := hd
    by_cases hc : canAddToGroup s group = true
    · by_cases hs : activeScore s person group > bestScore
      · have hstep : selectLoop s person ((gi, group) :: tl) bestGroup bestScore =
            selectLoop s person tl (some (gi, group)) (activeScore s person group) := by
          rw [selectLoop]
          simp only [hc, if_true, hs]
        rw [hstep]
        rcases ih (some (gi, group)) (activeScore s person group) with ⟨h1, h2⟩ |
          ⟨front, x, back, hl, hx, hcx, hsx, hfront, hback⟩
        · exact Or.inr ⟨[], (gi, group), tl, rfl, h1, hc, hs, by simp, h2⟩
        · refine Or.inr ⟨(gi, group) :: front, x, back, by rw [hl]; rfl, hx, hcx,
            lt_trans hs hsx, ?_, hback⟩
          intro y hy hcy
          rcases List.mem_cons.mp hy with rfl | hy
          · exact hsx
          · exact hfront y hy hcy
      · have hstep : selectLoop s person ((gi, group) :: tl) bestGroup bestScore =
            selectLoop s person tl bestGroup bestScore := by
          rw [selectLoop]
          simp only [hc, if_true, hs, if_false]
        rw [hstep]
        rcases ih bestGroup bestScore with ⟨h1, h2⟩ |
          ⟨front, x, back, hl, hx, hcx, hsx, hfront, hback⟩
        · refine Or.inl ⟨h1, ?_⟩
          intro y hy hcy
          rcases List.mem_cons.mp hy with rfl | hy
          · exact not_lt.mp hs
          · exact h2 y hy hcy
        · refine Or.inr ⟨(gi, group) :: front, x, back, by rw [hl]; rfl, hx, hcx, hsx, ?_,
            hback⟩
          intro y hy hcy
          rcases List.mem_cons.mp hy with rfl | hy
          · exact lt_of_le_of_lt (not_lt.mp hs) hsx
          · exact hfront y hy hcy
    · have hstep : selectLoop s person ((gi, group) :: tl) bestGroup bestScore =
          selectLoop s person tl bestGroup bestScore := by
        rw [selectLoop]
        simp only [hc]
        rfl
      rw [hstep]
      rcases ih bestGroup bestScore with ⟨h1, h2⟩ |
        ⟨front, x, back, hl, hx, hcx, hsx, hfront, hback⟩
      · refine Or.inl ⟨h1, ?_⟩
        intro y hy hcy
        rcases List.mem_cons.mp hy with rfl | hy
        · exact absurd hcy hc
        · exact h2 y hy hcy
      · refine Or.inr ⟨(gi, group) :: front, x, back, by rw [hl]; rfl, hx, hcx, hsx, ?_,
          hback⟩
        intro y hy hcy
        rcases List.mem_cons.mp hy with rfl | hy
        · exact absurd hcy hc
        · exact hfront y hy hcy

theorem chooseGroup_spec (s : Scheme) (person : Ref) (draws : List Nat) :
    ((chooseGroup s person draws).1 = none ∧
      ∀ y ∈ (shuffleArray s.groups.enum 0 s.groups.length draws).1,
        canAddToGroup s y.2 = false) ∨
    ∃ front x back,
      (shuffleArray s.groups.enum 0 s.groups.length draws).1 = front ++ x :: back ∧
      (chooseGroup s person draws).1 = some x ∧
      canAddToGroup s x.2 = true ∧
      (∀ y ∈ front, canAddToGroup s y.2 = true →
        activeScore s (s.store person) y.2 < activeScore s (s.store person) x.2) ∧
      (∀ y ∈ back, canAddToGroup s y.2 = true →
        activeScore s (s.store person) y.2 ≤ activeScore s (s.store person) x.2) := by
  have hchoose : (chooseGroup s person draws).1 =
      selectLoop s (s.store person) (shuffleArray s.groups.enum 0 s.groups.length draws).1
        none (-1) := rfl
  rw [hchoose]
  rcases selectLoop_spec s (s.store person)
      (shuffleArray s.groups.enum 0 s.groups.length draws).1 none (-1) with ⟨h1, h2⟩ |
    ⟨front, x, back, hl, hx, hcx, _, hfront, hback⟩
  · refine Or.inl ⟨h1, ?_⟩
    intro y hy
    by_contra hcy
    have hcy2 : canAddToGroup s y.2 = true := by simpa using hcy
    have := h2 y hy hcy2
    have := activeScore_nonneg s (s.store person) y.2
    omega
  · exact Or.inr ⟨front, x, back, hl, hx, hcx, hfront, hback⟩

/-- C17: balanced selection is first-max-wins.  For every person and all draws, the groups
are evaluated in an order that is a permutation of `this.groups`; either no group of it is
eligible and none is chosen, or the chosen group is eligible, every eligible group evaluated
before it has a strictly smaller score under the active scoring function, and every eligible
group evaluated after it has a score that is not greater: it is the first eligible group with
the maximal score, and a later group with an equal score does not replace it. -/
theorem balancedSelection_first_max (s : Scheme) (person : Ref) (draws : List Nat) :
    (shuffleArray s.groups.enum 0 s.groups.length draws).1.Perm s.groups.enum ∧
    (((chooseGroup s person draws).1 = none ∧
        ∀ y ∈ (shuffleArray s.groups.enum 0 s.groups.length draws).1,
          canAddToGroup s y.2 = false) ∨
      ∃ front x back,
        (shuffleArray s.groups.enum 0 s.groups.length draws).1 = front ++ x :: back ∧
        (chooseGroup s person draws).1 = some x ∧
        canAddToGroup s x.2 = true ∧
        (∀ y ∈ front, canAddToGroup s y.2 = true →
          activeScore s (s.store person) y.2 < activeScore s (s.store person) x.2) ∧
        (∀ y ∈ back, canAddToGroup s y.2 = true →
          activeScore s (s.store person) y.2 ≤ activeScore s (s.store person) x.2)) :=
  ⟨shuffleArray_perm _ _ _ _, chooseGroup_spec s person draws⟩

theorem mem_order_iff (s : Scheme) (draws : List Nat) (y : Nat × Group) :
    y ∈ (shuffleArray s.groups.enum 0 s.groups.length draws).1 ↔ s.groups[y.1]? = some y.2 := by
  rw [(shuffleArray_perm s.groups.enum 0 s.groups.length draws).mem_iff]
  exact List.mk_mem_enum_iff_getElem?

theorem chooseGroup_none_iff (s : Scheme) (person : Ref) (draws : List Nat) :
    (chooseGroup s person draws).1 = none ↔ ∀ g ∈ s.groups, canAddToGroup s g = false := by
  constructor
  · intro hnone g hg
    rcases chooseGroup_spec s person draws with ⟨_, h2⟩ | ⟨_, x, _, _, hx, _⟩
    · obtain ⟨i, hi⟩ := List.getElem?_of_mem hg
      exact h2 (i, g) ((mem_order_iff s draws (i, g)).mpr hi)
    · rw [hnone] at hx
      exact absurd hx (by simp)
  · intro hall
    rcases chooseGroup_spec s person draws with ⟨h1, _⟩ | ⟨front, x, back, hl, _, hcx, _⟩
    · exact h1
    · have hmem : x ∈ (shuffleArray s.groups.enum 0 s.groups.length draws).1 := by
        rw [hl]
        exact List.mem_append_right _ (List.mem_cons_self _ _)
      have hx := List.getElem?_mem ((mem_order_iff s draws x).mp hmem)
      rw [hall x.2 hx] at hcx
      exact absurd hcx (by simp)

theorem assignLoop_cons_none (s : Scheme) (person : Ref) (rest : List Ref) (draws : List Nat)
    (hc : (chooseGroup s person draws).1 = none) :
    assignLoop s (person :: rest) draws = assignLoop s rest (chooseGroup s person draws).2 := by
  rw [assignLoop]
  split
  · rename_i gi2 g2 d2 heq
    rw [heq] at hc
    exact absurd hc (by simp)
  · rename_i d2 heq
    simp [heq]

theorem mem_fillFirstFree (person : Ref) (members : List (Option Ref))
    (h : none ∈ members) : some person ∈ fillFirstFree person members := by
  induction members with
  | nil => simp at h
  | cons m ms ih =>
    cases m with
    | none => simp [fillFirstFree]
    | some r =>
      rw [fillFirstFree]
      have h2 : none ∈ ms := by simpa using h
      exact List.mem_cons_of_mem _ (ih h2)

theorem free_slot_of_eligible (s : Scheme) (g : Group) (hc : canAddToGroup s g = true)
    (hlen : (g.members.length : ℚ) = g.maxSize) : none ∈ g.members := by
  by_contra hnone
  have hall : g.members.filter (fun m => m.isSome) = g.members := by
    rw [List.filter_eq_self]
    intro m hm
    cases m with
    | none => exact absurd hm hnone
    | some r => rfl
  have hocc : occupied g = g.members.length := by
    unfold occupied
    rw [hall]
  have hlt : (occupied g : ℚ) < g.maxSize := by
    unfold canAddToGroup at hc
    simp only [Bool.and_eq_true, decide_eq_true_eq] at hc
    exact hc.1
  rw [hocc, hlen] at hlt
  exact lt_irrefl _ hlt

theorem set_eq_self_of_getElem? {β : Type} (l : List β) (i : Nat) (x : β)
    (h : l[i]? = some x) : l.set i x = l := by
  apply List.ext_getElem?
  intro k
  rw [List.getElem?_set]
  split
  · rename_i hik
    subst hik
    have hlt : i < l.length := (List.getElem?_eq_some.mp h).1
    simp [hlt, h]
  · rfl

theorem mem_set_self {β : Type} (l : List β) (i : Nat) (x y : β)
    (h : l[i]? = some x) : y ∈ l.set i y := by
  have hlt : i < l.length := (List.getElem?_eq_some.mp h).1
  have hy : (l.set i y)[i]? = some y := by
    rw [List.getElem?_set]
    simp [hlt]
  exact List.getElem?_mem hy

theorem fillFirstFree_first_free (person : Ref) (front back : List (Option Ref))
    (h : none ∉ front) :
    fillFirstFree person (front ++ none :: back) = front ++ some person :: back := by
  induction front with
  | nil => rfl
  | cons m ms ih =>
    cases m with
    | none => exact absurd (List.mem_cons_self _ _) h
    | some r =>
      have h2 : none ∉ ms := fun hm => h (List.mem_cons_of_mem _ hm)
      show some r :: fillFirstFree person (ms ++ none :: back) = _
      rw [ih h2]
      rfl

theorem fillFirstFree_full (person : Ref) (members : List (Option Ref))
    (h : none ∉ members) : fillFirstFree person members = members := by
  induction members with
  | nil => rfl
  | cons m ms ih =>
    cases m with
    | none => exact absurd (List.mem_cons_self _ _) h
    | some r =>
      have h2 : none ∉ ms := fun hm => h (List.mem_cons_of_mem _ hm)
      show some r :: fillFirstFree person ms = _
      rw [ih h2]

theorem assignLoop_single_none (s : Scheme) (person : Ref) (draws : List Nat)
    (hc : (chooseGroup s person draws).1 = none) :
    (assignLoop s [person] draws).1 = s := by
  rw [assignLoop_cons_none s person [] draws hc]
  rfl

theorem assignLoop_single_some (s : Scheme) (person : Ref) (draws : List Nat)
    (gi : Nat) (g : Group) (hc : (chooseGroup s person draws).1 = some (gi, g)) :
    (assignLoop s [person] draws).1 =
      { s with groups := s.groups.set gi (g.addMember person) } := by
  rw [assignLoop_cons_some s person [] draws gi g hc]
  rfl

theorem assignLoop_single_full (s : Scheme) (person : Ref) (draws : List Nat)
    (gi : Nat) (g : Group) (hc : (chooseGroup s person draws).1 = some (gi, g))
    (hfull : none ∉ g.members) :
    (assignLoop s [person] draws).1 = s := by
  rw [assignLoop_single_some s person draws gi g hc]
  have hg : g.addMember person = g := by
    show ({ g with members := fillFirstFree person g.members } : Group) = g
    rw [fillFirstFree_full person g.members hfull]
  rw [hg, set_eq_self_of_getElem? _ _ _ (chooseGroup_sound s person draws gi g hc).1]

theorem placed_iff_chosen_free (s : Scheme) (person : Ref) (draws : List Nat)
    (hun : ∀ g ∈ s.groups, some person ∉ g.members) :
    (∃ g ∈ (assignLoop s [person] draws).1.groups, some person ∈ g.members) ↔
      ∃ gi g, (chooseGroup s person draws).1 = some (gi, g) ∧ none ∈ g.members := by
  constructor
  · rintro ⟨g2, hg2, hp⟩
    rcases hch : (chooseGroup s person draws).1 with _ | ⟨gi, g⟩
    · rw [assignLoop_single_none s person draws hch] at hg2
      exact absurd hp (hun g2 hg2)
    · by_cases hn : none ∈ g.members
      · exact ⟨gi, g, rfl, hn⟩
      · rw [assignLoop_single_full s person draws gi g hch hn] at hg2
        exact absurd hp (hun g2 hg2)
  · rintro ⟨gi, g, hch, hn⟩
    refine ⟨g.addMember person, ?_, mem_fillFirstFree person g.members hn⟩
    rw [assignLoop_single_some s person draws gi g hch]
    exact mem_set_self _ _ _ _ (chooseGroup_sound s person draws gi g hch).1

/-- C19, as the claim states it, fails.  The scheme that `deserialize` makes of a snapshot with
the people `A`, `B` and the group `G1` of `maxSize` 3 whose `members` array is `["B"]` passes
`ensureDataQuality`; `A` is in no group, `G1` is eligible and is the group chosen at the turn
of `A`, and after `balancedAssignment([A])` the groups are as they were: `A` is not placed. -/
theorem eligible_not_placed :
    (∃ d, deserialize shortSlotSnapshot = .ok d ∧ d.people = shortSlotScheme.people ∧
      d.people.map d.store = shortSlotScheme.people.map shortSlotScheme.store ∧
      d.groups = shortSlotScheme.groups ∧
      d.useGroupPreferences = shortSlotScheme.useGroupPreferences) ∧
    (ensureDataQuality shortSlotScheme).2 = .ok () ∧
    (∀ g ∈ shortSlotScheme.groups, some 0 ∉ g.members) ∧
    (∃ g ∈ shortSlotScheme.groups, canAddToGroup shortSlotScheme g = true) ∧
    (chooseGroup shortSlotScheme 0 []).1 =
      some (0, { title := "G1", maxSize := 3, x := 0, y := 0, members := [some 1] }) ∧
    (balancedAssignment shortSlotScheme [0] []).1.groups = shortSlotScheme.groups ∧
    (¬ ∃ g ∈ (balancedAssignment shortSlotScheme [0] []).1.groups, some 0 ∈ g.members) ∧
    ∀ draws, ¬ ∃ g ∈ (assignLoop shortSlotScheme [0] draws).1.groups, some 0 ∈ g.members := by
  refine ⟨⟨_, rfl, rfl, by decide, by decide, rfl⟩, by decide, by decide, by decide, by decide,
    by decide, by decide, ?_⟩
  intro draws hplaced
  obtain ⟨gi, g, hch, hn⟩ :=
    (placed_iff_chosen_free shortSlotScheme 0 draws (by decide)).mp hplaced
  have hmem : g ∈ shortSlotScheme.groups :=
    List.getElem?_mem (chooseGroup_sound shortSlotScheme 0 draws gi g hch).1
  have hg : g = { title := "G1", maxSize := 3, x := 0, y := 0, members := [some 1] } := by
    simpa [shortSlotScheme] using hmem
  rw [hg] at hn
  exact absurd hn (by decide)

/-- C19, amended: placement at the turn of a person (the placement loop over that one person,
from the scheme and the draws of that turn).  No group is chosen iff no group is eligible, and
then the scheme is unchanged.  If some group is eligible, an eligible group of `this.groups` is
chosen (every score is at least `0`, the initial best score is `-1`) and the scheme after the
turn has `addMember` applied to it: the person is in its first empty slot and so is a member of
a group; without an empty slot the scheme is unchanged; a chosen group whose slot array has
length `maxSize` has an empty slot.  A person who was in no group is in a group after the turn
iff the chosen group has an empty slot, hence, when every slot array has length `maxSize`, iff
some group is eligible.  The loop over `person :: rest` goes on from the scheme after the
turn. -/
theorem placement_iff_eligible (s : Scheme) (person : Ref) (draws : List Nat) :
    ((chooseGroup s person draws).1 = none ↔ ∀ g ∈ s.groups, canAddToGroup s g = false) ∧
    ((∀ g ∈ s.groups, canAddToGroup s g = false) → (assignLoop s [person] draws).1 = s) ∧
    ((∃ g ∈ s.groups, canAddToGroup s g = true) →
      ∃ gi g, (chooseGroup s person draws).1 = some (gi, g) ∧ s.groups[gi]? = some g ∧
        canAddToGroup s g = true ∧
        (assignLoop s [person] draws).1 =
          { s with groups := s.groups.set gi (g.addMember person) } ∧
        (∀ front back, g.members = front ++ none :: back → none ∉ front →
          (g.addMember person).members = front ++ some person :: back ∧
          ∃ g2 ∈ (assignLoop s [person] draws).1.groups, some person ∈ g2.members) ∧
        (none ∉ g.members → (assignLoop s [person] draws).1 = s) ∧
        ((g.members.length : ℚ) = g.maxSize → none ∈ g.members)) ∧
    ((∀ g ∈ s.groups, some person ∉ g.members) →
      ((∃ g ∈ (assignLoop s [person] draws).1.groups, some person ∈ g.members) ↔
        ∃ gi g, (chooseGroup s person draws).1 = some (gi, g) ∧ none ∈ g.members)) ∧
    ((∀ g ∈ s.groups, some person ∉ g.members) →
      (∀ g ∈ s.groups, (g.members.length : ℚ) = g.maxSize) →
      ((∃ g ∈ (assignLoop s [person] draws).1.groups, some person ∈ g.members) ↔
        ∃ g ∈ s.groups, canAddToGroup s g = true)) ∧
    (∀ g, 0 ≤ activeScore s (s.store person) g) ∧
    (∀ rest, assignLoop s (person :: rest) draws =
      assignLoop (assignLoop s [person] draws).1 rest (assignLoop s [person] draws).2) := by
  refine ⟨chooseGroup_none_iff s person draws, ?_, ?_, placed_iff_chosen_free s person draws,
    ?_, activeScore_nonneg s (s.store person), ?_⟩
  · intro hall
    exact assignLoop_single_none s person draws
      ((chooseGroup_none_iff s person draws).mpr hall)
  · rintro ⟨g0, hg0, hc0⟩
    rcases hch : (chooseGroup s person draws).1 with _ | ⟨gi, g⟩
    · have := (chooseGroup_none_iff s person draws).mp hch g0 hg0
      rw [this] at hc0
      exact absurd hc0 (by simp)
    · obtain ⟨hidx, hcan⟩ := chooseGroup_sound s person draws gi g hch
      refine ⟨gi, g, rfl, hidx, hcan, assignLoop_single_some s person draws gi g hch, ?_,
        assignLoop_single_full s person draws gi g hch, free_slot_of_eligible s g hcan⟩
      intro front back hm hf
      have hn : none ∈ g.members := by
        rw [hm]
        exact List.mem_append_right _ (List.mem_cons_self _ _)
      refine ⟨?_, g.addMember person, ?_, mem_fillFirstFree person g.members hn⟩
      · show fillFirstFree person g.members = _
        rw [hm, fillFirstFree_first_free person front back hf]
      · rw [assignLoop_single_some s person draws gi g hch]
        exact mem_set_self _ _ _ _ hidx
  · intro hun hlen
    rw [placed_iff_chosen_free s person draws hun]
    constructor
    · rintro ⟨gi, g, hch, _⟩
      obtain ⟨hidx, hcan⟩ := chooseGroup_sound s person draws gi g hch
      exact ⟨g, List.getElem?_mem hidx, hcan⟩
    · rintro ⟨g0, hg0, hc0⟩
      rcases hch : (chooseGroup s person draws).1 with _ | ⟨gi, g⟩
      · have := (chooseGroup_none_iff s person draws).mp hch g0 hg0
        rw [this] at hc0
        exact absurd hc0 (by simp)
      · obtain ⟨hidx, hcan⟩ := chooseGroup_sound s person draws gi g hch
        exact ⟨gi, g, rfl,
          free_slot_of_eligible s g hcan (hlen g (List.getElem?_mem hidx))⟩
  · intro rest
    exact assignLoop_append s [person] rest draws

/-- C19, amended, at `A`, `B`, `C` without preferences and two empty groups of two slots, at
the turn of `A` with no draws: `A` is in no group, every slot array has length `maxSize`, a
group is eligible, and after the turn `A` is in the first slot of `G2`, the group evaluated
first. -/
theorem placement_iff_eligible_witness :
    (∀ g ∈ (abcScheme false).groups, some 0 ∉ g.members) ∧
    (∀ g ∈ (abcScheme false).groups, (g.members.length : ℚ) = g.maxSize) ∧
    (∃ g ∈ (abcScheme false).groups, canAddToGroup (abcScheme false) g = true) ∧
    ((∃ g ∈ (assignLoop (abcScheme false) [0] []).1.groups, some 0 ∈ g.members) ↔
      ∃ g ∈ (abcScheme false).groups, canAddToGroup (abcScheme false) g = true) ∧
    (assignLoop (abcScheme false) [0] []).1.groups =
      [emptyGroup "G1",
       { title := "G2", maxSize := 2, x := 0, y := 0, members := [some 0, none] }] :=
  ⟨by decide, by decide, by decide,
   (placement_iff_eligible (abcScheme false) 0 []).2.2.2.2.1 (by decide) (by decide),
   by decide⟩

theorem swap_map_eq {α β : Type} (f : α → β) (array : List α) (i j : Nat)
    (h : (array.map f)[i]? = (array.map f)[j]?) :
    (swap array i j).map f = array.map f := by
  unfold swap
  split
  · rename_i a b ha hb
    rw [List.getElem?_map, List.getElem?_map, ha, hb] at h
    simp only [Option.map_some', Option.some.injEq] at h
    rw [List.map_set, List.map_set, ← h]
    have h1 : (array.map f)[i]? = some (f a) := by rw [List.getElem?_map, ha]; rfl
    rw [set_eq_self_of_getElem? _ _ _ h1]
    have h2 : (array.map f)[j]? = some (f a) := by rw [List.getElem?_map, hb, h]; rfl
    exact set_eq_self_of_getElem? _ _ _ h2
  · rfl

theorem shuffleFrom_map {α β : Type} (f : α → β) (start i : Nat) (array : List α)
    (draws : List Nat)
    (h : ∀ k, start ≤ k → k ≤ i → (array.map f)[k]? = (array.map f)[start]?) :
    (shuffleFrom start i array draws).1.map f = array.map f := by
  induction i generalizing array draws with
  | zero => simp [shuffleFrom]
  | succ i ih =>
    unfold shuffleFrom
    split
    · rename_i hgt
      have hj : start ≤ (nextDraw draws).1 % (i + 1 - start + 1) + start ∧
          (nextDraw draws).1 % (i + 1 - start + 1) + start ≤ i + 1 := by
        have := Nat.mod_lt (nextDraw draws).1 (show 0 < i + 1 - start + 1 by omega)
        omega
      have hswap : (swap array (i + 1)
          ((nextDraw draws).1 % (i + 1 - start + 1) + start)).map f = array.map f := by
        apply swap_map_eq
        rw [h (i + 1) (by omega) (le_refl _), h _ hj.1 hj.2]
      have := ih (swap array (i + 1) ((nextDraw draws).1 % (i + 1 - start + 1) + start))
        (nextDraw draws).2 (by
          intro k hk1 hk2
          rw [hswap]
          exact h k hk1 (by omega))
      rw [← hswap]
      exact this
    · rfl

theorem randomizeLoop_map (store : Store) (fuel i start : Nat) (people : List Ref)
    (draws : List Nat) (hi : 1 ≤ i)
    (h : ∀ k, start ≤ k → k < i →
      (people.map (fun r => (store r).connections.length))[k]? =
        (people.map (fun r => (store r).connections.length))[start]?) :
    (randomizeLoop store fuel i start people draws).1.map
        (fun r => (store r).connections.length) =
      people.map (fun r => (store r).connections.length) := by
  induction fuel generalizing i start people draws with
  | zero => simp [randomizeLoop]
  | succ fuel ih =>
    unfold randomizeLoop
    split
    · have hshuffle : (shuffleArray people start i draws).1.map
          (fun r => (store r).connections.length) =
          people.map (fun r => (store r).connections.length) := by
        unfold shuffleArray
        apply shuffleFrom_map
        intro k hk1 hk2
        exact h k hk1 (by omega)
      have := ih (i + 1) i (shuffleArray people start i draws).1
        (shuffleArray people start i draws).2 (by omega) (by
          intro k hk1 hk2
          have : k = i := by omega
          rw [this])
      rw [← hshuffle]
      exact this
    · rename_i hcond
      push_neg at hcond
      have hsame : (people.map (fun r => (store r).connections.length))[i]? =
          (people.map (fun r => (store r).connections.length))[start]? := by
        have := hcond.2
        unfold connectionCountAt at this
        rw [List.getElem?_map, List.getElem?_map]
        exact this
      apply ih (i + 1) start people draws (by omega)
      intro k hk1 hk2
      by_cases hki : k = i
      · rw [hki]
        exact hsame
      · exact h k hk1 (by omega)

theorem randomizeLoop_perm (store : Store) (fuel i start : Nat) (people : List Ref)
    (draws : List Nat) : (randomizeLoop store fuel i start people draws).1.Perm people := by
  induction fuel generalizing i start people draws with
  | zero => simp [randomizeLoop]
  | succ fuel ih =>
    unfold randomizeLoop
    split
    · exact (ih _ _ _ _).trans (shuffleArray_perm people start i draws)
    · exact ih _ _ _ _

/-- C18: the placement order (the descending sort followed by
`randomizeEqualConnections`) is a permutation of the list of unassigned people, its connection
counts are non-increasing, and position by position they are the counts of the sorted list:
the shuffle only permutes people inside a run of equal connection count. -/
theorem placementOrder_spec (s : Scheme) (unassignedPeople : List Ref) (draws : List Nat) :
    (placementOrder s unassignedPeople draws).1.Perm unassignedPeople ∧
    ((placementOrder s unassignedPeople draws).1.map
      (fun r => (s.store r).connections.length)).Sorted (fun a b => b ≤ a) ∧
    (placementOrder s unassignedPeople draws).1.map
        (fun r => (s.store r).connections.length) =
      (unassignedPeople.insertionSort (moreConnected s.store)).map
        (fun r => (s.store r).connections.length) := by
  have hmap : (placementOrder s unassignedPeople draws).1.map
        (fun r => (s.store r).connections.length) =
      (unassignedPeople.insertionSort (moreConnected s.store)).map
        (fun r => (s.store r).connections.length) := by
    unfold placementOrder randomizeEqualConnections
    apply randomizeLoop_map _ _ _ _ _ _ (le_refl 1)
    intro k hk1 hk2
    have : k = 0 := by omega
    rw [this]
  refine ⟨?_, ?_, hmap⟩
  · unfold placementOrder randomizeEqualConnections
    exact (randomizeLoop_perm _ _ _ _ _ _).trans (List.perm_insertionSort _ _)
  · rw [hmap]
    have hsorted := List.sorted_insertionSort (moreConnected s.store) unassignedPeople
    unfold List.Sorted at hsorted ⊢
    rw [List.pairwise_map]
    exact hsorted

/-! ## Group-preference input: proofs -/

theorem setPreferenceLine_eq (s : Scheme) (pref : String) :
    setPreferenceLine s pref =
      match lineTarget s pref with
      | some r =>
        { s with
          store :=
            Function.update s.store r ((s.store r).setGroupPreferences (tokens pref).tail) }
      | none => s := by
  unfold setPreferenceLine lineTarget
  rcases htok : tokens pref with _ | ⟨personId, groupPrefs⟩
  · rfl
  · simp only [List.tail_cons]
    by_cases hlen : s.people.length > 0
    · rw [if_pos hlen]
    · rw [if_neg hlen]
      have hnil : s.people = [] := List.eq_nil_of_length_eq_zero (by omega)
      rw [hnil]
      rfl

theorem setPreferenceLine_people (s : Scheme) (pref : String) :
    (setPreferenceLine s pref).people = s.people ∧
    (setPreferenceLine s pref).groups = s.groups := by
  rw [setPreferenceLine_eq]
  split <;> exact ⟨rfl, rfl⟩

theorem setPreferenceLine_id (s : Scheme) (pref : String) (r : Ref) :
    ((setPreferenceLine s pref).store r).id = (s.store r).id := by
  rw [setPreferenceLine_eq]
  split
  · rename_i q _
    by_cases hrq : r = q
    · subst hrq
      simp [Person.setGroupPreferences]
    · simp [Function.update_noteq hrq]
  · rfl

theorem setPreferenceLine_other (s : Scheme) (pref : String) (r : Ref)
    (h : lineTarget s pref ≠ some r) : (setPreferenceLine s pref).store r = s.store r := by
  rw [setPreferenceLine_eq]
  split
  · rename_i q hq
    have hrq : r ≠ q := fun hrq => h (by rw [hq, hrq])
    simp [Function.update_noteq hrq]
  · rfl

theorem setPreferenceLine_target (s : Scheme) (pref : String) (r : Ref)
    (h : lineTarget s pref = some r) :
    ((setPreferenceLine s pref).store r).groupPreferences = (tokens pref).tail := by
  rw [setPreferenceLine_eq, h]
  simp [Person.setGroupPreferences]

theorem lineTarget_congr (s t : Scheme) (pref : String) (hp : t.people = s.people)
    (hid : ∀ r, (t.store r).id = (s.store r).id) : lineTarget t pref = lineTarget s pref := by
  unfold lineTarget
  split
  · rfl
  · rw [hp]
    congr 1
    funext r
    rw [hid r]

theorem setGroupPreferences_frame (s : Scheme) (preferences : List String) :
    (setGroupPreferences s preferences).people = s.people ∧
    (setGroupPreferences s preferences).groups = s.groups ∧
    ∀ r, ((setGroupPreferences s preferences).store r).id = (s.store r).id := by
  unfold setGroupPreferences
  induction preferences generalizing s with
  | nil => exact ⟨rfl, rfl, fun _ => rfl⟩
  | cons l ls ih =>
    rw [List.foldl_cons]
    obtain ⟨h1, h2, h3⟩ := ih (setPreferenceLine s l)
    refine ⟨h1.trans (setPreferenceLine_people s l).1, h2.trans (setPreferenceLine_people s l).2,
      fun r => (h3 r).trans (setPreferenceLine_id s l r)⟩

theorem setGroupPreferences_other (s : Scheme) (preferences : List String) (r : Ref)
    (h : ∀ l ∈ preferences, lineTarget s l ≠ some r) :
    (setGroupPreferences s preferences).store r = s.store r := by
  unfold setGroupPreferences
  induction preferences generalizing s with
  | nil => rfl
  | cons l ls ih =>
    rw [List.foldl_cons]
    have hstep := ih (setPreferenceLine s l) (by
      intro l2 hl2
      rw [lineTarget_congr s (setPreferenceLine s l) l2 (setPreferenceLine_people s l).1
        (setPreferenceLine_id s l)]
      exact h l2 (List.mem_cons_of_mem _ hl2))
    rw [hstep]
    exact setPreferenceLine_other s l r (h l (List.mem_cons_self _ _))

theorem lineTarget_of_tokens (s : Scheme) (pref personId : String) (rest : List String)
    (h : tokens pref = personId :: rest) :
    lineTarget s pref = s.people.find? (fun r => decide ((s.store r).id = personId)) := by
  unfold lineTarget
  rw [h]

theorem lineTarget_id (s : Scheme) (pref : String) (r : Ref) (h : lineTarget s pref = some r) :
    (tokens pref).head? = some (s.store r).id := by
  unfold lineTarget at h
  split at h
  · exact absurd h (by simp)
  · rename_i personId rest htok
    have hid : (s.store r).id = personId := by simpa using List.find?_some h
    rw [htok, hid]
    rfl

theorem setGroupPreferences_append (s : Scheme) (front back : List String) :
    setGroupPreferences s (front ++ back) =
      setGroupPreferences (setGroupPreferences s front) back := by
  unfold setGroupPreferences
  rw [List.foldl_append]

theorem setGroupPreferences_last (s : Scheme) (front back : List String) (line : String)
    (r : Ref) (hr : lineTarget s line = some r)
    (hback : ∀ l ∈ back, lineTarget s l ≠ some r) :
    ((setGroupPreferences s (front ++ line :: back)).store r).groupPreferences =
      (tokens line).tail := by
  rw [setGroupPreferences_append]
  obtain ⟨hp, _, hid⟩ := setGroupPreferences_frame s front
  have hcons : setGroupPreferences (setGroupPreferences s front) (line :: back) =
      setGroupPreferences (setPreferenceLine (setGroupPreferences s front) line) back := rfl
  rw [hcons]
  have hp2 := (setPreferenceLine_people (setGroupPreferences s front) line).1
  have hid2 := setPreferenceLine_id (setGroupPreferences s front) line
  rw [setGroupPreferences_other _ back r (by
    intro l hl
    rw [lineTarget_congr s _ l (hp2.trans hp) (fun q => (hid2 q).trans (hid q))]
    exact hback l hl)]
  apply setPreferenceLine_target
  rw [lineTarget_congr s _ line hp hid]
  exact hr

theorem first_with_id (s : Scheme)
    (hnodup : (s.people.map (fun q => (s.store q).id)).Nodup) (r : Ref) (hr : r ∈ s.people) :
    s.people.find? (fun q => decide ((s.store q).id = (s.store r).id)) = some r := by
  rcases hfind : s.people.find? (fun q => decide ((s.store q).id = (s.store r).id)) with _ | q
  · rw [List.find?_eq_none] at hfind
    have := hfind r hr
    simp at this
  · have hq : q ∈ s.people := List.mem_of_find?_eq_some hfind
    have hid : (s.store q).id = (s.store r).id := by simpa using List.find?_some hfind
    rw [List.inj_on_of_nodup_map hnodup hq hr hid]

/-- C16 fails as stated: with two people whose id is `A`, the line `A, G1, G2` sets the
preferences of the first of them only; the second, whose id also equals the first token, keeps
the empty list. -/
theorem setGroupPreferences_first_match_only :
    tokens "A, G1, G2" = ["A", "G1", "G2"] ∧
    ¬ (∀ r ∈ twinScheme.people, (twinScheme.store r).id = "A" →
        ((setGroupPreferences twinScheme ["A, G1, G2"]).store r).groupPreferences =
          ["G1", "G2"]) := by
  decide

/-- C16, amended: after `setGroupPreferences`, the first person in `people` whose id is the
trimmed first token of some line has as `groupPreferences` the trimmed remaining tokens, in
order, of the last such line; a person who is not the first person with the first token of any
line as id (in particular one whose id is the first token of no line) is unchanged; a line
whose first token is no person's id changes nothing.  The call always returns, and people,
groups and ids stay as they were.  When the ids are pairwise distinct, every person is the
first one with their id. -/
theorem setGroupPreferences_spec (s : Scheme) (preferences : List String) :
    ((setGroupPreferences s preferences).people = s.people ∧
      (setGroupPreferences s preferences).groups = s.groups ∧
      ∀ r, ((setGroupPreferences s preferences).store r).id = (s.store r).id) ∧
    (∀ front line back personId groupPrefs r,
      preferences = front ++ line :: back → tokens line = personId :: groupPrefs →
      s.people.find? (fun q => decide ((s.store q).id = personId)) = some r →
      (∀ l ∈ back, (tokens l).head? ≠ some personId) →
      ((setGroupPreferences s preferences).store r).groupPreferences = groupPrefs) ∧
    (∀ r, (∀ l ∈ preferences, ∀ personId rest, tokens l = personId :: rest →
        s.people.find? (fun q => decide ((s.store q).id = personId)) ≠ some r) →
      (setGroupPreferences s preferences).store r = s.store r) ∧
    (∀ r, (∀ l ∈ preferences, (tokens l).head? ≠ some (s.store r).id) →
      (setGroupPreferences s preferences).store r = s.store r) ∧
    (∀ line personId rest, tokens line = personId :: rest →
      (∀ q ∈ s.people, (s.store q).id ≠ personId) → setGroupPreferences s [line] = s) ∧
    ((s.people.map (fun q => (s.store q).id)).Nodup → ∀ r ∈ s.people,
      s.people.find? (fun q => decide ((s.store q).id = (s.store r).id)) = some r) := by
  refine ⟨setGroupPreferences_frame s preferences, ?_, ?_, ?_, ?_, first_with_id s⟩
  · intro front line back personId groupPrefs r hsplit htok hfind hback
    rw [hsplit]
    have hr : lineTarget s line = some r := by
      rw [lineTarget_of_tokens s line personId groupPrefs htok]
      exact hfind
    have hid : (s.store r).id = personId := by simpa using List.find?_some hfind
    rw [setGroupPreferences_last s front back line r hr, htok]
    · rfl
    · intro l hl htarget
      have := lineTarget_id s l r htarget
      rw [hid] at this
      exact hback l hl this
  · intro r h
    apply setGroupPreferences_other
    intro l hl htarget
    rcases htok : tokens l with _ | ⟨personId, rest⟩
    · unfold lineTarget at htarget
      rw [htok] at htarget
      exact absurd htarget (by simp)
    · rw [lineTarget_of_tokens s l personId rest htok] at htarget
      exact h l hl personId rest htok htarget
  · intro r h
    apply setGroupPreferences_other
    intro l hl htarget
    exact h l hl (lineTarget_id s l r htarget)
  · intro line personId rest htok hnone
    have htarget : lineTarget s line = none := by
      rw [lineTarget_of_tokens s line personId rest htok, List.find?_eq_none]
      intro q hq
      simpa using hnone q hq
    show setPreferenceLine s line = s
    rw [setPreferenceLine_eq, htarget]

/-- C16, amended, at two people with id `A` and one with id `B`: of three lines, the second
is the last one for `A`, and the third names nobody. -/
theorem setGroupPreferences_spec_witness :
    tokens " A , G3,G1 " = "A" :: ["G3", "G1"] ∧
    twinScheme.people.find? (fun q => decide ((twinScheme.store q).id = "A")) = some 0 ∧
    ((setGroupPreferences twinScheme ["A, G1", " A , G3,G1 ", "Z, G9"]).store 0).groupPreferences
      = ["G3", "G1"] :=
  ⟨by decide, by decide,
   (setGroupPreferences_spec twinScheme ["A, G1", " A , G3,G1 ", "Z, G9"]).2.1
     ["A, G1"] " A , G3,G1 " ["Z, G9"] "A" ["G3", "G1"] 0 rfl (by decide) (by decide)
     (by decide)⟩

/-! ## Snapshot codec: proofs -/

theorem ensureDataQuality_ok_parts (s : Scheme) (h : (ensureDataQuality s).2 = .ok ()) :
    (∃ warnings, (pruneConnections (s.people.map (fun r => (s.store r).id)) s.store
      s.people).2 = .ok warnings) ∧
    duplicateScan [] (s.people.map (fun r => (s.store r).id)) = [] ∧
    duplicateScan [] (s.groups.map (fun g => g.title)) = [] ∧
    personFieldErrors s.store s.people = [] ∧ groupFieldErrors s.groups = [] ∧
    groupAssignmentErrors s.store s.people s.groups = [] ∧
    positionErrors s.store s.groups = [] := by
  obtain ⟨report, hv, herr⟩ := ensureDataQuality_report s h
  have hrep := validateDataQuality_report s report hv
  rw [herr] at hrep
  have hparts := hrep.symm
  simp only [List.append_eq_nil, List.map_eq_nil_iff] at hparts
  obtain ⟨⟨⟨⟨⟨h1, h2⟩, h3⟩, h4⟩, h5⟩, h6⟩ := hparts
  refine ⟨?_, h1, h2, h3, h4, h5, h6⟩
  rcases hp : pruneConnections (s.people.map (fun r => (s.store r).id)) s.store s.people with
    ⟨store1, e | warnings1⟩
  · rw [validateDataQuality_of_error s store1 e hp] at hv
    simp at hv
  · exact ⟨warnings1, rfl⟩

theorem ensureDataQuality_ok_of_parts (t : Scheme) (warnings : List DQWarning)
    (hprune : (pruneConnections (t.people.map (fun r => (t.store r).id)) t.store
      t.people).2 = .ok warnings)
    (h1 : duplicateScan [] (t.people.map (fun r => (t.store r).id)) = [])
    (h2 : duplicateScan [] (t.groups.map (fun g => g.title)) = [])
    (h3 : personFieldErrors t.store t.people = []) (h4 : groupFieldErrors t.groups = [])
    (h5 : groupAssignmentErrors t.store t.people t.groups = [])
    (h6 : positionErrors t.store t.groups = []) :
    ensureDataQuality t = (t, .ok ()) := by
  rcases hp : pruneConnections (t.people.map (fun r => (t.store r).id)) t.store t.people with
    ⟨store1, e | warnings1⟩
  · rw [hp] at hprune
    simp at hprune
  · have hs := pruneConnections_ok_store _ _ _ _ _ hp
    subst hs
    unfold ensureDataQuality
    rw [validateDataQuality_of_ok t _ warnings1 hp, h1, h2, h3, h4, h5, h6]
    rfl

theorem pruneConnections_ok_iff (personIds : List String) (store : Store) (people : List Ref) :
    (∃ warnings, (pruneConnections personIds store people).2 = .ok warnings) ↔
      ∀ r ∈ people,
        (scanConnections personIds (store r).id (store r).connections).1.length =
          (store r).connections.length := by
  induction people with
  | nil => simp [pruneConnections]
  | cons r rest ih =>
    by_cases hr : (scanConnections personIds (store r).id (store r).connections).1.length =
        (store r).connections.length
    · have hcons : pruneConnections personIds store (r :: rest) =
          match pruneConnections personIds store rest with
          | (store1, .ok warnings1) =>
            (store1, .ok ((scanConnections personIds (store r).id (store r).connections).2 ++
              warnings1))
          | (store1, .error e) => (store1, .error e) := by
        conv_lhs => rw [pruneConnections]
        simp only [hr, ne_eq, not_true_eq_false, if_false]
      have hstep : (∃ warnings, (pruneConnections personIds store (r :: rest)).2 =
          .ok warnings) ↔ ∃ warnings, (pruneConnections personIds store rest).2 =
          .ok warnings := by
        rw [hcons]
        rcases pruneConnections personIds store rest with ⟨store1, e | warnings1⟩
        · simp
        · simp
      rw [hstep, ih]
      simp [hr]
    · constructor
      · rintro ⟨warnings, hw⟩
        rw [pruneConnections] at hw
        simp only [ne_eq, hr, not_false_eq_true, if_true] at hw
        exact absurd hw (by simp)
      · intro hall
        exact absurd (hall r (List.mem_cons_self _ _)) hr

theorem personFieldErrors_nil_iff (store : Store) (people : List Ref) :
    personFieldErrors store people = [] ↔
      ∀ r ∈ people, ¬ ((store r).id = "" ∨ (store r).firstName = "" ∨
        (store r).lastName = "") := by
  induction people with
  | nil => simp [personFieldErrors]
  | cons r rest ih =>
    rw [personFieldErrors, List.append_eq_nil, ih]
    simp only [List.mem_cons, forall_eq_or_imp]
    constructor
    · rintro ⟨h1, h2⟩
      refine ⟨?_, h2⟩
      intro hc
      rw [if_pos hc] at h1
      exact List.cons_ne_nil _ _ h1
    · rintro ⟨h1, h2⟩
      exact ⟨if_neg h1, h2⟩

theorem groupFieldErrors_nil_iff (groups : List Group) :
    groupFieldErrors groups = [] ↔ ∀ g ∈ groups, validGroupFields g := by
  induction groups with
  | nil => simp [groupFieldErrors]
  | cons g rest ih =>
    rw [groupFieldErrors, List.append_eq_nil, ih, groupField_none_iff]
    simp only [List.mem_cons, forall_eq_or_imp]

theorem groupAssignmentErrors_nil_iff (store : Store) (people : List Ref)
    (groups : List Group) :
    groupAssignmentErrors store people groups = [] ↔
      ∀ g ∈ groups, ¬ ((occupied g : ℚ) > g.maxSize) ∧
        ∀ r, some r ∈ g.members → r ∈ people := by
  induction groups with
  | nil => simp [groupAssignmentErrors]
  | cons g rest ih =>
    rw [groupAssignmentErrors, List.append_eq_nil, List.append_eq_nil, ih]
    simp only [List.mem_cons, forall_eq_or_imp]
    constructor
    · rintro ⟨⟨h1, h2⟩, h3⟩
      refine ⟨⟨?_, ?_⟩, h3⟩
      · intro hc
        rw [if_pos hc] at h1
        exact List.cons_ne_nil _ _ h1
      · intro r hr
        by_contra hnot
        have hmem : DQError.invalidMember g.title (store r).id ∈
            g.members.filterMap (fun member =>
              match member with
              | some r =>
                if r ∉ people then some (DQError.invalidMember g.title (store r).id) else none
              | none => none) :=
          List.mem_filterMap.mpr ⟨some r, hr, by simp [hnot]⟩
        rw [h2] at hmem
        simp at hmem
    · rintro ⟨⟨h1, h2⟩, h3⟩
      refine ⟨⟨if_neg h1, ?_⟩, h3⟩
      apply List.eq_nil_iff_forall_not_mem.mpr
      intro e he
      obtain ⟨r, hr, hnot, _⟩ := invalidMember_of_mem store people g e he
      exact hnot (h2 r hr)

theorem positionErrors_nil_iff (store : Store) (groups : List Group) :
    positionErrors store groups = [] ↔
      ∀ g ∈ groups, (occupantPositions store g).Nodup := by
  induction groups with
  | nil => simp [positionErrors]
  | cons g rest ih =>
    rw [positionErrors, List.append_eq_nil, ih]
    simp only [List.mem_cons, forall_eq_or_imp]
    have hhead : positionScan store g.title [] g.members = [] ↔
        (occupantPositions store g).Nodup := by
      have hcount := positionScan_count store g
      have hlen := occupantPositions_length store g
      have hsub := (List.dedup_sublist (occupantPositions store g)).length_le
      constructor
      · intro hnil
        rw [hnil] at hcount
        simp only [List.length_nil] at hcount
        rw [← List.dedup_eq_self]
        exact (List.dedup_sublist _).eq_of_length (by omega)
      · intro hnodup
        rw [List.dedup_eq_self.mpr hnodup] at hcount
        exact List.eq_nil_of_length_eq_zero (by omega)
    rw [hhead]

theorem viaJSON_of_jsonSafe (v : JSNum) (h : v.jsonSafe = true) : v.viaJSON = v := by
  cases v <;> first | rfl | exact absurd h (by decide)

theorem decodePerson_encodePerson (person : Person) (h : person.jsonSafe = true) :
    decodePerson (encodePerson person) = person := by
  obtain ⟨id, firstName, lastName, connections, groupPreferences, happiness, x, y⟩ := person
  simp only [Person.jsonSafe, Bool.and_eq_true] at h
  obtain ⟨⟨h1, h2⟩, h3⟩ := h
  simp only [decodePerson, encodePerson, viaJSON_of_jsonSafe _ h1, viaJSON_of_jsonSafe _ h2,
    viaJSON_of_jsonSafe _ h3]

theorem freshScheme_store_lt (obj : Snapshot) (i : Nat) (hi : i < obj.people.length) :
    (freshScheme obj).store i = decodePerson (obj.people.get ⟨i, hi⟩) := by
  show ((obj.people[i]?).map decodePerson).getD default = _
  rw [List.getElem?_eq_getElem hi]
  rfl

theorem freshScheme_serialize_store (s : Scheme)
    (hsafe : ∀ r ∈ s.people, (s.store r).jsonSafe = true) (i : Nat)
    (hi : i < s.people.length) :
    (freshScheme (serialize s)).store i = s.store (s.people.get ⟨i, hi⟩) := by
  have hi2 : i < (serialize s).people.length := by simpa [serialize] using hi
  rw [freshScheme_store_lt (serialize s) i hi2]
  have hget : (serialize s).people.get ⟨i, hi2⟩ = encodePerson (s.store (s.people.get ⟨i, hi⟩)) := by
    simp [serialize]
  rw [hget]
  exact decodePerson_encodePerson _ (hsafe _ (List.get_mem _ _ _))

theorem freshScheme_serialize_people (s : Scheme)
    (hsafe : ∀ r ∈ s.people, (s.store r).jsonSafe = true) :
    (List.range s.people.length).map (freshScheme (serialize s)).store =
      s.people.map s.store := by
  apply List.ext_getElem
  · simp
  · intro i h1 h2
    have hi : i < s.people.length := by simpa using h2
    rw [List.getElem_map, List.getElem_map, List.getElem_range]
    exact freshScheme_serialize_store s hsafe i hi

theorem freshScheme_serialize_mem (s : Scheme)
    (hsafe : ∀ r ∈ s.people, (s.store r).jsonSafe = true) (i : Nat)
    (hi : i ∈ List.range s.people.length) :
    ∃ r ∈ s.people, (freshScheme (serialize s)).store i = s.store r := by
  have hlt : i < s.people.length := List.mem_range.mp hi
  exact ⟨s.people.get ⟨i, hlt⟩, List.get_mem _ _ _, freshScheme_serialize_store s hsafe i hlt⟩

/-- In the decoded scheme, the id of an original person resolves to a decoded person with
the same fields. -/
theorem decodeMember_serialize (s : Scheme) (t : Scheme)
    (hsafe : ∀ r ∈ s.people, (s.store r).jsonSafe = true)
    (hpeople : t.people = List.range s.people.length)
    (hstore : t.store = (freshScheme (serialize s)).store)
    (hnodup : (s.people.map (fun r => (s.store r).id)).Nodup) (r : Ref) (hr : r ∈ s.people) :
    ∃ i, decodeMember t (some (s.store r).id) = some i ∧ i ∈ t.people ∧
      t.store i = s.store r := by
  obtain ⟨k, hk, hkr⟩ := List.mem_iff_getElem.mp hr
  have hkmem : k ∈ getPersonById t (s.store r).id := by
    unfold getPersonById
    rw [hpeople, hstore]
    refine List.mem_filter.mpr ⟨List.mem_range.mpr hk, ?_⟩
    rw [freshScheme_serialize_store s hsafe k hk]
    simp [hkr]
  rcases hhead : (getPersonById t (s.store r).id).head? with _ | i
  · rw [List.head?_eq_none_iff] at hhead
    rw [hhead] at hkmem
    exact absurd hkmem (List.not_mem_nil _)
  · have himem : i ∈ getPersonById t (s.store r).id := List.mem_of_mem_head? hhead
    unfold getPersonById at himem
    rw [hpeople, hstore] at himem
    obtain ⟨hi1, hi2⟩ := List.mem_filter.mp himem
    have hilt : i < s.people.length := List.mem_range.mp hi1
    rw [freshScheme_serialize_store s hsafe i hilt] at hi2
    have hid : (s.store (s.people.get ⟨i, hilt⟩)).id = (s.store r).id := by simpa using hi2
    have hik : i = k := by
      have h1 : i < (s.people.map (fun r => (s.store r).id)).length := by simpa using hilt
      have h2 : k < (s.people.map (fun r => (s.store r).id)).length := by simpa using hk
      have heq : (s.people.map (fun r => (s.store r).id))[i] =
          (s.people.map (fun r => (s.store r).id))[k] := by
        rw [List.getElem_map, List.getElem_map, hkr]
        exact hid
      exact (hnodup.getElem_inj_iff).mp heq
    refine ⟨i, ?_, ?_, ?_⟩
    · show (getPersonById t (s.store r).id).head? = some i
      exact hhead
    · rw [hpeople]
      exact hi1
    · rw [hstore, freshScheme_serialize_store s hsafe i hilt]
      subst hik
      show s.store s.people[i] = s.store r
      rw [hkr]

theorem occupied_of_slots (store : Store) (g : Group) :
    occupied g = ((g.members.map (Option.map store)).reduceOption).length := by
  rw [List.reduceOption_map, List.length_map, occupied_eq_reduceOption]

theorem occupantPositions_of_slots (store : Store) (g : Group) :
    occupantPositions store g =
      ((g.members.map (Option.map store)).reduceOption).map (fun p => (p.x, p.y)) := by
  rw [List.reduceOption_map, List.map_map]
  rfl

theorem encodeGroup_of_slots (store : Store) (g : Group) :
    (encodeGroup store g).members =
      (g.members.map (Option.map store)).map (Option.map (fun p => p.id)) := by
  rw [List.map_map]
  show g.members.map _ = _
  apply List.map_congr_left
  intro m _
  cases m <;> rfl

theorem decodeGroup_serialize (s : Scheme) (t : Scheme)
    (hsafe : ∀ r ∈ s.people, (s.store r).jsonSafe = true)
    (hpeople : t.people = List.range s.people.length)
    (hstore : t.store = (freshScheme (serialize s)).store)
    (hnodup : (s.people.map (fun r => (s.store r).id)).Nodup) (g : Group)
    (hg : ∀ r, some r ∈ g.members → r ∈ s.people) :
    (decodeGroup t (encodeGroup s.store g)).members.map (Option.map t.store) =
      g.members.map (Option.map s.store) ∧
    ∀ i, some i ∈ (decodeGroup t (encodeGroup s.store g)).members → i ∈ t.people := by
  have hmembers : (decodeGroup t (encodeGroup s.store g)).members =
      g.members.map (fun m => decodeMember t (m.map (fun r => (s.store r).id))) := by
    show (g.members.map _).map _ = _
    rw [List.map_map]
    rfl
  rw [hmembers]
  constructor
  · rw [List.map_map]
    apply List.map_congr_left
    intro m hm
    cases m with
    | none => rfl
    | some r =>
      obtain ⟨i, hi, _, hst⟩ := decodeMember_serialize s t hsafe hpeople hstore hnodup r (hg r hm)
      show Option.map t.store (decodeMember t (some (s.store r).id)) = some (s.store r)
      rw [hi]
      show some (t.store i) = _
      rw [hst]
  · intro i hi
    obtain ⟨m, hm, hmi⟩ := List.mem_map.mp hi
    cases m with
    | none => exact absurd hmi (by simp [decodeMember])
    | some r =>
      obtain ⟨j, hj, hjmem, _⟩ := decodeMember_serialize s t hsafe hpeople hstore hnodup r (hg r hm)
      have hmi2 : decodeMember t (some (s.store r).id) = some i := hmi
      rw [hj] at hmi2
      have : j = i := by simpa using hmi2
      exact this ▸ hjmem

theorem groupView_of_slots (store : Store) (g : Group) :
    (groupView store g).memberIds =
      (g.members.map (Option.map store)).map (Option.map (fun p => p.id)) := by
  rw [List.map_map]
  show g.members.map _ = _
  apply List.map_congr_left
  intro m _
  cases m <;> rfl

theorem encodeGroup_eq_groupView (store : Store) (g : Group) :
    encodeGroup store g =
      { title := (groupView store g).title, maxSize := (groupView store g).maxSize,
        x := (groupView store g).x.viaJSON, y := (groupView store g).y.viaJSON,
        members := (groupView store g).memberIds } := by
  have hm : (encodeGroup store g).members = (groupView store g).memberIds := by
    rw [encodeGroup_of_slots, groupView_of_slots]
  have hfields : encodeGroup store g =
      { title := g.title, maxSize := g.maxSize, x := g.x.viaJSON, y := g.y.viaJSON,
        members := (encodeGroup store g).members } := rfl
  rw [hfields, hm]
  rfl

theorem encodeGroup_congr (store1 store2 : Store) (g1 g2 : Group)
    (h : groupView store1 g1 = groupView store2 g2) :
    encodeGroup store1 g1 = encodeGroup store2 g2 := by
  rw [encodeGroup_eq_groupView store1 g1, encodeGroup_eq_groupView store2 g2, h]

theorem decodeGroup_serialize_view (s : Scheme) (t : Scheme)
    (hsafe : ∀ r ∈ s.people, (s.store r).jsonSafe = true)
    (hpeople : t.people = List.range s.people.length)
    (hstore : t.store = (freshScheme (serialize s)).store)
    (hnodup : (s.people.map (fun r => (s.store r).id)).Nodup) (g : Group)
    (hg : ∀ r, some r ∈ g.members → r ∈ s.people) :
    occupied (decodeGroup t (encodeGroup s.store g)) = occupied g ∧
    occupantPositions t.store (decodeGroup t (encodeGroup s.store g)) =
      occupantPositions s.store g := by
  obtain ⟨hslots, _⟩ := decodeGroup_serialize s t hsafe hpeople hstore hnodup g hg
  refine ⟨?_, ?_⟩
  · rw [occupied_of_slots t.store, occupied_of_slots s.store g, hslots]
  · rw [occupantPositions_of_slots t.store, occupantPositions_of_slots s.store g, hslots]

theorem groupView_decodeGroup (s : Scheme) (t : Scheme)
    (hsafe : ∀ r ∈ s.people, (s.store r).jsonSafe = true)
    (hpeople : t.people = List.range s.people.length)
    (hstore : t.store = (freshScheme (serialize s)).store)
    (hnodup : (s.people.map (fun r => (s.store r).id)).Nodup) (g : Group)
    (hg : ∀ r, some r ∈ g.members → r ∈ s.people) (hgsafe : g.jsonSafe = true) :
    groupView t.store (decodeGroup t (encodeGroup s.store g)) = groupView s.store g := by
  obtain ⟨hslots, _⟩ := decodeGroup_serialize s t hsafe hpeople hstore hnodup g hg
  have hm := groupView_of_slots t.store (decodeGroup t (encodeGroup s.store g))
  rw [hslots, ← groupView_of_slots s.store g] at hm
  simp only [Group.jsonSafe, Bool.and_eq_true] at hgsafe
  have hx : (decodeGroup t (encodeGroup s.store g)).x = g.x := viaJSON_of_jsonSafe _ hgsafe.1
  have hy : (decodeGroup t (encodeGroup s.store g)).y = g.y := viaJSON_of_jsonSafe _ hgsafe.2
  have hfields : groupView t.store (decodeGroup t (encodeGroup s.store g)) =
      { title := g.title, maxSize := g.maxSize,
        x := (decodeGroup t (encodeGroup s.store g)).x,
        y := (decodeGroup t (encodeGroup s.store g)).y,
        memberIds := (groupView t.store (decodeGroup t (encodeGroup s.store g))).memberIds } :=
    rfl
  rw [hfields, hm, hx, hy]
  rfl

theorem decoded_people_parts (s t : Scheme) (h : (ensureDataQuality s).2 = .ok ())
    (hsafe : ∀ r ∈ s.people, (s.store r).jsonSafe = true)
    (hpeople : t.people = List.range s.people.length)
    (hstore : t.store = (freshScheme (serialize s)).store) :
    t.people.map (fun r => (t.store r).id) = s.people.map (fun r => (s.store r).id) ∧
    (∃ warnings, (pruneConnections (t.people.map (fun r => (t.store r).id)) t.store
      t.people).2 = .ok warnings) ∧
    duplicateScan [] (t.people.map (fun r => (t.store r).id)) = [] ∧
    personFieldErrors t.store t.people = [] := by
  obtain ⟨hprune, h1, _, h3, _, _, _⟩ := ensureDataQuality_ok_parts s h
  have hids : t.people.map (fun r => (t.store r).id) =
      s.people.map (fun r => (s.store r).id) := by
    have := congrArg (List.map (fun p : Person => p.id)) (freshScheme_serialize_people s hsafe)
    rw [List.map_map, List.map_map] at this
    rw [hpeople, hstore]
    exact this
  have hmem : ∀ i ∈ t.people, ∃ r ∈ s.people, t.store i = s.store r := by
    intro i hi
    rw [hpeople] at hi
    rw [hstore]
    exact freshScheme_serialize_mem s hsafe i hi
  refine ⟨hids, ?_, ?_, ?_⟩
  · rw [hids, pruneConnections_ok_iff]
    intro i hi
    obtain ⟨r, hr, hir⟩ := hmem i hi
    rw [hir]
    exact (pruneConnections_ok_iff _ _ _).mp hprune r hr
  · rw [hids]
    exact h1
  · rw [personFieldErrors_nil_iff]
    intro i hi
    obtain ⟨r, hr, hir⟩ := hmem i hi
    rw [hir]
    exact (personFieldErrors_nil_iff _ _).mp h3 r hr

theorem deserialize_serialize_people (s : Scheme) (h : (ensureDataQuality s).2 = .ok ())
    (hsafe : ∀ r ∈ s.people, (s.store r).jsonSafe = true) :
    setPeople (freshScheme (serialize s)) (List.range s.people.length) =
      ({ freshScheme (serialize s) with people := List.range s.people.length }, .ok ()) := by
  obtain ⟨_, ⟨warnings, hprune⟩, h1, h3⟩ := decoded_people_parts s
    { freshScheme (serialize s) with people := List.range s.people.length } h hsafe rfl rfl
  exact ensureDataQuality_ok_of_parts _ warnings hprune h1 rfl h3 rfl rfl rfl

theorem deserialize_serialize_groups (s : Scheme) (h : (ensureDataQuality s).2 = .ok ())
    (hsafe : ∀ r ∈ s.people, (s.store r).jsonSafe = true) :
    setGroups { freshScheme (serialize s) with people := List.range s.people.length }
        (s.groups.map (fun g =>
          decodeGroup { freshScheme (serialize s) with people := List.range s.people.length }
            (encodeGroup s.store g))) =
      ({ freshScheme (serialize s) with
          people := List.range s.people.length,
          groups := s.groups.map (fun g =>
            decodeGroup { freshScheme (serialize s) with people := List.range s.people.length }
              (encodeGroup s.store g)) }, .ok ()) := by
  obtain ⟨_, h1s, h2s, _, h4s, h5s, h6s⟩ := ensureDataQuality_ok_parts s h
  have hnodup := (duplicateScan_nil_iff _).mp h1s
  have h5 := (groupAssignmentErrors_nil_iff _ _ _).mp h5s
  obtain ⟨_, ⟨warnings, hprune⟩, h1, h3⟩ := decoded_people_parts s
    { freshScheme (serialize s) with
      people := List.range s.people.length,
      groups := s.groups.map (fun g =>
        decodeGroup { freshScheme (serialize s) with people := List.range s.people.length }
          (encodeGroup s.store g)) } h hsafe rfl rfl
  refine ensureDataQuality_ok_of_parts _ warnings hprune h1 ?_ h3 ?_ ?_ ?_
  · have htitles : (s.groups.map (fun g =>
        decodeGroup { freshScheme (serialize s) with people := List.range s.people.length }
          (encodeGroup s.store g))).map (fun g => g.title) = s.groups.map (fun g => g.title) := by
      rw [List.map_map]
      rfl
    show duplicateScan [] ((s.groups.map _).map (fun g : Group => g.title)) = []
    rw [htitles]
    exact h2s
  · rw [groupFieldErrors_nil_iff]
    intro gd hgd
    obtain ⟨g, hg, hgd2⟩ := List.mem_map.mp hgd
    have hvalid := (groupFieldErrors_nil_iff _).mp h4s g hg
    rw [← hgd2]
    exact hvalid
  · rw [groupAssignmentErrors_nil_iff]
    intro gd hgd
    obtain ⟨g, hg, hgd2⟩ := List.mem_map.mp hgd
    obtain ⟨hfull, hmem⟩ := h5 g hg
    have hview := decodeGroup_serialize_view s
      { freshScheme (serialize s) with people := List.range s.people.length } hsafe rfl rfl
      hnodup g hmem
    have hslots := decodeGroup_serialize s
      { freshScheme (serialize s) with people := List.range s.people.length } hsafe rfl rfl
      hnodup g hmem
    rw [← hgd2]
    refine ⟨?_, hslots.2⟩
    rw [hview.1]
    exact hfull
  · rw [positionErrors_nil_iff]
    intro gd hgd
    obtain ⟨g, hg, hgd2⟩ := List.mem_map.mp hgd
    obtain ⟨_, hmem⟩ := h5 g hg
    have hview := decodeGroup_serialize_view s
      { freshScheme (serialize s) with people := List.range s.people.length } hsafe rfl rfl
      hnodup g hmem
    rw [← hgd2]
    show (occupantPositions (freshScheme (serialize s)).store _).Nodup
    have := hview.2
    rw [show occupantPositions (freshScheme (serialize s)).store
        (decodeGroup { freshScheme (serialize s) with people := List.range s.people.length }
          (encodeGroup s.store g)) = occupantPositions s.store g from this]
    exact (positionErrors_nil_iff _ _).mp h6s g hg

theorem deserialize_serialize (s : Scheme) (h : (ensureDataQuality s).2 = .ok ())
    (hsafe : ∀ r ∈ s.people, (s.store r).jsonSafe = true) :
    deserialize (serialize s) =
      .ok { freshScheme (serialize s) with
            people := List.range s.people.length,
            groups := s.groups.map (fun g =>
              decodeGroup { freshScheme (serialize s) with people := List.range s.people.length }
                (encodeGroup s.store g)) } := by
  have hlen : (serialize s).people.length = s.people.length := by simp [serialize]
  have hgroups : (serialize s).groups.map
      (decodeGroup { freshScheme (serialize s) with people := List.range s.people.length }) =
      s.groups.map (fun g =>
        decodeGroup { freshScheme (serialize s) with people := List.range s.people.length }
          (encodeGroup s.store g)) := by
    show (s.groups.map _).map _ = _
    rw [List.map_map]
    rfl
  unfold deserialize
  rw [hlen, deserialize_serialize_people s h hsafe]
  simp only
  rw [hgroups, deserialize_serialize_groups s h hsafe]

/-- C14, as the claim states it, fails: the scheme with the single person `A` at `x = NaN`
passes `ensureDataQuality`, and `deserialize` of its `serialize` returns a scheme whose person
has `x = null`, so the people do not come back with identical fields. -/
theorem snapshot_round_trip_loses_nan :
    (ensureDataQuality nanScheme).2 = .ok () ∧
    (nanScheme.store 0).x = JSNum.nan ∧
    (∃ d, deserialize (serialize nanScheme) = .ok d ∧ d.people = [0] ∧
      (d.store 0).x = JSNum.null) ∧
    ¬ ∃ d, deserialize (serialize nanScheme) = .ok d ∧
      d.title = nanScheme.title ∧
      d.people.map d.store = nanScheme.people.map nanScheme.store ∧
      d.groups.map (groupView d.store) = nanScheme.groups.map (groupView nanScheme.store) ∧
      d.useGroupPreferences = nanScheme.useGroupPreferences := by
  have hd : deserialize (serialize nanScheme) =
      .ok { freshScheme (serialize nanScheme) with people := [0], groups := [] } := rfl
  refine ⟨by decide, rfl, ⟨_, hd, rfl, rfl⟩, ?_⟩
  rintro ⟨d, hok, _, hpeople, _⟩
  rw [hd] at hok
  have hdeq := Except.ok.inj hok
  subst hdeq
  exact absurd hpeople (by decide)

/-- Two occupants at `(NaN, 0)` and `(Infinity, 0)` pass `ensureDataQuality`, both come back at
`(null, 0)`, and `deserialize` of the snapshot throws the data-quality error. -/
theorem deserialize_serialize_collision :
    (ensureDataQuality farScheme).2 = .ok () ∧
    deserialize (serialize farScheme) = .error Exn.dataQualityCheckFailed :=
  ⟨by decide, rfl⟩

/-- C14, amended: snapshot round trip.  For a scheme that passes `ensureDataQuality` in which
the `happiness`, `x` and `y` of every person and the `x` and `y` of every group are none of
`NaN`, `Infinity`, `-Infinity`, `deserialize` of its `serialize` returns a scheme with the same
title, the same people in the same order with identical fields, the same groups in the same
order with identical title, `maxSize`, `x`, `y` and the same member id (or `none`) in every
slot, every slot holding the decoded person with the fields of the original occupant, and the
same `useGroupPreferences`; its snapshot is the snapshot it was decoded from. -/
theorem snapshot_round_trip (s : Scheme) (h : (ensureDataQuality s).2 = .ok ())
    (hsafe : ∀ r ∈ s.people, (s.store r).jsonSafe = true)
    (hgsafe : ∀ g ∈ s.groups, g.jsonSafe = true) :
    ∃ d, deserialize (serialize s) = .ok d ∧
      d.title = s.title ∧
      d.people.map d.store = s.people.map s.store ∧
      d.groups.map (groupView d.store) = s.groups.map (groupView s.store) ∧
      d.groups.map (fun g => g.members.map (Option.map d.store)) =
        s.groups.map (fun g => g.members.map (Option.map s.store)) ∧
      d.useGroupPreferences = s.useGroupPreferences ∧
      serialize d = serialize s := by
  obtain ⟨_, h1s, _, _, _, h5s, _⟩ := ensureDataQuality_ok_parts s h
  have hnodup := (duplicateScan_nil_iff _).mp h1s
  have h5 := (groupAssignmentErrors_nil_iff _ _ _).mp h5s
  have hpeople := freshScheme_serialize_people s hsafe
  have hgroups : (s.groups.map (fun g =>
      decodeGroup { freshScheme (serialize s) with people := List.range s.people.length }
        (encodeGroup s.store g))).map (groupView (freshScheme (serialize s)).store) =
      s.groups.map (groupView s.store) := by
    rw [List.map_map]
    apply List.map_congr_left
    intro g hg
    exact groupView_decodeGroup s
      { freshScheme (serialize s) with people := List.range s.people.length } hsafe rfl rfl
      hnodup g (h5 g hg).2 (hgsafe g hg)
  have hslots : (s.groups.map (fun g =>
      decodeGroup { freshScheme (serialize s) with people := List.range s.people.length }
        (encodeGroup s.store g))).map
        (fun g => g.members.map (Option.map (freshScheme (serialize s)).store)) =
      s.groups.map (fun g => g.members.map (Option.map s.store)) := by
    rw [List.map_map]
    apply List.map_congr_left
    intro g hg
    exact (decodeGroup_serialize s
      { freshScheme (serialize s) with people := List.range s.people.length } hsafe rfl rfl
      hnodup g (h5 g hg).2).1
  have hflag : ((serialize s).useGroupPreferences || false) = s.useGroupPreferences := by
    simp [serialize]
  refine ⟨_, deserialize_serialize s h hsafe, rfl, hpeople, hgroups, hslots, hflag, ?_⟩
  have hp2 : (List.range s.people.length).map
      (fun r => encodePerson ((freshScheme (serialize s)).store r)) =
      s.people.map (fun r => encodePerson (s.store r)) := by
    have := congrArg (List.map encodePerson) hpeople
    rw [List.map_map, List.map_map] at this
    exact this
  have hg2 : (s.groups.map (fun g =>
      decodeGroup { freshScheme (serialize s) with people := List.range s.people.length }
        (encodeGroup s.store g))).map (encodeGroup (freshScheme (serialize s)).store) =
      s.groups.map (encodeGroup s.store) := by
    rw [List.map_map]
    apply List.map_congr_left
    intro g hg
    have hv : groupView (freshScheme (serialize s)).store
        (decodeGroup { freshScheme (serialize s) with people := List.range s.people.length }
          (encodeGroup s.store g)) = groupView s.store g :=
      groupView_decodeGroup s
        { freshScheme (serialize s) with people := List.range s.people.length } hsafe rfl rfl
        hnodup g (h5 g hg).2 (hgsafe g hg)
    show encodeGroup (freshScheme (serialize s)).store
      (decodeGroup { freshScheme (serialize s) with people := List.range s.people.length }
        (encodeGroup s.store g)) = encodeGroup s.store g
    exact encodeGroup_congr _ _ _ _ hv
  show ({ version := "2.5.1", title := s.title,
          people := (List.range s.people.length).map
            (fun r => encodePerson ((freshScheme (serialize s)).store r)),
          groups := (s.groups.map (fun g =>
            decodeGroup { freshScheme (serialize s) with people := List.range s.people.length }
              (encodeGroup s.store g))).map (encodeGroup (freshScheme (serialize s)).store),
          useGroupPreferences := ((serialize s).useGroupPreferences || false) } : Snapshot) =
    serialize s
  rw [hp2, hg2, hflag]
  rfl

/-- C14, amended, at Ada Lovelace and Alan Turing in the first and third slot of `G1`. -/
theorem snapshot_round_trip_witness :
    (ensureDataQuality namedScheme).2 = .ok () ∧
    (∀ r ∈ namedScheme.people, (namedScheme.store r).jsonSafe = true) ∧
    (∀ g ∈ namedScheme.groups, g.jsonSafe = true) ∧
    ∃ d, deserialize (serialize namedScheme) = .ok d ∧
      d.title = namedScheme.title ∧
      d.people.map d.store = namedScheme.people.map namedScheme.store ∧
      d.groups.map (groupView d.store) = namedScheme.groups.map (groupView namedScheme.store) ∧
      d.groups.map (fun g => g.members.map (Option.map d.store)) =
        namedScheme.groups.map (fun g => g.members.map (Option.map namedScheme.store)) ∧
      d.useGroupPreferences = namedScheme.useGroupPreferences ∧
      serialize d = serialize namedScheme :=
  ⟨by decide, by decide, by decide,
   snapshot_round_trip namedScheme (by decide) (by decide) (by decide)⟩

theorem head?_filter_eq_find? {α : Type} (p : α → Bool) (l : List α) :
    (l.filter p).head? = l.find? p := by
  induction l with
  | nil => rfl
  | cons a l ih =>
    by_cases ha : p a = true
    · simp [List.filter_cons, List.find?_cons, ha]
    · simp [List.filter_cons, List.find?_cons, ha, ih]

theorem decodeMember_eq (t : Scheme) (memberId : Option String) :
    decodeMember t memberId =
      match memberId with
      | some id => t.people.find? (fun q => decide ((t.store q).id = id))
      | none => none := by
  cases memberId with
  | none => rfl
  | some id => exact head?_filter_eq_find? _ _

theorem decodeGroup_congr (t u : Scheme) (hp : u.people = t.people) (hs : u.store = t.store) :
    decodeGroup u = decodeGroup t := by
  funext groupData
  unfold decodeGroup
  congr 1
  apply List.map_congr_left
  intro m _
  rw [decodeMember_eq, decodeMember_eq, hp, hs]

theorem deserialize_ok (obj : Snapshot) (d : Scheme) (h : deserialize obj = .ok d) :
    d = { freshScheme obj with
          people := List.range obj.people.length,
          groups := obj.groups.map
            (decodeGroup { freshScheme obj with people := List.range obj.people.length }) } ∧
    setPeople (freshScheme obj) (List.range obj.people.length) =
      ({ freshScheme obj with people := List.range obj.people.length }, .ok ()) := by
  unfold deserialize at h
  rcases hp : setPeople (freshScheme obj) (List.range obj.people.length) with ⟨scheme1, e | u⟩
  · rw [hp] at h
    simp at h
  · rw [hp] at h
    simp only at h
    have hok1 : (ensureDataQuality
        { freshScheme obj with people := List.range obj.people.length }).2 = .ok () := by
      have : (setPeople (freshScheme obj) (List.range obj.people.length)).2 = .ok u := by
        rw [hp]
      exact this
    have hs1 : scheme1 = { freshScheme obj with people := List.range obj.people.length } := by
      have h1 := ensureDataQuality_ok_scheme _ hok1
      have h2 : (setPeople (freshScheme obj) (List.range obj.people.length)).1 = scheme1 := by
        rw [hp]
      rw [← h2]
      exact h1
    subst hs1
    rcases hg : setGroups { freshScheme obj with people := List.range obj.people.length }
        (obj.groups.map
          (decodeGroup { freshScheme obj with people := List.range obj.people.length })) with
      ⟨scheme2, e | u2⟩
    · rw [hg] at h
      simp at h
    · rw [hg] at h
      simp only [Except.ok.injEq] at h
      have hok2 : (ensureDataQuality
          { freshScheme obj with
            people := List.range obj.people.length,
            groups := obj.groups.map
              (decodeGroup { freshScheme obj with people := List.range obj.people.length }) }).2
          = .ok () := by
        have : (setGroups { freshScheme obj with people := List.range obj.people.length }
          (obj.groups.map
            (decodeGroup { freshScheme obj with people := List.range obj.people.length }))).2
            = .ok u2 := by rw [hg]
        exact this
      have h1 := ensureDataQuality_ok_scheme _ hok2
      have h2 : (setGroups { freshScheme obj with people := List.range obj.people.length }
          (obj.groups.map
            (decodeGroup { freshScheme obj with people := List.range obj.people.length }))).1
          = scheme2 := by rw [hg]
      refine ⟨?_, rfl⟩
      rw [← h, ← h2]
      exact h1

theorem decodeMember_unresolved (obj : Snapshot) (id : String)
    (hid : id ∉ obj.people.map (fun personData => personData.id)) :
    decodeMember { freshScheme obj with people := List.range obj.people.length } (some id) =
      none := by
  rw [decodeMember_eq]
  show (List.range obj.people.length).find? _ = none
  rw [List.find?_eq_none]
  intro i hi
  have hlt : i < obj.people.length := List.mem_range.mp hi
  have hstore : (freshScheme obj).store i = decodePerson (obj.people.get ⟨i, hlt⟩) :=
    freshScheme_store_lt obj i hlt
  simp only [decide_eq_true_eq]
  show ¬ ((freshScheme obj).store i).id = id
  rw [hstore]
  intro heq
  apply hid
  rw [← heq]
  exact List.mem_map.mpr ⟨obj.people.get ⟨i, hlt⟩, List.get_mem _ _ _, rfl⟩

theorem decodeGroup_nullUnresolved (obj : Snapshot) :
    (nullUnresolved obj).groups.map
        (decodeGroup { freshScheme obj with people := List.range obj.people.length }) =
      obj.groups.map
        (decodeGroup { freshScheme obj with people := List.range obj.people.length }) := by
  show (obj.groups.map _).map _ = _
  rw [List.map_map]
  apply List.map_congr_left
  intro groupData _
  show ({ title := groupData.title, maxSize := groupData.maxSize, x := groupData.x,
          y := groupData.y, members := (groupData.members.map _).map _ } : Group) =
    { title := groupData.title, maxSize := groupData.maxSize, x := groupData.x,
      y := groupData.y, members := groupData.members.map _ }
  congr 1
  rw [List.map_map]
  apply List.map_congr_left
  intro m _
  cases m with
  | none => rfl
  | some id =>
    by_cases hid : id ∈ obj.people.map (fun personData => personData.id)
    · simp only [Function.comp, hid, if_true]
    · simp only [Function.comp, hid, if_false]
      rw [decodeMember_unresolved obj id hid]
      rfl

theorem deserialize_nullUnresolved (obj : Snapshot) :
    deserialize (nullUnresolved obj) = deserialize obj := by
  unfold deserialize
  show (match setPeople (freshScheme obj) (List.range obj.people.length) with
    | (_, .error e) => Except.error e
    | (scheme1, .ok ()) =>
      match setGroups scheme1 ((nullUnresolved obj).groups.map (decodeGroup scheme1)) with
      | (_, .error e) => Except.error e
      | (scheme2, .ok ()) => Except.ok scheme2) = _
  rcases hp : setPeople (freshScheme obj) (List.range obj.people.length) with ⟨scheme1, e | u⟩
  · rfl
  · have hok1 : (ensureDataQuality
        { freshScheme obj with people := List.range obj.people.length }).2 = .ok () := by
      have : (setPeople (freshScheme obj) (List.range obj.people.length)).2 = .ok u := by
        rw [hp]
      exact this
    have hs1 : scheme1 = { freshScheme obj with people := List.range obj.people.length } := by
      have h1 := ensureDataQuality_ok_scheme _ hok1
      have h2 : (setPeople (freshScheme obj) (List.range obj.people.length)).1 = scheme1 := by
        rw [hp]
      rw [← h2]
      exact h1
    subst hs1
    simp only
    rw [decodeGroup_nullUnresolved obj]

theorem decodeGroup_slot (t : Scheme) (groupData : GroupData) (i : Nat)
    (entry : Option String) (h : groupData.members[i]? = some entry) :
    (decodeGroup t groupData).members[i]? = some (decodeMember t entry) := by
  show (groupData.members.map (decodeMember t))[i]? = _
  rw [List.getElem?_map, h, Option.map_some']

/-- C15: lenient member decoding.  A decoded group's `members` array has the length of the
snapshot's array; slot `i` is empty when entry `i` is `null` or the id of no person of the
scheme being decoded, and otherwise holds the first person with that id.  When `deserialize`
returns, its people are the decoded person entries, in order, and its groups are the groups
decoded against them.  Replacing the member ids that no person entry has by `null` does not
change the outcome of `deserialize`: an unresolved id alone causes no error. -/
theorem lenient_member_decoding (obj : Snapshot) :
    (∀ (t : Scheme) (groupData : GroupData),
      (decodeGroup t groupData).members.length = groupData.members.length ∧
      ∀ (i : Nat) (entry : Option String), groupData.members[i]? = some entry →
        (entry = none → (decodeGroup t groupData).members[i]? = some none) ∧
        (∀ id, entry = some id → (∀ q ∈ t.people, (t.store q).id ≠ id) →
          (decodeGroup t groupData).members[i]? = some none) ∧
        (∀ id, entry = some id → (∃ q ∈ t.people, (t.store q).id = id) →
          ∃ r ∈ t.people, (t.store r).id = id ∧
            t.people.find? (fun q => decide ((t.store q).id = id)) = some r ∧
            (decodeGroup t groupData).members[i]? = some (some r))) ∧
    (∀ d, deserialize obj = .ok d →
      d.people = List.range obj.people.length ∧
      (∀ i (hi : i < obj.people.length), d.store i = decodePerson (obj.people.get ⟨i, hi⟩)) ∧
      d.groups = obj.groups.map (decodeGroup d)) ∧
    deserialize (nullUnresolved obj) = deserialize obj := by
  refine ⟨?_, ?_, deserialize_nullUnresolved obj⟩
  · intro t groupData
    refine ⟨by simp [decodeGroup], ?_⟩
    intro i entry hentry
    have hslot := decodeGroup_slot t groupData i entry hentry
    refine ⟨?_, ?_, ?_⟩
    · intro hnone
      rw [hslot, hnone]
      rfl
    · intro id hid hall
      rw [hslot, hid, decodeMember_eq]
      have : t.people.find? (fun q => decide ((t.store q).id = id)) = none := by
        rw [List.find?_eq_none]
        intro q hq
        simpa using hall q hq
      simp only [this]
    · rintro id hid ⟨q, hq, hqid⟩
      rcases hfind : t.people.find? (fun q => decide ((t.store q).id = id)) with _ | r
      · rw [List.find?_eq_none] at hfind
        exact absurd hqid (by simpa using hfind q hq)
      · refine ⟨r, List.mem_of_find?_eq_some hfind, by simpa using List.find?_some hfind, rfl,
          ?_⟩
        rw [hslot, hid, decodeMember_eq]
        simp only [hfind]
  · intro d hd
    obtain ⟨hd1, _⟩ := deserialize_ok obj d hd
    refine ⟨by rw [hd1], ?_, ?_⟩
    · intro i hi
      rw [hd1]
      exact freshScheme_store_lt obj i hi
    · have hcongr : decodeGroup d =
          decodeGroup { freshScheme obj with people := List.range obj.people.length } := by
        apply decodeGroup_congr
        · rw [hd1]
        · rw [hd1]
      rw [hcongr]
      conv_lhs => rw [hd1]

/-- C15 at a snapshot whose group lists `A`, an id that no person has, and `null`: the
scheme is returned, with `A` in the first slot and the other two slots empty. -/
theorem lenient_member_decoding_witness :
    deserialize ghostSnapshot =
      .ok { freshScheme ghostSnapshot with
            people := [0],
            groups := [{ title := "G1", maxSize := 3, x := 0, y := 0,
                         members := [some 0, none, none] }] } ∧
    [({ title := "G1", maxSize := 3, x := 0, y := 0,
        members := [some 0, none, none] } : Group)] =
      ghostSnapshot.groups.map
        (decodeGroup { freshScheme ghostSnapshot with
          people := [0],
          groups := [{ title := "G1", maxSize := 3, x := 0, y := 0,
                       members := [some 0, none, none] }] }) ∧
    deserialize (nullUnresolved ghostSnapshot) = deserialize ghostSnapshot ∧
    (decodeGroup { freshScheme ghostSnapshot with people := [0] }
      { title := "G1", maxSize := 3, x := 0, y := 0,
        members := [some "A", some "ghost", none] }).members[1]? = some none :=
  ⟨rfl,
   ((lenient_member_decoding ghostSnapshot).2.1
      { freshScheme ghostSnapshot with
        people := [0],
        groups := [{ title := "G1", maxSize := 3, x := 0, y := 0,
                     members := [some 0, none, none] }] } rfl).2.2,
   (lenient_member_decoding ghostSnapshot).2.2,
   (((lenient_member_decoding ghostSnapshot).1
      { freshScheme ghostSnapshot with people := [0] }
      { title := "G1", maxSize := 3, x := 0, y := 0,
        members := [some "A", some "ghost", none] }).2 1 (some "ghost") (by decide)).2.1
      "ghost" rfl (by decide)⟩

/-! ## Scoring: absent against ranked last -/

theorem score_of_last (person : Person) (group : Group) (front : List String)
    (hprefs : person.groupPreferences = front ++ [group.title])
    (hfront : group.title ∉ front) :
    calculateGroupPreferenceScore person group = 1 := by
  have hmem : group.title ∈ person.groupPreferences := by simp [hprefs]
  rw [score_of_mem person group hmem, hprefs, List.indexOf_append_of_not_mem hfront]
  simp

theorem score_pos_of_mem (person : Person) (group : Group)
    (hmem : group.title ∈ person.groupPreferences) :
    0 < calculateGroupPreferenceScore person group := by
  rw [score_of_mem person group hmem]
  have := List.indexOf_lt_length.mpr hmem
  omega

/-- C21 fails as stated: for the group `Blue`, a person whose only preference is `Red` scores
`0`, and a person with the preferences `Red`, `Blue`, who ranked `Blue` last, scores `1`. -/
theorem preference_score_not_flat :
    "Blue" ∉ (mkPerson "P" [] ["Red"]).groupPreferences ∧
    (mkPerson "Q" [] ["Red", "Blue"]).groupPreferences = ["Red"] ++ ["Blue"] ∧
    calculateGroupPreferenceScore (mkPerson "P" [] ["Red"]) (emptyGroup "Blue") = 0 ∧
    calculateGroupPreferenceScore (mkPerson "Q" [] ["Red", "Blue"]) (emptyGroup "Blue") = 1 ∧
    ¬ (calculateGroupPreferenceScore (mkPerson "P" [] ["Red"]) (emptyGroup "Blue") =
        calculateGroupPreferenceScore (mkPerson "Q" [] ["Red", "Blue"]) (emptyGroup "Blue")) := by
  decide

/-- C21, amended: a person with no stated preference for a group scores `0` for it, the same
as every other person with no stated preference for it; a person who ranked it last scores `1`,
one more; and every person who lists it at all scores strictly more than the person who does
not. -/
theorem preference_score_absent_below_listed (absent listed : Person) (group : Group)
    (habsent : group.title ∉ absent.groupPreferences) :
    calculateGroupPreferenceScore absent group = 0 ∧
    (∀ other : Person, group.title ∉ other.groupPreferences →
      calculateGroupPreferenceScore other group =
        calculateGroupPreferenceScore absent group) ∧
    (∀ front, listed.groupPreferences = front ++ [group.title] → group.title ∉ front →
      calculateGroupPreferenceScore listed group = 1 ∧
      calculateGroupPreferenceScore absent group + 1 =
        calculateGroupPreferenceScore listed group) ∧
    (group.title ∈ listed.groupPreferences →
      calculateGroupPreferenceScore absent group <
        calculateGroupPreferenceScore listed group) := by
  have h0 := score_of_not_mem absent group habsent
  refine ⟨h0, ?_, ?_, ?_⟩
  · intro other hother
    rw [h0, score_of_not_mem other group hother]
  · intro front hprefs hfront
    have h1 := score_of_last listed group front hprefs hfront
    rw [h0, h1]
    exact ⟨rfl, rfl⟩
  · intro hmem
    rw [h0]
    exact score_pos_of_mem listed group hmem

/-- C21, amended, at the group `Blue`: preferences `Red` against preferences `Red`, `Blue`. -/
theorem preference_score_absent_below_listed_witness :
    "Blue" ∉ (mkPerson "P" [] ["Red"]).groupPreferences ∧
    calculateGroupPreferenceScore (mkPerson "P" [] ["Red"]) (emptyGroup "Blue") = 0 ∧
    calculateGroupPreferenceScore (mkPerson "P" [] ["Red"]) (emptyGroup "Blue") + 1 =
      calculateGroupPreferenceScore (mkPerson "Q" [] ["Red", "Blue"]) (emptyGroup "Blue") :=
  ⟨by decide,
   (preference_score_absent_below_listed (mkPerson "P" [] ["Red"])
      (mkPerson "Q" [] ["Red", "Blue"]) (emptyGroup "Blue") (by decide)).1,
   ((preference_score_absent_below_listed (mkPerson "P" [] ["Red"])
      (mkPerson "Q" [] ["Red", "Blue"]) (emptyGroup "Blue") (by decide)).2.2.1
      ["Red"] rfl (by decide)).2⟩

end GroupHat
